import Mathlib

/-!
# The `arsprove` harness (`arsprove/src/arscore.cc`)

A shallow embedding of the execution harness that surrounds the W65C02 core:
the bus callbacks (`read_opcode`, `read_byte`, `fetch_vector_byte`,
`write_byte`), the per-cycle monitor `report_cycle`, and the run loop of `main`.

Conventions.
* The file-scope variables of `arscore.cc` are the fields of `State`.
* `uint8_t`, `uint16_t` and `uint32_t` values are natural numbers; where the C++
  arithmetic can wrap (`++num_cycles`, the packed trace word) the reduction
  modulo `2^32` is written out.
* `throw false` is the constructor `Res.thrown`, which carries the globals as
  they are when the exception leaves the callback.
* The W65C02 core itself (`w65c02.hh`) is an external dependency.  Its pin
  inputs are recorded in the state, and its `reset()` / `step()` are represented
  by the bus callbacks they issue.
-/

namespace Arscore

/-! ## Constants (arscore.cc 11-17, 32) -/

def TERMINATE_ON_BRK : Nat := 0x01
def TERMINATE_ON_INFINITE : Nat := 0x02
def TERMINATE_ON_ZERO : Nat := 0x04
def TERMINATE_ON_STACK : Nat := 0x08
def TERMINATE_ON_VECTOR : Nat := 0x10
def TERMINATE_ON_BAD_WRITE : Nat := 0x20
def TERMINATE_ON_UNUSED_FLAGS : Nat := 0xC0
def MAX_SERIAL_OUT : Nat := 131072

/-! ## Data model -/

/-- Writable range `struct Range` (arscore.cc 19-26); `end_` is the C++ member `end`. -/
structure Range where
  beg : Nat
  end_ : Nat

/-- Inclusive membership test `Range::contains`: `addr >= beg && addr <= end`. -/
def Range.contains (r : Range) (addr : Nat) : Bool :=
  decide (addr ≥ r.beg) && decide (addr ≤ r.end_)

/-- Output encoding `enum class OutFormat` (arscore.cc 33-35). -/
inductive OutFormat where
  | NONE
  | BASE64
  | UTF8
  deriving DecidableEq, Repr

/-- Scheduled pin edge `class Flip` (arscore.cc 46-68): one packed 32-bit word. -/
structure Flip where
  underlying : Nat

/-- Cycle number of a pin edge: `underlying & 0xFFFFFF`. -/
def Flip.getCycle (f : Flip) : Nat := f.underlying &&& 0xFFFFFF

/-- Post-edge level of a pin edge: `(underlying & 0x80000000) != 0`. -/
def Flip.getState (f : Flip) : Bool := (f.underlying &&& 0x80000000) != 0

/-- Pin selector of a pin edge: `(underlying >> 24) & 0x7F`. -/
def Flip.getPin (f : Flip) : Nat := (f.underlying >>> 24) &&& 0x7F

/-- Modelled from the spec: the read classification `W65C02::ReadType` declared in the
external header `w65c02.hh`.  The harness singles out `OPCODE`, `PREEMPTED`,
`DATA_LOCKED` and `IOP_LOCKED`; every other value takes the `default:` branch of
`System::read_byte`, and the spec (section 9) lists `Data` and `Stack` for those. -/
inductive ReadType where
  | OPCODE
  | PREEMPTED
  | DATA
  | DATA_LOCKED
  | IOP_LOCKED
  | STACK
  deriving DecidableEq, Repr

/-- Modelled from the spec: the write classification `W65C02::WriteType` declared in the
external header `w65c02.hh`; the three values are the cases of the `switch` in
`System::write_byte`. -/
inductive WriteType where
  | DATA
  | PUSH
  | DATA_LOCKED
  deriving DecidableEq, Repr

/-- The file-scope variables of `arscore.cc` (lines 18-70) together with the pin inputs
of the external core: `cpu_so`, `cpu_nmi`, `cpu_irq` hold the level most recently
injected through `cpu.set_so` / `set_nmi` / `set_irq`, and `pin_calls` lists every such
call in order as `(pin selector, level)` with selectors 1 = SO, 2 = NMI, 3 = IRQ.
Strings are lists of byte values. -/
structure State where
  sram : Nat → Nat
  ranges : List Range
  serial_in_addr : Nat
  serial_out_addr : Nat
  serial_in : List Nat
  serial_in_pos : Nat
  serial_out : List Nat
  serial_out_fmt : OutFormat
  serial_in_enabled : Bool
  serial_out_enabled : Bool
  last_pc_valid : Bool
  vector_has_been_pulled : Bool
  clear_so_next_cycle : Bool
  last_pc : Nat
  cycles_to_report : Nat
  cycles_to_run : Nat
  num_cycles : Nat
  cycles : List Nat
  terminate_on : Nat
  termination_cause : Nat
  flips : List Flip
  next_flip : Nat
  cpu_so : Bool
  cpu_nmi : Bool
  cpu_irq : Bool
  pin_calls : List (Nat × Bool)

/-- Outcome of a harness function that may `throw false`: either it returns a value with
the updated globals, or the exception leaves it with the globals as they then are. -/
inductive Res (α : Type) where
  | ok (val : α) (s : State)
  | thrown (s : State)

/-- Globals after a call, however it ended. -/
def Res.state {α : Type} : Res α → State
  | Res.ok _ s => s
  | Res.thrown s => s

/-- Whether the call ended by `throw false`. -/
def Res.isThrown {α : Type} : Res α → Bool
  | Res.ok _ _ => false
  | Res.thrown _ => true

/-- C++ truth value of `terminate_on & flag`. -/
def State.enabled (s : State) (flag : Nat) : Bool := (s.terminate_on &&& flag) != 0

/-! ## Pin inputs of the core -/

/-- Modelled from the spec: `cpu.set_so(level)` of the external core, which injects the
SO pin level; the call is recorded. -/
def cpu_set_so (s : State) (level : Bool) : State :=
  { s with cpu_so := level, pin_calls := s.pin_calls ++ [(1, level)] }

/-- Modelled from the spec: `cpu.set_nmi(level)` of the external core, which injects the
NMI pin level; the call is recorded. -/
def cpu_set_nmi (s : State) (level : Bool) : State :=
  { s with cpu_nmi := level, pin_calls := s.pin_calls ++ [(2, level)] }

/-- Modelled from the spec: `cpu.set_irq(level)` of the external core, which injects the
IRQ pin level; the call is recorded. -/
def cpu_set_irq (s : State) (level : Bool) : State :=
  { s with cpu_irq := level, pin_calls := s.pin_calls ++ [(3, level)] }

/-- Pin edge application `Flip::apply` (arscore.cc 60-67). -/
def Flip.apply (f : Flip) (s : State) : State :=
  let state := f.getState
  match f.getPin with
  | 1 => cpu_set_so s state
  | 2 => cpu_set_nmi s state
  | 3 => cpu_set_irq s state
  | _ => s

/-! ## The per-cycle monitor -/

/-- The `while` loop of `report_cycle` (arscore.cc 80-83), run over the entries
`flips[next_flip..]` that are still pending: while the next pending entry is due
(`getCycle() <= num_cycles`), advance `next_flip` and apply the entry. -/
def apply_due_flips : List Flip → State → State
  | [], s => s
  | f :: rest, s =>
    if f.getCycle ≤ s.num_cycles then
      apply_due_flips rest (f.apply { s with next_flip := s.next_flip + 1 })
    else s

/-- First half of `report_cycle` (arscore.cc 72-78): append the packed record to the trace
while budget remains, then `++num_cycles` on the 32-bit counter. -/
def record_cycle (s : State) (cycle_type addr data : Nat) : State :=
  let s1 : State :=
    if s.cycles_to_report > 0 then
      { s with
        cycles := s.cycles ++ [((cycle_type <<< 24) ||| (addr <<< 8) ||| data) % 4294967296],
        cycles_to_report := s.cycles_to_report - 1 }
    else s
  { s1 with num_cycles := (s1.num_cycles + 1) % 4294967296 }

/-- Per-cycle monitor `report_cycle` (arscore.cc 71-84): record the cycle, throw when
`num_cycles == cycles_to_run`, otherwise apply the pin edges that are due. -/
def report_cycle (s : State) (cycle_type addr data : Nat) : Res Unit :=
  let s2 : State := record_cycle s cycle_type addr data
  if s2.num_cycles = s2.cycles_to_run then Res.thrown s2
  else Res.ok () (apply_due_flips (s2.flips.drop s2.next_flip) s2)

/-! ## Bus callbacks (`class System`) -/

/-- Bus read `System::raw_read_byte` (arscore.cc 86-96); returns the byte and the updated
globals. -/
def raw_read_byte (s : State) (addr : Nat) : Nat × State :=
  if s.serial_in_enabled && addr == s.serial_in_addr then
    if s.serial_in_pos ≥ s.serial_in.length then
      (0, cpu_set_so { s with clear_so_next_cycle := true } true)
    else
      (s.serial_in.getD s.serial_in_pos 0, { s with serial_in_pos := s.serial_in_pos + 1 })
  else (s.sram addr, s)

/-- The termination predicates evaluated after an opcode fetch has been reported
(arscore.cc 109-132). -/
def opcode_predicates (s : State) (addr data : Nat) : Res Nat :=
  if s.enabled TERMINATE_ON_INFINITE && addr == s.last_pc && s.last_pc_valid then
    Res.thrown { s with termination_cause := 2 }
  else
    let s : State := { s with last_pc_valid := true, last_pc := addr }
    if s.enabled TERMINATE_ON_ZERO && decide (addr < 0x0100) then
      Res.thrown { s with termination_cause := 3 }
    else if s.enabled TERMINATE_ON_STACK && decide (addr < 0x0200) && decide (addr ≥ 0x0100) then
      Res.thrown { s with termination_cause := 4 }
    else if s.enabled TERMINATE_ON_VECTOR && decide (addr ≥ 0xfffa) then
      Res.thrown { s with termination_cause := 5 }
    else if s.enabled TERMINATE_ON_BRK && data == 0 then
      Res.thrown { s with termination_cause := 1 }
    else Res.ok data s

/-- Read callback `System::read_byte` (arscore.cc 101-148). -/
def read_byte (s : State) (addr : Nat) (read_type : ReadType) : Res Nat :=
  let (data, s) := raw_read_byte s addr
  match read_type with
  | ReadType.OPCODE | ReadType.PREEMPTED =>
    if s.vector_has_been_pulled then
      match report_cycle s 0xF addr data with
      | Res.thrown s => Res.thrown s
      | Res.ok _ s => opcode_predicates s addr data
    else Res.ok data s
  | ReadType.DATA_LOCKED | ReadType.IOP_LOCKED =>
    if s.vector_has_been_pulled then
      match report_cycle s 0x3 addr data with
      | Res.thrown s => Res.thrown s
      | Res.ok _ s => Res.ok data s
    else Res.ok data s
  | _ =>
    if s.vector_has_been_pulled then
      match report_cycle s 0x7 addr data with
      | Res.thrown s => Res.thrown s
      | Res.ok _ s => Res.ok data s
    else Res.ok data s

/-- Opcode read callback `System::read_opcode` (arscore.cc 98-100). -/
def read_opcode (s : State) (addr : Nat) (read_type : ReadType) : Res Nat :=
  read_byte s addr read_type

/-- Vector read callback `System::fetch_vector_byte` (arscore.cc 149-154). -/
def fetch_vector_byte (s : State) (addr : Nat) : Res Nat :=
  let (data, s) := raw_read_byte s addr
  let s : State := { s with vector_has_been_pulled := true }
  match report_cycle s 0x5 addr data with
  | Res.thrown s => Res.thrown s
  | Res.ok _ s => Res.ok data s

/-- The store half of `System::write_byte` (arscore.cc 166-186), after the cycle has been
reported. -/
def write_store (s : State) (addr data : Nat) : Res Unit :=
  if s.serial_out_enabled && addr == s.serial_out_addr then
    if s.serial_out.length ≥ MAX_SERIAL_OUT then
      Res.ok () (cpu_set_so { s with clear_so_next_cycle := true } true)
    else Res.ok () { s with serial_out := s.serial_out ++ [data] }
  else
    let valid := s.ranges.any (fun range => range.contains addr)
    if valid then Res.ok () { s with sram := fun a => if a = addr then data else s.sram a }
    else if s.enabled TERMINATE_ON_BAD_WRITE then
      Res.thrown { s with termination_cause := 6 }
    else Res.ok () s

/-- Write callback `System::write_byte` (arscore.cc 155-187). -/
def write_byte (s : State) (addr data : Nat) (write_type : WriteType) : Res Unit :=
  let r := match write_type with
    | WriteType.DATA | WriteType.PUSH => report_cycle s 0x6 addr data
    | WriteType.DATA_LOCKED => report_cycle s 0x2 addr data
  match r with
  | Res.thrown s => Res.thrown s
  | Res.ok _ s => write_store s addr data

/-! ## The run: `main` (arscore.cc 269-373) -/

/-- One bus cycle requested by the core: which callback it invokes, with which arguments. -/
inductive BusOp where
  | read_opcode (addr : Nat) (read_type : ReadType)
  | read_byte (addr : Nat) (read_type : ReadType)
  | fetch_vector_byte (addr : Nat)
  | write_byte (addr data : Nat) (write_type : WriteType)

/-- Forget the returned value of a call. -/
def Res.void {α : Type} : Res α → Res Unit
  | Res.ok _ s => Res.ok () s
  | Res.thrown s => Res.thrown s

/-- Dispatch of one bus cycle to the callback the core invoked. -/
def callback (s : State) : BusOp → Res Unit
  | BusOp.read_opcode addr rt => (read_opcode s addr rt).void
  | BusOp.read_byte addr rt => (read_byte s addr rt).void
  | BusOp.fetch_vector_byte addr => (fetch_vector_byte s addr).void
  | BusOp.write_byte addr data wt => write_byte s addr data wt

/-- Modelled from the spec: one call of the external core (`cpu.reset()` or `cpu.step()`),
represented by the bus cycles it issues, in order.  The cycles are fed to the callbacks
one after the other; a `throw false` unwinds through the core, so the remaining cycles of
the call are not performed. -/
def run_ops (s : State) : List BusOp → Res Unit
  | [] => Res.ok () s
  | op :: ops =>
    match callback s op with
    | Res.ok _ s1 => run_ops s1 ops
    | Res.thrown s1 => Res.thrown s1

/-- How `main` leaves the run (arscore.cc 350-359).
* `result s`: the run loop was left, by its condition or through `catch(bool)`, and the
  result is emitted from the globals `s`;
* `uncaught s`: a `throw false` was raised outside the `try` block, so the process is
  terminated and no result is emitted;
* `running s`: the listed steps are used up while the loop condition still holds. -/
inductive Outcome where
  | result (s : State)
  | uncaught (s : State)
  | running (s : State)

/-- The run loop of `main` (arscore.cc 351-359): `steps` lists, for each `cpu.step()`, the
bus cycles that step issues. -/
def run_loop (s : State) : List (List BusOp) → Outcome
  | [] => if s.num_cycles < s.cycles_to_run then Outcome.running s else Outcome.result s
  | step :: rest =>
    if s.num_cycles < s.cycles_to_run then
      match run_ops s step with
      | Res.thrown s1 => Outcome.result s1
      | Res.ok _ s1 =>
        run_loop (if s1.clear_so_next_cycle then cpu_set_so s1 false else s1) rest
    else Outcome.result s

/-- The run of `main` from the configured globals `s` (arscore.cc 350-359): `cpu.reset()`,
which is outside the `try` block, then the run loop. -/
def main_run (s : State) (reset : List BusOp) (steps : List (List BusOp)) : Outcome :=
  match run_ops s reset with
  | Res.thrown s1 => Outcome.uncaught s1
  | Res.ok _ s1 => run_loop s1 steps

/-- Name of a termination cause: the `switch` of `main` (arscore.cc 364-373). -/
def cause_name : Nat → String
  | 0 => "limit"
  | 1 => "brk"
  | 2 => "infinite_loop"
  | 3 => "zero_fetch"
  | 4 => "stack_fetch"
  | 5 => "vector_fetch"
  | 6 => "bad_write"
  | _ => "unknown"

/-- Result field `last_pc` (arscore.cc 361-362): present only when `last_pc_valid`. -/
def result_last_pc (s : State) : Option Nat :=
  if s.last_pc_valid then some s.last_pc else none

/-- Result field `num_cycles` (arscore.cc 363). -/
def result_num_cycles (s : State) : Nat := s.num_cycles

/-- Result field `termination_cause` (arscore.cc 364-373). -/
def result_termination_cause (s : State) : String := cause_name s.termination_cause

/-! ## Configuration (the parts of `main` before the run) -/

/-- The initializers of the file-scope variables (arscore.cc 18-70); variables without an
initializer are zero-initialized. -/
def globals_init : State where
  sram := fun _ => 0
  ranges := []
  serial_in_addr := 0
  serial_out_addr := 0
  serial_in := []
  serial_in_pos := 0
  serial_out := []
  serial_out_fmt := OutFormat.NONE
  serial_in_enabled := false
  serial_out_enabled := false
  last_pc_valid := false
  vector_has_been_pulled := false
  clear_so_next_cycle := false
  last_pc := 0
  cycles_to_report := 0
  cycles_to_run := 10000000
  num_cycles := 5
  cycles := []
  terminate_on := (0xFF ^^^ TERMINATE_ON_UNUSED_FLAGS) % 256
  termination_cause := 0
  flips := []
  next_flip := 0
  cpu_so := false
  cpu_nmi := false
  cpu_irq := false
  pin_calls := []

/-- Seeding of the reset vector, `sram[0xFFFD] = 0x02` (arscore.cc 275). -/
def seed_reset_vector (s : State) : State :=
  { s with sram := fun a => if a = 0xFFFD then 0x02 else s.sram a }

/-- Installation of the writable ranges (arscore.cc 277-286): the pairs of `rwmap`,
converted to `uint16_t`, or the single range `0x0000..0x01FF` when the field is absent. -/
def install_rwmap (s : State) : Option (List (Nat × Nat)) → State
  | some rwmap =>
    { s with ranges := s.ranges ++ rwmap.map (fun raw => Range.mk (raw.1 % 65536) (raw.2 % 65536)) }
  | none => { s with ranges := s.ranges ++ [Range.mk 0x0000 0x01FF] }

/-- Job field `max_cycles` (arscore.cc 314-316): a 32-bit unsigned value, when present. -/
def set_max_cycles (s : State) : Option Nat → State
  | some n => { s with cycles_to_run := n }
  | none => s

/-- The configured globals for the empty job `{}`: every optional field is absent, there is
no init record and no pin edge. -/
def empty_job_state : State :=
  set_max_cycles (install_rwmap (seed_reset_vector globals_init) none) none

/-- Modelled from the spec: the program counter that the external core loads from a
vector, low byte first (section 4.E: the seed `memory[0xFFFD] = 0x02` makes the default
reset vector point to `0x0200`). -/
def vector_address (lo hi : Nat) : Nat := lo ||| (hi <<< 8)

/-- The cycles named by scenario 1 from the globals `s`: the two reset-vector fetches at
`0xFFFC` and `0xFFFD`, then one opcode fetch at the address formed by that vector.  The
vector fetches belong to `cpu.reset()`, the opcode fetch to the first `cpu.step()`. -/
def reset_then_first_fetch (s : State) : Outcome :=
  match fetch_vector_byte s 0xFFFC with
  | Res.thrown s1 => Outcome.uncaught s1
  | Res.ok lo s1 =>
    match fetch_vector_byte s1 0xFFFD with
    | Res.thrown s2 => Outcome.uncaught s2
    | Res.ok hi s2 =>
      run_loop s2 [[BusOp.read_opcode (vector_address lo hi) ReadType.OPCODE]]

/-- Globals at the end of a run, however it ended. -/
def Outcome.state : Outcome → State
  | Outcome.result s => s
  | Outcome.uncaught s => s
  | Outcome.running s => s

/-- Whether the run reached the emission of the result. -/
def Outcome.isResult : Outcome → Bool
  | Outcome.result _ => true
  | _ => false

end Arscore

/-! ## Specification-side and auxiliary definitions -/

namespace Arscore

/-- The predicate table of the specification (section 4.C), read in its stated order with
every predicate enabled: the cause name of the first predicate that matches an opcode fetch
of `data` at `addr`, or `none` when none of the five matches. -/
def first_matching_predicate (last_pc_valid : Bool) (last_pc addr data : Nat) :
    Option String :=
  if last_pc_valid = true ∧ addr = last_pc then some "infinite_loop"
  else if addr < 0x0100 then some "zero_fetch"
  else if 0x0100 ≤ addr ∧ addr < 0x0200 then some "stack_fetch"
  else if addr ≥ 0xFFFA then some "vector_fetch"
  else if data = 0x00 then some "brk"
  else none

/-- The cycle limit is reached on the next reported cycle: incrementing the 32-bit counter
`num_cycles` makes it equal to `cycles_to_run`. -/
def limit_reached (s : State) : Prop := (s.num_cycles + 1) % 4294967296 = s.cycles_to_run

instance (s : State) : Decidable (limit_reached s) := by
  unfold limit_reached; infer_instance

/-- Globals of the empty job once `cpu.reset()` has pulled the reset vector: the two vector
fetches have been reported, so `num_cycles` is 7. -/
def empty_job_after_reset : State :=
  { empty_job_state with vector_has_been_pulled := true, num_cycles := 7 }

/-- The bus cycles that `run_ops` performs, each paired with the globals just before it:
the listed cycles up to and including the first one that throws. -/
def ops_trace (s : State) : List BusOp → List (State × BusOp)
  | [] => []
  | op :: ops =>
    (s, op) ::
      match callback s op with
      | Res.ok _ s1 => ops_trace s1 ops
      | Res.thrown _ => []

/-- The bus cycles that `run_loop` performs, each paired with the globals just before it. -/
def loop_trace (s : State) : List (List BusOp) → List (State × BusOp)
  | [] => []
  | step :: rest =>
    if s.num_cycles < s.cycles_to_run then
      ops_trace s step ++
        match run_ops s step with
        | Res.thrown _ => []
        | Res.ok _ s1 =>
          loop_trace (if s1.clear_so_next_cycle then cpu_set_so s1 false else s1) rest
    else []

/-- The bus cycles that `main_run` performs, each paired with the globals just before it. -/
def main_trace (s : State) (reset : List BusOp) (steps : List (List BusOp)) :
    List (State × BusOp) :=
  ops_trace s reset ++
    match run_ops s reset with
    | Res.thrown _ => []
    | Res.ok _ s1 => loop_trace s1 steps

/-- Address of a bus cycle that is a reported opcode fetch: a read of type OPCODE or
PREEMPTED made once the vector has been pulled. -/
def reported_opcode_fetch : State × BusOp → Option Nat
  | (s, BusOp.read_opcode addr rt) =>
    if (rt = ReadType.OPCODE ∨ rt = ReadType.PREEMPTED) ∧ s.vector_has_been_pulled = true
    then some addr else none
  | (s, BusOp.read_byte addr rt) =>
    if (rt = ReadType.OPCODE ∨ rt = ReadType.PREEMPTED) ∧ s.vector_has_been_pulled = true
    then some addr else none
  | _ => none

/-- Address of a bus cycle that is a reported opcode fetch on which the cycle limit is not
reached. -/
def unlimited_opcode_fetch (e : State × BusOp) : Option Nat :=
  if limit_reached e.1 then none else reported_opcode_fetch e

/-- Last element of `l`, or `d` when `l` is empty. -/
def last_or (l : List Nat) (d : Option Nat) : Option Nat :=
  match l.getLast? with
  | some a => some a
  | none => d

/-- Globals after a reported cycle that does not reach the limit: the cycle recorded, then
the due pin edges applied (the non-throwing path of `report_cycle`). -/
def after_report (s : State) (cycle_type addr data : Nat) : State :=
  apply_due_flips ((record_cycle s cycle_type addr data).flips.drop
    (record_cycle s cycle_type addr data).next_flip) (record_cycle s cycle_type addr data)

/-- Cycle-type nibble that `read_byte` reports for a read classification (the three
branches of its `switch`). -/
def read_cycle_type : ReadType → Nat
  | ReadType.OPCODE => 0xF
  | ReadType.PREEMPTED => 0xF
  | ReadType.DATA_LOCKED => 0x3
  | ReadType.IOP_LOCKED => 0x3
  | _ => 0x7

/-- Cycle-type nibble that `write_byte` reports for a write classification. -/
def write_cycle_type : WriteType → Nat
  | WriteType.DATA => 0x6
  | WriteType.PUSH => 0x6
  | WriteType.DATA_LOCKED => 0x2

/-- The configured globals for a job whose only field is `max_cycles`. -/
def max_cycles_job_state (max_cycles : Nat) : State :=
  set_max_cycles (install_rwmap (seed_reset_vector globals_init) none) (some max_cycles)

/-- Modelled from the spec: the bus cycles of `cpu.reset()` that reach the monitor, the two
reset-vector fetches at `0xFFFC` and `0xFFFD` (section 4.A). -/
def reset_vector_fetches : List BusOp :=
  [BusOp.fetch_vector_byte 0xFFFC, BusOp.fetch_vector_byte 0xFFFD]

/-- Globals one cycle short of the limit, after reset: `num_cycles` is 7 and
`cycles_to_run` is 8, so the next reported cycle reaches the cycle limit. -/
def last_cycle_state : State :=
  { empty_job_after_reset with cycles_to_run := 8 }

/-- Globals after reset of the empty job with the bad-write predicate cleared, as by the job
field `terminate_on_bad_write: false` (arscore.cc 332-334, `terminate_on &= ~0x20`). -/
def bad_write_disabled_state : State :=
  { empty_job_after_reset with terminate_on := 0x1F }

/-- Whether a bus cycle is reported to the monitor: a read through `read_opcode` or
`read_byte` once the vector has been pulled, every vector fetch, every write. -/
def reports (s : State) : BusOp → Bool
  | BusOp.read_opcode _ _ => s.vector_has_been_pulled
  | BusOp.read_byte _ _ => s.vector_has_been_pulled
  | BusOp.fetch_vector_byte _ => true
  | BusOp.write_byte _ _ _ => true

/-- Whether a bus cycle is a read through `read_opcode` or `read_byte`; the cycles of
`cpu.reset()` that precede the vector fetches are of this kind. -/
def is_plain_read : BusOp → Bool
  | BusOp.read_opcode _ _ => true
  | BusOp.read_byte _ _ => true
  | _ => false

/-- A sample of the reads that `cpu.reset()` makes before it pulls the vector: five reads,
which the monitor does not report. -/
def reset_prologue : List BusOp :=
  [BusOp.read_byte 0x0000 ReadType.OPCODE, BusOp.read_byte 0x0000 ReadType.DATA,
   BusOp.read_byte 0x0100 ReadType.STACK, BusOp.read_byte 0x01FF ReadType.STACK,
   BusOp.read_byte 0x01FE ReadType.STACK]

/-- Globals after `n` successive reads of the serial-in address. -/
def serial_in_reads (s : State) : Nat → State
  | 0 => s
  | n + 1 => (raw_read_byte (serial_in_reads s n) s.serial_in_addr).2

/-- Globals after reset for the serial echo scenario: serial-in at `0xF004` with input
`"Hi"` (arscore.cc 287-293). -/
def serial_in_state : State :=
  { empty_job_after_reset with
    serial_in_addr := 0xF004, serial_in_enabled := true, serial_in := [0x48, 0x69] }

/-- Globals after reset for the serial echo scenario: serial-out at `0xF001`
(arscore.cc 294-297), buffer still empty. -/
def serial_out_state : State :=
  { empty_job_after_reset with serial_out_addr := 0xF001, serial_out_enabled := true }

/-- The serial-out globals one cycle short of the limit: `num_cycles` is 7 and
`cycles_to_run` is 8. -/
def serial_out_last_cycle_state : State :=
  { serial_out_state with cycles_to_run := 8 }

/-! ## Configuration of the termination predicates (arscore.cc 317-334) -/

/-- Statement `terminate_on &= ~flag` on the 8-bit variable: the complement is taken on
the promoted 32-bit value and the result is stored back into eight bits. -/
def clear_terminate_flag (s : State) (flag : Nat) : State :=
  { s with terminate_on := (s.terminate_on &&& (0xFFFFFFFF ^^^ flag)) % 256 }

/-- One job field `terminate_on_X` (arscore.cc 317-334): the predicate bit is cleared when
the field is present and `false`, and left alone when it is absent or `true`. -/
def apply_terminate_field (s : State) (flag : Nat) : Option Bool → State
  | some false => clear_terminate_flag s flag
  | _ => s

/-- The six job fields `terminate_on_*`, each absent or a boolean. -/
structure TerminateFields where
  terminate_on_brk : Option Bool
  terminate_on_infinite_loop : Option Bool
  terminate_on_zero_fetch : Option Bool
  terminate_on_stack_fetch : Option Bool
  terminate_on_vector_fetch : Option Bool
  terminate_on_bad_write : Option Bool

/-- The job without any `terminate_on_*` field. -/
def no_terminate_fields : TerminateFields :=
  { terminate_on_brk := none, terminate_on_infinite_loop := none,
    terminate_on_zero_fetch := none, terminate_on_stack_fetch := none,
    terminate_on_vector_fetch := none, terminate_on_bad_write := none }

/-- The six `if` statements of `main` that read the `terminate_on_*` fields, in source
order (arscore.cc 317-334). -/
def configure_terminate_on (s : State) (job : TerminateFields) : State :=
  let s := apply_terminate_field s TERMINATE_ON_BRK job.terminate_on_brk
  let s := apply_terminate_field s TERMINATE_ON_INFINITE job.terminate_on_infinite_loop
  let s := apply_terminate_field s TERMINATE_ON_ZERO job.terminate_on_zero_fetch
  let s := apply_terminate_field s TERMINATE_ON_STACK job.terminate_on_stack_fetch
  let s := apply_terminate_field s TERMINATE_ON_VECTOR job.terminate_on_vector_fetch
  apply_terminate_field s TERMINATE_ON_BAD_WRITE job.terminate_on_bad_write

/-- The predicate bit that guards each termination cause other than the cycle limit: the
cause numbers of arscore.cc 111-130 and 183 against the constants of lines 11-16. -/
def cause_flag : Nat → Nat
  | 1 => TERMINATE_ON_BRK
  | 2 => TERMINATE_ON_INFINITE
  | 3 => TERMINATE_ON_ZERO
  | 4 => TERMINATE_ON_STACK
  | 5 => TERMINATE_ON_VECTOR
  | 6 => TERMINATE_ON_BAD_WRITE
  | _ => 0

/-- The six predicate bits. -/
def predicate_flags : List Nat :=
  [TERMINATE_ON_BRK, TERMINATE_ON_INFINITE, TERMINATE_ON_ZERO, TERMINATE_ON_STACK,
   TERMINATE_ON_VECTOR, TERMINATE_ON_BAD_WRITE]

/-- A termination cause is allowed by the predicate mask of `s`: it is 0 (`"limit"`) or one
of the causes 1..6 whose predicate bit is set. -/
def cause_allowed (s : State) : Prop :=
  s.termination_cause = 0 ∨
    (1 ≤ s.termination_cause ∧ s.termination_cause ≤ 6 ∧
      s.enabled (cause_flag s.termination_cause) = true)

/-- The eight single-bit masks of the 8-bit predicate variable. -/
def bit_masks : List Nat := [0x01, 0x02, 0x04, 0x08, 0x10, 0x20, 0x40, 0x80]

/-! ## The trace: auxiliary definitions -/

/-- The packed trace word that `report_cycle` appends (arscore.cc 73-75), as a 32-bit
value. -/
def pack_cycle (cycle_type addr data : Nat) : Nat :=
  ((cycle_type <<< 24) ||| (addr <<< 8) ||| data) % 4294967296

/-- Cycle-type nibble of a trace word: bits 24..27, the leading digit of the seven that are
rendered. -/
def cycle_nibble (entry : Nat) : Nat := (entry >>> 24) &&& 0xF

/-- The classification table of the specification (section 4.A): the nibble fixed by the
callback and the access type. -/
def claimed_nibble : BusOp → Nat
  | BusOp.read_opcode _ ReadType.OPCODE => 0xF
  | BusOp.read_opcode _ ReadType.PREEMPTED => 0xF
  | BusOp.read_opcode _ ReadType.DATA_LOCKED => 0x3
  | BusOp.read_opcode _ ReadType.IOP_LOCKED => 0x3
  | BusOp.read_opcode _ _ => 0x7
  | BusOp.read_byte _ ReadType.OPCODE => 0xF
  | BusOp.read_byte _ ReadType.PREEMPTED => 0xF
  | BusOp.read_byte _ ReadType.DATA_LOCKED => 0x3
  | BusOp.read_byte _ ReadType.IOP_LOCKED => 0x3
  | BusOp.read_byte _ _ => 0x7
  | BusOp.fetch_vector_byte _ => 0x5
  | BusOp.write_byte _ _ WriteType.DATA => 0x6
  | BusOp.write_byte _ _ WriteType.PUSH => 0x6
  | BusOp.write_byte _ _ WriteType.DATA_LOCKED => 0x2

/-- Cycle type that the callback of a bus cycle passes to `report_cycle`. -/
def bus_cycle_type : BusOp → Nat
  | BusOp.read_opcode _ rt => read_cycle_type rt
  | BusOp.read_byte _ rt => read_cycle_type rt
  | BusOp.fetch_vector_byte _ => 0x5
  | BusOp.write_byte _ _ wt => write_cycle_type wt

/-- Address of a bus cycle. -/
def bus_addr : BusOp → Nat
  | BusOp.read_opcode addr _ => addr
  | BusOp.read_byte addr _ => addr
  | BusOp.fetch_vector_byte addr => addr
  | BusOp.write_byte addr _ _ => addr

/-- Data byte of a bus cycle: the byte read from the bus, or the byte written. -/
def bus_data (s : State) : BusOp → Nat
  | BusOp.read_opcode addr _ => (raw_read_byte s addr).1
  | BusOp.read_byte addr _ => (raw_read_byte s addr).1
  | BusOp.fetch_vector_byte addr => (raw_read_byte s addr).1
  | BusOp.write_byte _ data _ => data

/-- The arguments of a bus cycle fit their C++ types: a 16-bit address and, for a write, an
8-bit data byte. -/
def bus_op_typed : BusOp → Prop
  | BusOp.read_opcode addr _ => addr < 65536
  | BusOp.read_byte addr _ => addr < 65536
  | BusOp.fetch_vector_byte addr => addr < 65536
  | BusOp.write_byte addr data _ => addr < 65536 ∧ data < 256

instance (op : BusOp) : Decidable (bus_op_typed op) := by
  cases op <;> unfold bus_op_typed <;> infer_instance

/-- The memory image and the serial input hold bytes. -/
def bytes_typed (s : State) : Prop :=
  (∀ a, s.sram a < 256) ∧ (∀ b ∈ s.serial_in, b < 256)

/-- The 32-bit cycle counter does not wrap on the next reported cycle. -/
def no_wrap (s : State) : Prop := s.num_cycles + 1 < 4294967296

/-- The configured globals for a job with `show_cycles: true` and nothing else
(arscore.cc 311-313): a trace budget of 1000 entries. -/
def show_cycles_job_state : State :=
  { empty_job_state with cycles_to_report := 1000 }

/-- The trace invariant of a run with budget `B`: the entries recorded and the budget left
add up to `B`, and every entry has been counted in `num_cycles`, which started at 5. -/
def trace_counted (B : Nat) (s : State) : Prop :=
  s.cycles.length + s.cycles_to_report = B ∧ s.cycles.length + 5 ≤ s.num_cycles

/-- The six cycle types that a trace entry can carry. -/
def cycle_types : List Nat := [0x2, 0x3, 0x5, 0x6, 0x7, 0xF]

/-! ## The pin-edge schedule: auxiliary definitions -/

/-- The pin setter call that `Flip::apply` makes for an entry: one call for the pins 1, 2
and 3, none for any other selector. -/
def flip_calls (f : Flip) : List (Nat × Bool) :=
  match f.getPin with
  | 1 => [(1, f.getState)]
  | 2 => [(2, f.getState)]
  | 3 => [(3, f.getState)]
  | _ => []

/-- Number of leading entries of the pending list `l` that are due at cycle count `n`. -/
def due_count : List Flip → Nat → Nat
  | [], _ => 0
  | f :: rest, n => if f.getCycle ≤ n then due_count rest n + 1 else 0

/-- The pin-edge list is sorted ascending by cycle. -/
def flips_sorted (s : State) : Prop :=
  s.flips.Pairwise (fun f g => f.getCycle ≤ g.getCycle)

/-- Scheduler invariant: `next_flip` is within the list, the list is sorted by cycle, and
every entry already applied (index below `next_flip`) has its cycle at or below
`num_cycles`. -/
def flips_applied_due (s : State) : Prop :=
  s.next_flip ≤ s.flips.length ∧ flips_sorted s ∧
    ∀ f ∈ s.flips.take s.next_flip, f.getCycle ≤ s.num_cycles

/-- The entries that have been applied are exactly the entries whose cycle is at or below
`num_cycles`: index `i` is below `next_flip` if and only if entry `i` is due. -/
def applied_exactly_due (s : State) : Prop :=
  ∀ (i : Nat) (h : i < s.flips.length),
    i < s.next_flip ↔ (s.flips.get ⟨i, h⟩).getCycle ≤ s.num_cycles

/-- Globals of a job with `nmi: [6, 9]` and a trace budget left out: the merged pin-edge
list holds the NMI assertion at cycle 6 and the deassertion at cycle 9
(words `0x82000006` and `0x02000009`). -/
def nmi_job_state : State :=
  { empty_job_state with flips := [Flip.mk 0x82000006, Flip.mk 0x02000009] }

/-! ## Tagged strings and init records (arscore.cc 190-251) -/

/-- Byte values of an ASCII text; a `std::string` is the list of its byte values. -/
def ascii (text : String) : List Nat := text.toList.map Char.toNat

/-- Value of a base64 digit, `unbase64` (arscore.cc 190-198); the character codes are
`A` 65, `Z` 90, `a` 97, `z` 122, `0` 48, `9` 57, `+` 43, `/` 47. -/
def unbase64 (digit : Nat) : Nat :=
  if digit ≥ 65 ∧ digit ≤ 90 then digit - 65
  else if digit ≥ 97 ∧ digit ≤ 122 then digit - 97 + 26
  else if digit ≥ 48 ∧ digit ≤ 57 then digit - 48 + 52
  else if digit = 43 then 62
  else if digit = 47 then 63
  else 0

/-- Expression `p >= source.end() ? '=' : *p++` of `data_decode`: the next character and
the advanced cursor, or the pad character 61 at the end. -/
def next_or_pad : List Nat → Nat × List Nat
  | [] => (61, [])
  | c :: rest => (c, rest)

/-- Condition `p >= source.end() || *p == '='` of `data_decode`. -/
def at_end_or_pad : List Nat → Bool
  | [] => true
  | c :: _ => c == 61

/-- One iteration of the `while` loop of `data_decode` (arscore.cc 211-224): `digit` is the
character `*p++` read first, `p` the cursor after it; returns the bytes pushed and the
cursor after the iteration. -/
def decode_group (digit : Nat) (p : List Nat) : List Nat × List Nat :=
  let a := unbase64 digit
  let (cb, p) := next_or_pad p
  let b := unbase64 cb
  let count := 3
  let count := if at_end_or_pad p then 1 else count
  let (cc, p) := next_or_pad p
  let c := unbase64 cc
  let count := if at_end_or_pad p then 2 else count
  let (cd, p) := next_or_pad p
  let d := unbase64 cd
  let ret := [((a <<< 2) ||| (b >>> 4)) % 256]
  let ret :=
    if count ≥ 2 then
      let ret := ret ++ [((b <<< 4) ||| (c >>> 2)) % 256]
      if count ≥ 3 then ret ++ [((c <<< 6) ||| d) % 256] else ret
    else ret
  (ret, p)

/-- The `while(p < source.end())` loop of `data_decode`; every iteration reads at least one
character, so a fuel equal to the number of characters left is enough. -/
def decode_loop : Nat → List Nat → List Nat
  | 0, _ => []
  | _, [] => []
  | fuel + 1, digit :: p =>
    let (bytes, rest) := decode_group digit p
    bytes ++ decode_loop fuel rest

/-- Decoder of tagged strings, `data_decode` (arscore.cc 199-232): `none` is the abort on an
unknown format. -/
def data_decode (source : List Nat) : Option (List Nat) :=
  if source.take 5 = ascii "utf8:" then some (source.drop 5)
  else if source.take 7 = ascii "base64:" then
    some (decode_loop (source.drop 7).length (source.drop 7))
  else none

/-- The table `BASE64_DIGITS` of the encoder in `main` (arscore.cc 390-397). -/
def BASE64_DIGITS : List Nat :=
  ascii "ABCDEFGHIJKLMNOPQRSTUVWXYZabcdefghijklmnopqrstuvwxyz0123456789+/"

/-- The groups emitted by the base64 encoder of `main` (arscore.cc 402-431) for the bytes
from the cursor `n` on: four digits for each full group of three bytes (the `while` loop),
then the `switch` on the one or two bytes left; 61 is the pad character. -/
def encode_groups : List Nat → List Nat
  | a :: b :: c :: rest =>
    [BASE64_DIGITS.getD (a >>> 2) 0,
     BASE64_DIGITS.getD (((a <<< 4) &&& 0x30) ||| (b >>> 4)) 0,
     BASE64_DIGITS.getD (((b <<< 2) &&& 0x3C) ||| (c >>> 6)) 0,
     BASE64_DIGITS.getD (c &&& 0x3F) 0] ++ encode_groups rest
  | [a, b] =>
    [BASE64_DIGITS.getD (a >>> 2) 0,
     BASE64_DIGITS.getD (((a <<< 4) &&& 0x30) ||| (b >>> 4)) 0,
     BASE64_DIGITS.getD ((b <<< 2) &&& 0x3C) 0,
     61]
  | [a] =>
    [BASE64_DIGITS.getD (a >>> 2) 0,
     BASE64_DIGITS.getD ((a <<< 4) &&& 0x30) 0,
     61, 61]
  | [] => []

/-- The base64 branch of the result emission (arscore.cc 389-433): the tag followed by the
encoded groups. -/
def base64_encode (serial_out : List Nat) : List Nat :=
  ascii "base64:" ++ encode_groups serial_out

/-- One init record of the job: `base`, the tagged string `data`, and the optional `size`. -/
structure InitRecord where
  base : Nat
  data : List Nat
  size : Option Nat

/-- The `while(rem-- > 0)` loop of `write_init_records` (arscore.cc 246-249), with the
16-bit cursor `i` into memory and the cursor `j` into the decoded data. -/
def init_loop (data : List Nat) : Nat → Nat → Nat → (Nat → Nat) → (Nat → Nat)
  | 0, _, _, sram => sram
  | rem + 1, i, j, sram =>
    let sram := fun a => if a = i then data.getD j 0 else sram a
    let i := (i + 1) % 65536
    let j := j + 1
    let j := if j ≥ data.length then 0 else j
    init_loop data rem i j sram

/-- One record of `write_init_records` (arscore.cc 235-249); `none` is an abort, on an
unknown data format or on empty data. -/
def write_init_record (sram : Nat → Nat) (record : InitRecord) : Option (Nat → Nat) :=
  let i := record.base % 65536
  match data_decode record.data with
  | none => none
  | some data =>
    if data.isEmpty then none
    else
      let rem := match record.size with
        | some size => size
        | none => data.length % 4294967296
      some (init_loop data rem i 0 sram)

/-- Application of the init records, `write_init_records` (arscore.cc 233-251). -/
def write_init_records (sram : Nat → Nat) : List InitRecord → Option (Nat → Nat)
  | [] => some sram
  | record :: records =>
    match write_init_record sram record with
    | none => none
    | some sram => write_init_records sram records

/-! ## Base64 as specified (RFC 4648, section 4) -/

/-- The base64 alphabet of RFC 4648 as character codes: values 0..25 are `A`..`Z`, 26..51
are `a`..`z`, 52..61 are `0`..`9`, 62 is `+` and 63 is `/`. -/
def rfc4648_digit (v : Nat) : Nat :=
  if v < 26 then 65 + v
  else if v < 52 then 97 + (v - 26)
  else if v < 62 then 48 + (v - 52)
  else if v = 62 then 43
  else 47

/-- The standard padded base64 encoding of a byte string, as RFC 4648 words it: each group
of three bytes is a 24-bit number read as four 6-bit digits; a final group of one byte is
its 8 bits followed by four zero bits, two digits and `==`; a final group of two bytes is
its 16 bits followed by two zero bits, three digits and `=`. -/
def rfc4648_encode : List Nat → List Nat
  | a :: b :: c :: rest =>
    [rfc4648_digit ((a * 65536 + b * 256 + c) / 262144),
     rfc4648_digit ((a * 65536 + b * 256 + c) / 4096 % 64),
     rfc4648_digit ((a * 65536 + b * 256 + c) / 64 % 64),
     rfc4648_digit ((a * 65536 + b * 256 + c) % 64)] ++ rfc4648_encode rest
  | [a, b] =>
    [rfc4648_digit ((a * 256 + b) * 4 / 4096),
     rfc4648_digit ((a * 256 + b) * 4 / 64 % 64),
     rfc4648_digit ((a * 256 + b) * 4 % 64),
     61]
  | [a] =>
    [rfc4648_digit (a * 16 / 64),
     rfc4648_digit (a * 16 % 64),
     61, 61]
  | [] => []

/-! ## Serial-out configuration and the remaining result fields -/

/-- Job fields `serial_out_addr` and `serial_out_fmt` (arscore.cc 294-310): the address,
converted to `uint16_t`, enables the port; the format must be `"utf8"` or `"base64"`, any
other text is a configuration error (`return 1`), here `none`. -/
def configure_serial_out (s : State) (serial_out_addr : Option Nat)
    (serial_out_fmt : Option (List Nat)) : Option State :=
  let s : State :=
    match serial_out_addr with
    | some addr => { s with serial_out_addr := addr % 65536, serial_out_enabled := true }
    | none => s
  match serial_out_fmt with
  | none => some s
  | some fmt =>
    if fmt = ascii "utf8" then some { s with serial_out_fmt := OutFormat.UTF8 }
    else if fmt = ascii "base64" then some { s with serial_out_fmt := OutFormat.BASE64 }
    else none

/-- Result field `serial_out_data` (arscore.cc 383-434): absent for the format `NONE`,
otherwise the buffer as a tagged string. -/
def result_serial_out_data (s : State) : Option (List Nat) :=
  match s.serial_out_fmt with
  | OutFormat.NONE => none
  | OutFormat.UTF8 => some (ascii "utf8:" ++ s.serial_out)
  | OutFormat.BASE64 => some (base64_encode s.serial_out)

/-- Globals at the end of the serial echo scenario: format base64, buffer `"Hi"`. -/
def serial_echo_end_state : State :=
  { serial_out_state with serial_out_fmt := OutFormat.BASE64, serial_out := [0x48, 0x69] }

/-! ## Rendering of the trace (arscore.cc 374-382) -/

/-- Character code of an uppercase hexadecimal digit, as the conversion `%X` prints it:
`0`..`9` are 48..57 and `A`..`F` are 65..70. -/
def hex_digit (v : Nat) : Nat := if v < 10 then 48 + v else 55 + v

/-- Call `snprintf(buf, 8, "%07X", cycle & 0xFFFFFFF)`: the masked word is below `16^7`, so
the conversion prints exactly its seven hexadecimal digits, zero padded, most significant
first. -/
def render_cycle (cycle : Nat) : List Nat :=
  let v := cycle &&& 0xFFFFFFF
  [hex_digit (v / 16777216 % 16), hex_digit (v / 1048576 % 16), hex_digit (v / 65536 % 16),
   hex_digit (v / 4096 % 16), hex_digit (v / 256 % 16), hex_digit (v / 16 % 16),
   hex_digit (v % 16)]

/-- Result field `cycles` (arscore.cc 374-382): present when the trace is not empty. -/
def result_cycles (s : State) : Option (List (List Nat)) :=
  if s.cycles.isEmpty then none else some (s.cycles.map render_cycle)

/-- Value of an uppercase hexadecimal digit character. -/
def hex_value (ch : Nat) : Nat := if ch < 58 then ch - 48 else ch - 55

/-- Reading of a rendered trace string: the type nibble from the first character, the
address from the next four, the data byte from the last two. -/
def parse_cycle : List Nat → Option (Nat × Nat × Nat)
  | [c0, c1, c2, c3, c4, c5, c6] =>
    some (hex_value c0,
      hex_value c1 * 4096 + hex_value c2 * 256 + hex_value c3 * 16 + hex_value c4,
      hex_value c5 * 16 + hex_value c6)
  | _ => none

/-- The sixteen uppercase hexadecimal digit characters. -/
def hex_chars : List Nat := ascii "0123456789ABCDEF"

/-! ## Construction of the pin-edge schedule (arscore.cc 252-266) -/

/-- The loop `for(auto cycle : v)` of `add_flips` (arscore.cc 260-265): `state` is the
running level before the entry, `flip_type` the selector already shifted to bits 24..30. -/
def add_flips_entries (flip_type : Nat) : Bool → List Nat → List Flip
  | _, [] => []
  | state, cycle :: v =>
    let state := !state
    Flip.mk ((if state then 0x80000000 else 0) ||| flip_type ||| cycle) ::
      add_flips_entries flip_type state v

/-- The entries that `add_flips` appends for the cycle list `src` of one pin: the cycles
sorted ascending (`std::sort` on integers, computed here by insertion sort), the selector
shifted left by 24 in 32 bits, then the loop. -/
def new_flips (src : List Nat) (flip_type : Nat) : List Flip :=
  add_flips_entries ((flip_type <<< 24) % 4294967296) false
    (src.insertionSort (fun x y => x ≤ y))

/-- Procedure `add_flips` (arscore.cc 252-266): it appends the new entries to `flips`. -/
def add_flips (s : State) (src : List Nat) (flip_type : Nat) : State :=
  { s with flips := s.flips ++ new_flips src flip_type }

/-! ## The address-bus word of the bench firmware (arduino-code/CPU.hh 105-122) -/

/-- Packing `CPU::BUS` (CPU.hh 115-122): the port-C word that carries the 16-bit address
`addr` and the four control lines; `ret` is a `uint32_t`. -/
def CPU.BUS (addr : Nat) (rwb vpb mlb sync : Bool) : Nat :=
  let ret := (((addr &&& 0xFF) <<< 1) ||| ((addr >>> 8) <<< 12)) % 4294967296
  let ret := if rwb then ret ||| 0x200 else ret
  let ret := if !vpb then ret ||| (1 <<< 21) else ret
  let ret := if !mlb then ret ||| (1 <<< 22) else ret
  let ret := if sync then ret ||| (1 <<< 23) else ret
  ret

/-- Decoding `CPU::cookABus` (CPU.hh 105-111): the outputs `addr` (a `uint16_t`), `rwb`,
`vpb`, `mlb` and `sync`, in that order. -/
def CPU.cookABus (bus : Nat) : Nat × Bool × Bool × Bool × Bool :=
  let addr := (((bus >>> 1) &&& 0xFF) ||| ((bus >>> 4) &&& 0xFF00)) % 65536
  let rwb := (bus &&& 0x200) != 0
  let vpb := (bus &&& (1 <<< 21)) == 0
  let mlb := (bus &&& (1 <<< 22)) == 0
  let sync := (bus &&& (1 <<< 23)) != 0
  (addr, rwb, vpb, mlb, sync)

/-- Numeric value of a control line: 1 when set. -/
def bit_value (b : Bool) : Nat := if b then 1 else 0

/-- The bus word as a sum of fields on disjoint bits: the low address byte at bits 1..8, RWB
at bit 9, the high address byte at bits 12..19, inverted VPB at bit 21, inverted MLB at
bit 22 and SYNC at bit 23. -/
def CPU.bus_sum (addr : Nat) (rwb vpb mlb sync : Bool) : Nat :=
  2 * (addr % 256) + 512 * bit_value rwb + 4096 * (addr / 256) + 2097152 * bit_value (!vpb)
    + 4194304 * bit_value (!mlb) + 8388608 * bit_value sync

/-! ## The limit cycle: auxiliary definition -/

/-- Globals at the moment a callback calls `report_cycle`: a read has gone through
`raw_read_byte`, a vector fetch has also set `vector_has_been_pulled`, and a write has
done nothing yet. -/
def before_report (s : State) : BusOp → State
  | BusOp.read_opcode addr _ => (raw_read_byte s addr).2
  | BusOp.read_byte addr _ => (raw_read_byte s addr).2
  | BusOp.fetch_vector_byte addr =>
    { (raw_read_byte s addr).2 with vector_has_been_pulled := true }
  | BusOp.write_byte _ _ _ => s

/-- Globals of the job `nmi: [6, 9]`, `max_cycles: 6` once the vector has been pulled with
`num_cycles` still 5: the next reported cycle reaches the limit, and the NMI assertion
scheduled for cycle 6 is pending. -/
def nmi_limit_state : State :=
  { nmi_job_state with vector_has_been_pulled := true, cycles_to_run := 6 }

/-! ## Cycles before the vector is pulled: auxiliary definitions -/

/-- Whether a read of `addr` finds the serial-in port drained: the port is enabled, `addr`
is its address and the input is used up (the branch of `raw_read_byte` that asserts SO). -/
def drained_read (s : State) (addr : Nat) : Bool :=
  s.serial_in_enabled && addr == s.serial_in_addr && decide (s.serial_in_pos ≥ s.serial_in.length)

/-- Whether a bus cycle is a vector fetch. -/
def is_vector_fetch : BusOp → Bool
  | BusOp.fetch_vector_byte _ => true
  | _ => false

/-- Globals of the empty job with serial-in enabled at address 0 and no input, before the
vector is pulled (the job `{"serial_in_addr": 0}`). -/
def drained_serial_job_state : State :=
  { empty_job_state with serial_in_addr := 0, serial_in_enabled := true }

/-- Globals of a job with `nmi: [6, 9]` and `show_cycles: true`, before `cpu.reset()`: the
vector has not been pulled and `num_cycles` is 5. -/
def nmi_show_cycles_job_state : State :=
  { nmi_job_state with cycles_to_report := 1000 }

/-! ## The flag `clear_so_next_cycle`: a scenario -/

/-- The bus cycles of `LDA $F004` at `0x0200`: the opcode fetch, two operand reads and the
read of the serial-in port. -/
def lda_serial_step : List BusOp :=
  [BusOp.read_opcode 0x0200 ReadType.OPCODE, BusOp.read_byte 0x0201 ReadType.DATA,
   BusOp.read_byte 0x0202 ReadType.DATA, BusOp.read_byte 0xF004 ReadType.DATA]

/-- The bus cycles of `NOP` at `0x0203`: the opcode fetch and one more read; neither
touches a serial port. -/
def nop_step : List BusOp :=
  [BusOp.read_opcode 0x0203 ReadType.OPCODE, BusOp.read_byte 0x0204 ReadType.DATA]

/-! ## The merged pin-edge list (arscore.cc 343-349) -/

instance : DecidableEq Flip := fun a b =>
  decidable_of_iff (a.underlying = b.underlying) (by cases a; cases b; simp)

/-- One of the lines `if(!!job["so"]) add_flips(job["so"], 1);` (arscore.cc 343-345):
`add_flips` on the cycle list of a pin when the job gives one. -/
def add_flips_field (s : State) (flip_type : Nat) : Option (List Nat) → State
  | some src => add_flips s src flip_type
  | none => s

/-- The three calls of `add_flips` in `main` (arscore.cc 343-345), in their order: SO with
selector 1, NMI with selector 2, IRQ with selector 3. -/
def collect_flips (s : State) (so nmi irq : Option (List Nat)) : State :=
  add_flips_field (add_flips_field (add_flips_field s 1 so) 2 nmi) 3 irq

/-- The comparison that `main` passes to `std::sort` (arscore.cc 347-349):
`a.getCycle() < b.getCycle()`. -/
def flip_less (a b : Flip) : Bool := decide (a.getCycle < b.getCycle)

/-- Element at a position, `*it`; outside the vector the default `Flip()`. -/
def elem (v : List Flip) (i : Nat) : Flip := v.getD i (Flip.mk 0)

/-- Exchange of two elements, `std::iter_swap(a, b)`. -/
def iter_swap (v : List Flip) (a b : Nat) : List Flip :=
  (v.set a (elem v b)).set b (elem v a)

/-- Pivot selection `__move_median_to_first(result, a, b, c, comp)` (stl_algo.h 82-100):
swaps the median of the elements at `a`, `b`, `c` to `result`. -/
def move_median_to_first (comp : Flip → Flip → Bool) (v : List Flip) (result a b c : Nat) :
    List Flip :=
  if comp (elem v a) (elem v b) then
    if comp (elem v b) (elem v c) then iter_swap v result b
    else if comp (elem v a) (elem v c) then iter_swap v result c
    else iter_swap v result a
  else if comp (elem v a) (elem v c) then iter_swap v result a
  else if comp (elem v b) (elem v c) then iter_swap v result c
  else iter_swap v result b

/-- The loop `while (comp(first, pivot)) ++first;` of `__unguarded_partition`. -/
def partition_scan_up (comp : Flip → Flip → Bool) (v : List Flip) (pivot : Nat) :
    Nat → Nat → Nat
  | 0, first => first
  | fuel + 1, first =>
    if comp (elem v first) (elem v pivot) then partition_scan_up comp v pivot fuel (first + 1)
    else first

/-- The loop `while (comp(pivot, last)) --last;` of `__unguarded_partition`. -/
def partition_scan_down (comp : Flip → Flip → Bool) (v : List Flip) (pivot : Nat) : Nat → Nat
  | 0 => 0
  | last + 1 =>
    if comp (elem v pivot) (elem v (last + 1)) then partition_scan_down comp v pivot last
    else last + 1

/-- Partition `__unguarded_partition(first, last, pivot, comp)` (stl_algo.h 1861-1878);
returns the vector and the cut. -/
def unguarded_partition (comp : Flip → Flip → Bool) (pivot : Nat) :
    Nat → List Flip → Nat → Nat → List Flip × Nat
  | 0, v, first, _ => (v, first)
  | fuel + 1, v, first, last =>
    let first := partition_scan_up comp v pivot (v.length - first) first
    let last := last - 1
    let last := partition_scan_down comp v pivot last
    if !(decide (first < last)) then (v, first)
    else unguarded_partition comp pivot fuel (iter_swap v first last) (first + 1) last

/-- Partition around the median of three, `__unguarded_partition_pivot(first, last, comp)`
(stl_algo.h 1883-1890). -/
def unguarded_partition_pivot (comp : Flip → Flip → Bool) (v : List Flip) (first last : Nat) :
    List Flip × Nat :=
  let mid := first + (last - first) / 2
  let v := move_median_to_first comp v first (first + 1) mid (last - 1)
  unguarded_partition comp first (last - first) v (first + 1) last

/-- Sift up `__push_heap(first, holeIndex, topIndex, value, comp)` (stl_heap.h 135-148). -/
def push_heap (comp : Flip → Flip → Bool) (first : Nat) (value : Flip) (topIndex : Nat) :
    Nat → List Flip → Nat → List Flip
  | 0, v, holeIndex => v.set (first + holeIndex) value
  | fuel + 1, v, holeIndex =>
    let parent := (holeIndex - 1) / 2
    if decide (holeIndex > topIndex) && comp (elem v (first + parent)) value then
      push_heap comp first value topIndex fuel
        (v.set (first + holeIndex) (elem v (first + parent))) parent
    else v.set (first + holeIndex) value

/-- The first loop of `__adjust_heap` (stl_heap.h 229-237): the hole moves down to the
larger child; returns the vector, `holeIndex` and `secondChild`. -/
def adjust_heap_down (comp : Flip → Flip → Bool) (first len : Nat) :
    Nat → List Flip → Nat → Nat → List Flip × Nat × Nat
  | 0, v, holeIndex, secondChild => (v, holeIndex, secondChild)
  | fuel + 1, v, holeIndex, secondChild =>
    if secondChild < (len - 1) / 2 then
      let secondChild := 2 * (secondChild + 1)
      let secondChild :=
        if comp (elem v (first + secondChild)) (elem v (first + (secondChild - 1)))
        then secondChild - 1 else secondChild
      adjust_heap_down comp first len fuel
        (v.set (first + holeIndex) (elem v (first + secondChild))) secondChild secondChild
    else (v, holeIndex, secondChild)

/-- Sift down `__adjust_heap(first, holeIndex, len, value, comp)` (stl_heap.h 224-249). -/
def adjust_heap (comp : Flip → Flip → Bool) (v : List Flip) (first holeIndex len : Nat)
    (value : Flip) : List Flip :=
  let topIndex := holeIndex
  let r := adjust_heap_down comp first len len v holeIndex holeIndex
  let v := r.1
  let holeIndex := r.2.1
  let secondChild := r.2.2
  let r2 : List Flip × Nat :=
    if len % 2 == 0 && secondChild == (len - 2) / 2 then
      let secondChild := 2 * (secondChild + 1)
      (v.set (first + holeIndex) (elem v (first + (secondChild - 1))), secondChild - 1)
    else (v, holeIndex)
  push_heap comp first value topIndex r2.2 r2.1 r2.2

/-- Removal of the top `__pop_heap(first, last, result, comp)` (stl_heap.h 254-267). -/
def pop_heap (comp : Flip → Flip → Bool) (v : List Flip) (first last result : Nat) :
    List Flip :=
  let value := elem v result
  let v := v.set result (elem v first)
  adjust_heap comp v first 0 (last - first) value

/-- The loop of `__make_heap` (stl_heap.h 351-360), from `parent` down to 0. -/
def make_heap_loop (comp : Flip → Flip → Bool) (first len : Nat) : List Flip → Nat → List Flip
  | v, 0 => adjust_heap comp v first 0 len (elem v (first + 0))
  | v, parent + 1 =>
    make_heap_loop comp first len
      (adjust_heap comp v first (parent + 1) len (elem v (first + (parent + 1)))) parent

/-- Heap construction `__make_heap(first, last, comp)` (stl_heap.h 340-361). -/
def make_heap (comp : Flip → Flip → Bool) (v : List Flip) (first last : Nat) : List Flip :=
  if last - first < 2 then v
  else
    let len := last - first
    make_heap_loop comp first len v ((len - 2) / 2)

/-- Heap sort `__sort_heap(first, last, comp)` (stl_heap.h 419-428), by the length
`last - first` of the heap. -/
def sort_heap (comp : Flip → Flip → Bool) (first : Nat) : List Flip → Nat → List Flip
  | v, 0 => v
  | v, len + 1 =>
    if len + 1 > 1 then sort_heap comp first (pop_heap comp v first (first + len) (first + len)) len
    else v

/-- The loop of `__heap_select` over `[middle, last)` (stl_algo.h 1630-1632). -/
def heap_select_loop (comp : Flip → Flip → Bool) (first middle : Nat) :
    Nat → List Flip → Nat → List Flip
  | 0, v, _ => v
  | n + 1, v, i =>
    heap_select_loop comp first middle n
      (if comp (elem v i) (elem v first) then pop_heap comp v first middle i else v) (i + 1)

/-- Selection `__heap_select(first, middle, last, comp)` (stl_algo.h 1625-1633). -/
def heap_select (comp : Flip → Flip → Bool) (v : List Flip) (first middle last : Nat) :
    List Flip :=
  heap_select_loop comp first middle (last - middle) (make_heap comp v first middle) middle

/-- The fallback `__partial_sort(first, middle, last, comp)` (stl_algo.h 1895-1902). -/
def partial_sort (comp : Flip → Flip → Bool) (v : List Flip) (first middle last : Nat) :
    List Flip :=
  sort_heap comp first (heap_select comp v first middle last) (middle - first)

/-- The introsort loop `__introsort_loop(first, last, depth_limit, comp)`
(stl_algo.h 1908-1926): each pass of its `while` loop uses one unit of `depth_limit`, sorts
the upper part by a recursive call and goes on with the lower part. -/
def introsort_loop (comp : Flip → Flip → Bool) : Nat → List Flip → Nat → Nat → List Flip
  | 0, v, first, last =>
    if last - first > 16 then partial_sort comp v first last last else v
  | depth_limit + 1, v, first, last =>
    if last - first > 16 then
      let r := unguarded_partition_pivot comp v first last
      let v := introsort_loop comp depth_limit r.1 r.2 last
      introsort_loop comp depth_limit v first r.2
    else v

/-- The loop of `__unguarded_linear_insert` (stl_algo.h 1789-1794) with the hole at
position `next + 1`: elements above `val` move up by one, then `val` goes into the hole. -/
def linear_insert_loop (comp : Flip → Flip → Bool) (val : Flip) : List Flip → Nat → List Flip
  | v, 0 => v.set 0 val
  | v, next + 1 =>
    if comp val (elem v next) then linear_insert_loop comp val (v.set (next + 1) (elem v next)) next
    else v.set (next + 1) val

/-- Insertion `__unguarded_linear_insert(last, comp)` (stl_algo.h 1782-1796). -/
def unguarded_linear_insert (comp : Flip → Flip → Bool) (v : List Flip) (last : Nat) :
    List Flip :=
  linear_insert_loop comp (elem v last) v last

/-- The call `std::move_backward(first, i, i + 1)` of `__insertion_sort`, by the number
`i - first` of elements moved: each moves up by one, the last one first. -/
def move_backward (first : Nat) : List Flip → Nat → List Flip
  | v, 0 => v
  | v, n + 1 => move_backward first (v.set (first + n + 1) (elem v (first + n))) n

/-- The `for` loop of `__insertion_sort` (stl_algo.h 1808-1819), by the number of
iterations left. -/
def insertion_sort_loop (comp : Flip → Flip → Bool) (first : Nat) :
    Nat → List Flip → Nat → List Flip
  | 0, v, _ => v
  | n + 1, v, i =>
    insertion_sort_loop comp first n
      (if comp (elem v i) (elem v first) then
        (move_backward first v (i - first)).set first (elem v i)
       else unguarded_linear_insert comp v i) (i + 1)

/-- Insertion sort `__insertion_sort(first, last, comp)` (stl_algo.h 1802-1820). -/
def insertion_sort (comp : Flip → Flip → Bool) (v : List Flip) (first last : Nat) : List Flip :=
  if first == last then v
  else insertion_sort_loop comp first (last - (first + 1)) v (first + 1)

/-- Insertion sort without the test against the first element,
`__unguarded_insertion_sort(first, last, comp)` (stl_algo.h 1826-1832), by the number of
iterations left. -/
def unguarded_insertion_sort (comp : Flip → Flip → Bool) : Nat → List Flip → Nat → List Flip
  | 0, v, _ => v
  | n + 1, v, i => unguarded_insertion_sort comp n (unguarded_linear_insert comp v i) (i + 1)

/-- The last phase `__final_insertion_sort(first, last, comp)` (stl_algo.h 1844-1855),
with `_S_threshold = 16`. -/
def final_insertion_sort (comp : Flip → Flip → Bool) (v : List Flip) (first last : Nat) :
    List Flip :=
  if last - first > 16 then
    unguarded_insertion_sort comp (last - (first + 16))
      (insertion_sort comp v first (first + 16)) (first + 16)
  else insertion_sort comp v first last

/-- Halving loop for `lg`. -/
def lg_loop : Nat → Nat → Nat
  | 0, _ => 0
  | fuel + 1, n => if n ≥ 2 then lg_loop fuel (n / 2) + 1 else 0

/-- Floor of the binary logarithm, `std::__lg(n)`. -/
def lg (n : Nat) : Nat := lg_loop n n

/-- The function `std::sort(v.begin(), v.end(), comp)`, that is `std::__sort`
(stl_algo.h 1932-1942). -/
def std_sort (comp : Flip → Flip → Bool) (v : List Flip) : List Flip :=
  if v.length = 0 then v
  else
    final_insertion_sort comp
      (introsort_loop comp (lg v.length * 2) v 0 v.length) 0 v.length

/-- The merge of `main` (arscore.cc 343-349): the three calls of `add_flips`, then
`std::sort` on `flips` with the comparison by cycle. -/
def merge_flips (s : State) (so nmi irq : Option (List Nat)) : State :=
  { collect_flips s so nmi irq with
    flips := std_sort flip_less (collect_flips s so nmi irq).flips }

/-! ## Insertion on lists (auxiliary) -/

/-- The configured globals of the job
`{"init": [{"base": 512, "data": "base64:rQTw6urq"}], "serial_in_addr": 61444, "so": [12]}`:
the program `LDA $F004; NOP; NOP; NOP` (bytes `AD 04 F0 EA EA EA`) at `0x0200`, serial-in
enabled at `0xF004` with no input, and an SO assertion scheduled for cycle 12. -/
def so_drain_job_state : State :=
  { merge_flips empty_job_state (some [12]) none none with
    sram := (write_init_records empty_job_state.sram
      [InitRecord.mk 0x0200 (ascii "base64:rQTw6urq") none]).getD empty_job_state.sram,
    serial_in_addr := 0xF004, serial_in_enabled := true }

end Arscore

/-! # Theorems -/

/-! ## Frame lemmas -/

namespace Arscore

/-- Fields that `cpu.set_so` leaves alone. -/
@[simp] theorem cpu_set_so_fields (s : State) (b : Bool) :
    (cpu_set_so s b).sram = s.sram ∧ (cpu_set_so s b).ranges = s.ranges ∧
    (cpu_set_so s b).serial_in_addr = s.serial_in_addr ∧
    (cpu_set_so s b).serial_out_addr = s.serial_out_addr ∧
    (cpu_set_so s b).serial_in = s.serial_in ∧ (cpu_set_so s b).serial_in_pos = s.serial_in_pos ∧
    (cpu_set_so s b).serial_out = s.serial_out ∧
    (cpu_set_so s b).serial_out_fmt = s.serial_out_fmt ∧
    (cpu_set_so s b).serial_in_enabled = s.serial_in_enabled ∧
    (cpu_set_so s b).serial_out_enabled = s.serial_out_enabled ∧
    (cpu_set_so s b).last_pc_valid = s.last_pc_valid ∧
    (cpu_set_so s b).vector_has_been_pulled = s.vector_has_been_pulled ∧
    (cpu_set_so s b).clear_so_next_cycle = s.clear_so_next_cycle ∧
    (cpu_set_so s b).last_pc = s.last_pc ∧
    (cpu_set_so s b).cycles_to_report = s.cycles_to_report ∧
    (cpu_set_so s b).cycles_to_run = s.cycles_to_run ∧
    (cpu_set_so s b).num_cycles = s.num_cycles ∧ (cpu_set_so s b).cycles = s.cycles ∧
    (cpu_set_so s b).terminate_on = s.terminate_on ∧
    (cpu_set_so s b).termination_cause = s.termination_cause ∧ (cpu_set_so s b).flips = s.flips ∧
    (cpu_set_so s b).next_flip = s.next_flip ∧ (cpu_set_so s b).cpu_nmi = s.cpu_nmi ∧
    (cpu_set_so s b).cpu_irq = s.cpu_irq :=
  ⟨rfl, rfl, rfl, rfl, rfl, rfl, rfl, rfl, rfl, rfl, rfl, rfl, rfl, rfl, rfl, rfl, rfl, rfl, rfl, rfl, rfl, rfl, rfl, rfl⟩

@[simp] theorem cpu_set_so_cpu_so (s : State) (b : Bool) : (cpu_set_so s b).cpu_so = b := rfl

@[simp] theorem cpu_set_so_pin_calls (s : State) (b : Bool) :
    (cpu_set_so s b).pin_calls = s.pin_calls ++ [(1, b)] := rfl

theorem Flip.apply_frame (f : Flip) (s : State) :
    ∃ so nmi irq calls,
      f.apply s = { s with cpu_so := so, cpu_nmi := nmi, cpu_irq := irq, pin_calls := calls } := by
  unfold Flip.apply
  split
  · exact ⟨_, _, _, _, rfl⟩
  · exact ⟨_, _, _, _, rfl⟩
  · exact ⟨_, _, _, _, rfl⟩
  · exact ⟨_, _, _, _, rfl⟩

theorem apply_due_flips_frame (l : List Flip) (s : State) :
    ∃ nf so nmi irq calls,
      apply_due_flips l s =
        { s with next_flip := nf, cpu_so := so, cpu_nmi := nmi, cpu_irq := irq,
                 pin_calls := calls } := by
  induction l generalizing s with
  | nil => exact ⟨_, _, _, _, _, rfl⟩
  | cons f rest ih =>
    unfold apply_due_flips
    split
    · obtain ⟨so, nmi, irq, calls, h⟩ := Flip.apply_frame f { s with next_flip := s.next_flip + 1 }
      obtain ⟨nf2, so2, nmi2, irq2, calls2, h2⟩ :=
        ih (f.apply { s with next_flip := s.next_flip + 1 })
      rw [h2, h]
      exact ⟨_, _, _, _, _, rfl⟩
    · exact ⟨_, _, _, _, _, rfl⟩

/-- Fields that the pin-edge loop of `report_cycle` leaves alone. -/
@[simp] theorem apply_due_flips_fields (l : List Flip) (s : State) :
    (apply_due_flips l s).sram = s.sram ∧ (apply_due_flips l s).ranges = s.ranges ∧
    (apply_due_flips l s).serial_in_addr = s.serial_in_addr ∧
    (apply_due_flips l s).serial_out_addr = s.serial_out_addr ∧
    (apply_due_flips l s).serial_in = s.serial_in ∧
    (apply_due_flips l s).serial_in_pos = s.serial_in_pos ∧
    (apply_due_flips l s).serial_out = s.serial_out ∧
    (apply_due_flips l s).serial_out_fmt = s.serial_out_fmt ∧
    (apply_due_flips l s).serial_in_enabled = s.serial_in_enabled ∧
    (apply_due_flips l s).serial_out_enabled = s.serial_out_enabled ∧
    (apply_due_flips l s).last_pc_valid = s.last_pc_valid ∧
    (apply_due_flips l s).vector_has_been_pulled = s.vector_has_been_pulled ∧
    (apply_due_flips l s).clear_so_next_cycle = s.clear_so_next_cycle ∧
    (apply_due_flips l s).last_pc = s.last_pc ∧
    (apply_due_flips l s).cycles_to_report = s.cycles_to_report ∧
    (apply_due_flips l s).cycles_to_run = s.cycles_to_run ∧
    (apply_due_flips l s).num_cycles = s.num_cycles ∧ (apply_due_flips l s).cycles = s.cycles ∧
    (apply_due_flips l s).terminate_on = s.terminate_on ∧
    (apply_due_flips l s).termination_cause = s.termination_cause ∧
    (apply_due_flips l s).flips = s.flips := by
  obtain ⟨_, _, _, _, _, h⟩ := apply_due_flips_frame l s
  rw [h]
  exact ⟨rfl, rfl, rfl, rfl, rfl, rfl, rfl, rfl, rfl, rfl, rfl, rfl, rfl, rfl, rfl, rfl, rfl, rfl, rfl, rfl, rfl⟩

/-- Fields that the first half of `report_cycle` leaves alone. -/
@[simp] theorem record_cycle_fields (s : State) (t a d : Nat) :
    (record_cycle s t a d).sram = s.sram ∧ (record_cycle s t a d).ranges = s.ranges ∧
    (record_cycle s t a d).serial_in_addr = s.serial_in_addr ∧
    (record_cycle s t a d).serial_out_addr = s.serial_out_addr ∧
    (record_cycle s t a d).serial_in = s.serial_in ∧
    (record_cycle s t a d).serial_in_pos = s.serial_in_pos ∧
    (record_cycle s t a d).serial_out = s.serial_out ∧
    (record_cycle s t a d).serial_out_fmt = s.serial_out_fmt ∧
    (record_cycle s t a d).serial_in_enabled = s.serial_in_enabled ∧
    (record_cycle s t a d).serial_out_enabled = s.serial_out_enabled ∧
    (record_cycle s t a d).last_pc_valid = s.last_pc_valid ∧
    (record_cycle s t a d).vector_has_been_pulled = s.vector_has_been_pulled ∧
    (record_cycle s t a d).clear_so_next_cycle = s.clear_so_next_cycle ∧
    (record_cycle s t a d).last_pc = s.last_pc ∧
    (record_cycle s t a d).cycles_to_run = s.cycles_to_run ∧
    (record_cycle s t a d).terminate_on = s.terminate_on ∧
    (record_cycle s t a d).termination_cause = s.termination_cause ∧
    (record_cycle s t a d).flips = s.flips ∧ (record_cycle s t a d).next_flip = s.next_flip ∧
    (record_cycle s t a d).cpu_so = s.cpu_so ∧ (record_cycle s t a d).cpu_nmi = s.cpu_nmi ∧
    (record_cycle s t a d).cpu_irq = s.cpu_irq ∧ (record_cycle s t a d).pin_calls = s.pin_calls := by
  unfold record_cycle
  split <;> exact ⟨rfl, rfl, rfl, rfl, rfl, rfl, rfl, rfl, rfl, rfl, rfl, rfl, rfl, rfl, rfl, rfl, rfl, rfl, rfl, rfl, rfl, rfl, rfl⟩

@[simp] theorem record_cycle_num_cycles (s : State) (t a d : Nat) :
    (record_cycle s t a d).num_cycles = (s.num_cycles + 1) % 4294967296 := by
  unfold record_cycle
  split <;> rfl

theorem report_cycle_of_limit (s : State) (t a d : Nat) (h : limit_reached s) :
    report_cycle s t a d = Res.thrown (record_cycle s t a d) := by
  unfold limit_reached at h
  simp [report_cycle, h]

theorem report_cycle_of_not_limit (s : State) (t a d : Nat) (h : ¬ limit_reached s) :
    report_cycle s t a d =
      Res.ok () (apply_due_flips (s.flips.drop s.next_flip) (record_cycle s t a d)) := by
  unfold limit_reached at h
  simp [report_cycle, h]

/-- Fields that `raw_read_byte` leaves alone. -/
@[simp] theorem raw_read_byte_fields (s : State) (addr : Nat) :
    (raw_read_byte s addr).2.sram = s.sram ∧ (raw_read_byte s addr).2.ranges = s.ranges ∧
    (raw_read_byte s addr).2.serial_in_addr = s.serial_in_addr ∧
    (raw_read_byte s addr).2.serial_out_addr = s.serial_out_addr ∧
    (raw_read_byte s addr).2.serial_in = s.serial_in ∧
    (raw_read_byte s addr).2.serial_out = s.serial_out ∧
    (raw_read_byte s addr).2.serial_out_fmt = s.serial_out_fmt ∧
    (raw_read_byte s addr).2.serial_in_enabled = s.serial_in_enabled ∧
    (raw_read_byte s addr).2.serial_out_enabled = s.serial_out_enabled ∧
    (raw_read_byte s addr).2.last_pc_valid = s.last_pc_valid ∧
    (raw_read_byte s addr).2.vector_has_been_pulled = s.vector_has_been_pulled ∧
    (raw_read_byte s addr).2.last_pc = s.last_pc ∧
    (raw_read_byte s addr).2.cycles_to_report = s.cycles_to_report ∧
    (raw_read_byte s addr).2.cycles_to_run = s.cycles_to_run ∧
    (raw_read_byte s addr).2.num_cycles = s.num_cycles ∧
    (raw_read_byte s addr).2.cycles = s.cycles ∧
    (raw_read_byte s addr).2.terminate_on = s.terminate_on ∧
    (raw_read_byte s addr).2.termination_cause = s.termination_cause ∧
    (raw_read_byte s addr).2.flips = s.flips ∧
    (raw_read_byte s addr).2.next_flip = s.next_flip ∧
    (raw_read_byte s addr).2.cpu_nmi = s.cpu_nmi ∧ (raw_read_byte s addr).2.cpu_irq = s.cpu_irq := by
  unfold raw_read_byte cpu_set_so
  split
  · split <;> exact ⟨rfl, rfl, rfl, rfl, rfl, rfl, rfl, rfl, rfl, rfl, rfl, rfl, rfl, rfl, rfl, rfl, rfl, rfl, rfl, rfl, rfl, rfl⟩
  · exact ⟨rfl, rfl, rfl, rfl, rfl, rfl, rfl, rfl, rfl, rfl, rfl, rfl, rfl, rfl, rfl, rfl, rfl, rfl, rfl, rfl, rfl, rfl⟩

@[simp] theorem limit_reached_raw_read_byte (s : State) (addr : Nat) :
    limit_reached (raw_read_byte s addr).2 ↔ limit_reached s := by
  simp [limit_reached]

/-- Fields that a reported cycle leaves alone. -/
@[simp] theorem after_report_fields (s : State) (t a d : Nat) :
    (after_report s t a d).sram = s.sram ∧ (after_report s t a d).ranges = s.ranges ∧
    (after_report s t a d).serial_in_addr = s.serial_in_addr ∧
    (after_report s t a d).serial_out_addr = s.serial_out_addr ∧
    (after_report s t a d).serial_in = s.serial_in ∧
    (after_report s t a d).serial_in_pos = s.serial_in_pos ∧
    (after_report s t a d).serial_out = s.serial_out ∧
    (after_report s t a d).serial_out_fmt = s.serial_out_fmt ∧
    (after_report s t a d).serial_in_enabled = s.serial_in_enabled ∧
    (after_report s t a d).serial_out_enabled = s.serial_out_enabled ∧
    (after_report s t a d).last_pc_valid = s.last_pc_valid ∧
    (after_report s t a d).vector_has_been_pulled = s.vector_has_been_pulled ∧
    (after_report s t a d).clear_so_next_cycle = s.clear_so_next_cycle ∧
    (after_report s t a d).last_pc = s.last_pc ∧
    (after_report s t a d).cycles_to_run = s.cycles_to_run ∧
    (after_report s t a d).terminate_on = s.terminate_on ∧
    (after_report s t a d).termination_cause = s.termination_cause ∧
    (after_report s t a d).flips = s.flips := by
  simp [after_report]

@[simp] theorem after_report_num_cycles (s : State) (t a d : Nat) :
    (after_report s t a d).num_cycles = (s.num_cycles + 1) % 4294967296 := by
  simp [after_report]

/-- The two paths of `report_cycle`. -/
theorem report_cycle_eq (s : State) (t a d : Nat) :
    report_cycle s t a d =
      if limit_reached s then Res.thrown (record_cycle s t a d)
      else Res.ok () (after_report s t a d) := by
  split
  · next h => exact report_cycle_of_limit s t a d h
  · next h => rw [report_cycle_of_not_limit s t a d h]; simp [after_report]

/-- The paths of `read_byte`, in terms of the byte and globals that `raw_read_byte` gives. -/
theorem read_byte_eq (s : State) (addr : Nat) (rt : ReadType) :
    read_byte s addr rt =
      if s.vector_has_been_pulled = true then
        if limit_reached s then
          Res.thrown (record_cycle (raw_read_byte s addr).2 (read_cycle_type rt) addr
            (raw_read_byte s addr).1)
        else if rt = ReadType.OPCODE ∨ rt = ReadType.PREEMPTED then
          opcode_predicates
            (after_report (raw_read_byte s addr).2 0xF addr (raw_read_byte s addr).1)
            addr (raw_read_byte s addr).1
        else
          Res.ok (raw_read_byte s addr).1
            (after_report (raw_read_byte s addr).2 (read_cycle_type rt) addr
              (raw_read_byte s addr).1)
      else Res.ok (raw_read_byte s addr).1 (raw_read_byte s addr).2 := by
  unfold read_byte
  cases rt <;> simp only [report_cycle_eq, read_cycle_type] <;>
    by_cases hv : s.vector_has_been_pulled = true <;>
    by_cases hl : limit_reached s <;> simp [hv, hl]

/-- The paths of `fetch_vector_byte`. -/
theorem fetch_vector_byte_eq (s : State) (addr : Nat) :
    fetch_vector_byte s addr =
      if limit_reached s then
        Res.thrown (record_cycle
          { (raw_read_byte s addr).2 with vector_has_been_pulled := true } 0x5 addr
          (raw_read_byte s addr).1)
      else
        Res.ok (raw_read_byte s addr).1 (after_report
          { (raw_read_byte s addr).2 with vector_has_been_pulled := true } 0x5 addr
          (raw_read_byte s addr).1) := by
  unfold fetch_vector_byte
  simp only [report_cycle_eq]
  by_cases hl : limit_reached s <;> simp [hl, limit_reached] <;> simp [limit_reached] at hl <;>
    simp [hl]

/-- The paths of `write_byte`. -/
theorem write_byte_eq (s : State) (addr data : Nat) (wt : WriteType) :
    write_byte s addr data wt =
      if limit_reached s then Res.thrown (record_cycle s (write_cycle_type wt) addr data)
      else write_store (after_report s (write_cycle_type wt) addr data) addr data := by
  unfold write_byte
  cases wt <;> simp only [report_cycle_eq, write_cycle_type] <;>
    by_cases hl : limit_reached s <;> simp [hl]

end Arscore

/-! ## Termination predicates on opcode fetches -/

namespace Arscore

/-- The predicate chain of the code against the table of the specification, all five
predicates enabled. -/
theorem opcode_predicates_first_match (s : State) (addr data : Nat)
    (hinf : s.enabled TERMINATE_ON_INFINITE = true)
    (hzero : s.enabled TERMINATE_ON_ZERO = true)
    (hstack : s.enabled TERMINATE_ON_STACK = true)
    (hvec : s.enabled TERMINATE_ON_VECTOR = true)
    (hbrk : s.enabled TERMINATE_ON_BRK = true) :
    (∀ name, first_matching_predicate s.last_pc_valid s.last_pc addr data = some name →
      ∃ s2, opcode_predicates s addr data = Res.thrown s2 ∧
        result_termination_cause s2 = name) ∧
    (first_matching_predicate s.last_pc_valid s.last_pc addr data = none →
      ∃ s2, opcode_predicates s addr data = Res.ok data s2 ∧
        s2.termination_cause = s.termination_cause) := by
  unfold State.enabled at hinf hzero hstack hvec hbrk
  unfold opcode_predicates first_matching_predicate
  simp only [State.enabled, hinf, hzero, hstack, hvec, hbrk, Bool.true_and]
  constructor
  · intro name h
    split_ifs at h with h1 h2 h3 h4 h5 <;> simp at h <;> subst h
    · simp [h1.1, h1.2, result_termination_cause, cause_name]
    · have : ¬ (addr = s.last_pc ∧ s.last_pc_valid = true) := fun c => h1 ⟨c.2, c.1⟩
      simp [this, h2, result_termination_cause, cause_name]
    · have : ¬ (addr = s.last_pc ∧ s.last_pc_valid = true) := fun c => h1 ⟨c.2, c.1⟩
      simp [this, h2, h3.1, h3.2, result_termination_cause, cause_name]
    · have : ¬ (addr = s.last_pc ∧ s.last_pc_valid = true) := fun c => h1 ⟨c.2, c.1⟩
      have h3 : ¬ (addr < 512 ∧ 256 ≤ addr) := fun c => h3 ⟨c.2, c.1⟩
      simp [this, h2, h3, h4, result_termination_cause, cause_name]
    · have : ¬ (addr = s.last_pc ∧ s.last_pc_valid = true) := fun c => h1 ⟨c.2, c.1⟩
      have h3 : ¬ (addr < 512 ∧ 256 ≤ addr) := fun c => h3 ⟨c.2, c.1⟩
      simp [this, h2, h3, h4, h5, result_termination_cause, cause_name]
  · intro h
    split_ifs at h with h1 h2 h3 h4 h5
    have : ¬ (addr = s.last_pc ∧ s.last_pc_valid = true) := fun c => h1 ⟨c.2, c.1⟩
    have h3 : ¬ (addr < 512 ∧ 256 ≤ addr) := fun c => h3 ⟨c.2, c.1⟩
    simp [this, h2, h3, h4, h5]

/-- C1: a reported opcode fetch (read type OPCODE or PREEMPTED, vector pulled, cycle limit
not reached) with all five predicates enabled terminates with the cause of the first
matching predicate of the table infinite_loop, zero_fetch, stack_fetch, vector_fetch, brk
(the byte tested by brk is the byte read on this cycle), and it returns normally, leaving
the termination cause alone, exactly when none of the five matches. -/
theorem opcode_fetch_first_match (s : State) (addr : Nat) (rt : ReadType)
    (hrt : rt = ReadType.OPCODE ∨ rt = ReadType.PREEMPTED)
    (hpulled : s.vector_has_been_pulled = true)
    (hlimit : ¬ limit_reached s)
    (hinf : s.enabled TERMINATE_ON_INFINITE = true)
    (hzero : s.enabled TERMINATE_ON_ZERO = true)
    (hstack : s.enabled TERMINATE_ON_STACK = true)
    (hvec : s.enabled TERMINATE_ON_VECTOR = true)
    (hbrk : s.enabled TERMINATE_ON_BRK = true) :
    read_opcode s addr rt = read_byte s addr rt ∧
    (∀ name,
      first_matching_predicate s.last_pc_valid s.last_pc addr (raw_read_byte s addr).1
        = some name →
      ∃ s2, read_byte s addr rt = Res.thrown s2 ∧ result_termination_cause s2 = name) ∧
    (first_matching_predicate s.last_pc_valid s.last_pc addr (raw_read_byte s addr).1 = none →
      ∃ s2, read_byte s addr rt = Res.ok (raw_read_byte s addr).1 s2 ∧
        s2.termination_cause = s.termination_cause) ∧
    ((read_byte s addr rt).isThrown = false ↔
      first_matching_predicate s.last_pc_valid s.last_pc addr (raw_read_byte s addr).1
        = none) := by
  have heq : read_byte s addr rt = opcode_predicates
      (after_report (raw_read_byte s addr).2 0xF addr (raw_read_byte s addr).1)
      addr (raw_read_byte s addr).1 := by
    rw [read_byte_eq]; simp [hpulled, hlimit, hrt]
  obtain ⟨hsome, hnone⟩ := opcode_predicates_first_match
    (after_report (raw_read_byte s addr).2 0xF addr (raw_read_byte s addr).1)
    addr (raw_read_byte s addr).1
    (by simpa [State.enabled] using hinf) (by simpa [State.enabled] using hzero)
    (by simpa [State.enabled] using hstack) (by simpa [State.enabled] using hvec)
    (by simpa [State.enabled] using hbrk)
  simp only [after_report_fields, raw_read_byte_fields] at hsome hnone
  refine ⟨rfl, ?_⟩
  rw [heq]
  refine ⟨hsome, hnone, ?_⟩
  constructor
  · intro hnt
    cases hm : first_matching_predicate s.last_pc_valid s.last_pc addr (raw_read_byte s addr).1 with
    | none => rfl
    | some name =>
      obtain ⟨s2, h2, -⟩ := hsome name hm
      rw [h2] at hnt
      simp [Res.isThrown] at hnt
  · intro hm
    obtain ⟨s2, h2, -⟩ := hnone hm
    rw [h2]
    rfl

/-- Witness for C1: scenario 2, the first opcode fetch of the empty job at `0x0200` reads
`0x00` and terminates with cause `"brk"`. -/
theorem opcode_fetch_first_match_witness :
    ∃ s2, read_byte empty_job_after_reset 0x0200 ReadType.OPCODE = Res.thrown s2 ∧
      result_termination_cause s2 = "brk" :=
  (opcode_fetch_first_match empty_job_after_reset 0x0200 ReadType.OPCODE (Or.inl rfl) rfl
    (by decide) (by decide) (by decide) (by decide) (by decide) (by decide)).2.1 "brk"
    (by decide)

end Arscore

/-! ## Frame of the predicate chain and of the store -/

namespace Arscore

/-- Fields that the predicate chain of an opcode fetch leaves alone. -/
@[simp] theorem opcode_predicates_fields (s : State) (addr data : Nat) :
    (opcode_predicates s addr data).state.sram = s.sram ∧
    (opcode_predicates s addr data).state.ranges = s.ranges ∧
    (opcode_predicates s addr data).state.serial_in_addr = s.serial_in_addr ∧
    (opcode_predicates s addr data).state.serial_out_addr = s.serial_out_addr ∧
    (opcode_predicates s addr data).state.serial_in = s.serial_in ∧
    (opcode_predicates s addr data).state.serial_in_pos = s.serial_in_pos ∧
    (opcode_predicates s addr data).state.serial_out = s.serial_out ∧
    (opcode_predicates s addr data).state.serial_out_fmt = s.serial_out_fmt ∧
    (opcode_predicates s addr data).state.serial_in_enabled = s.serial_in_enabled ∧
    (opcode_predicates s addr data).state.serial_out_enabled = s.serial_out_enabled ∧
    (opcode_predicates s addr data).state.vector_has_been_pulled = s.vector_has_been_pulled ∧
    (opcode_predicates s addr data).state.clear_so_next_cycle = s.clear_so_next_cycle ∧
    (opcode_predicates s addr data).state.cycles_to_report = s.cycles_to_report ∧
    (opcode_predicates s addr data).state.cycles_to_run = s.cycles_to_run ∧
    (opcode_predicates s addr data).state.num_cycles = s.num_cycles ∧
    (opcode_predicates s addr data).state.cycles = s.cycles ∧
    (opcode_predicates s addr data).state.terminate_on = s.terminate_on ∧
    (opcode_predicates s addr data).state.flips = s.flips ∧
    (opcode_predicates s addr data).state.next_flip = s.next_flip ∧
    (opcode_predicates s addr data).state.cpu_so = s.cpu_so ∧
    (opcode_predicates s addr data).state.cpu_nmi = s.cpu_nmi ∧
    (opcode_predicates s addr data).state.cpu_irq = s.cpu_irq ∧
    (opcode_predicates s addr data).state.pin_calls = s.pin_calls := by
  unfold opcode_predicates
  simp only []
  split_ifs <;> exact ⟨rfl, rfl, rfl, rfl, rfl, rfl, rfl, rfl, rfl, rfl, rfl, rfl, rfl, rfl, rfl, rfl, rfl, rfl, rfl, rfl, rfl, rfl, rfl⟩

/-- Fields that the store half of `write_byte` leaves alone. -/
@[simp] theorem write_store_fields (s : State) (addr data : Nat) :
    (write_store s addr data).state.ranges = s.ranges ∧
    (write_store s addr data).state.serial_in_addr = s.serial_in_addr ∧
    (write_store s addr data).state.serial_out_addr = s.serial_out_addr ∧
    (write_store s addr data).state.serial_in = s.serial_in ∧
    (write_store s addr data).state.serial_in_pos = s.serial_in_pos ∧
    (write_store s addr data).state.serial_out_fmt = s.serial_out_fmt ∧
    (write_store s addr data).state.serial_in_enabled = s.serial_in_enabled ∧
    (write_store s addr data).state.serial_out_enabled = s.serial_out_enabled ∧
    (write_store s addr data).state.last_pc_valid = s.last_pc_valid ∧
    (write_store s addr data).state.vector_has_been_pulled = s.vector_has_been_pulled ∧
    (write_store s addr data).state.last_pc = s.last_pc ∧
    (write_store s addr data).state.cycles_to_report = s.cycles_to_report ∧
    (write_store s addr data).state.cycles_to_run = s.cycles_to_run ∧
    (write_store s addr data).state.num_cycles = s.num_cycles ∧
    (write_store s addr data).state.cycles = s.cycles ∧
    (write_store s addr data).state.terminate_on = s.terminate_on ∧
    (write_store s addr data).state.flips = s.flips ∧
    (write_store s addr data).state.next_flip = s.next_flip ∧
    (write_store s addr data).state.cpu_nmi = s.cpu_nmi ∧
    (write_store s addr data).state.cpu_irq = s.cpu_irq := by
  unfold write_store cpu_set_so
  simp only []
  split_ifs <;> exact ⟨rfl, rfl, rfl, rfl, rfl, rfl, rfl, rfl, rfl, rfl, rfl, rfl, rfl, rfl, rfl, rfl, rfl, rfl, rfl, rfl⟩

@[simp] theorem Res.state_ok {α : Type} (v : α) (s : State) : (Res.ok v s).state = s := rfl

@[simp] theorem Res.state_thrown {α : Type} (s : State) :
    (Res.thrown s : Res α).state = s := rfl

@[simp] theorem Res.isThrown_ok {α : Type} (v : α) (s : State) :
    (Res.ok v s).isThrown = false := rfl

@[simp] theorem Res.isThrown_thrown {α : Type} (s : State) :
    (Res.thrown s : Res α).isThrown = true := rfl

@[simp] theorem Res.void_state {α : Type} (r : Res α) : r.void.state = r.state := by
  cases r <;> rfl

@[simp] theorem Res.void_isThrown {α : Type} (r : Res α) : r.void.isThrown = r.isThrown := by
  cases r <;> rfl

end Arscore

/-! ## The reported `last_pc` over a run -/

namespace Arscore

theorem last_or_append (l1 l2 : List Nat) (d : Option Nat) :
    last_or (l1 ++ l2) d = last_or l2 (last_or l1 d) := by
  unfold last_or
  rcases List.eq_nil_or_concat l2 with h | ⟨l, b, h⟩
  · subst h; simp
  · subst h
    simp [List.getLast?_append, List.getLast?_concat]

/-- Once the predicates of an opcode fetch have been evaluated, the reported `last_pc` is
the address of that fetch, whether or not a predicate fired. -/
theorem opcode_predicates_last_pc (s : State) (addr data : Nat) :
    result_last_pc (opcode_predicates s addr data).state = some addr := by
  unfold opcode_predicates
  by_cases h1 : (s.enabled TERMINATE_ON_INFINITE && addr == s.last_pc && s.last_pc_valid) = true
  · rw [if_pos h1]
    simp at h1
    simp [Res.state, result_last_pc, h1.2, h1.1.2]
  · rw [if_neg h1]
    simp only []
    split_ifs <;> simp [Res.state, result_last_pc]

/-- Effect of a read callback on the reported `last_pc`. -/
theorem read_byte_last_pc (s : State) (addr : Nat) (rt : ReadType) :
    result_last_pc (read_byte s addr rt).state =
      if ¬ limit_reached s ∧ (rt = ReadType.OPCODE ∨ rt = ReadType.PREEMPTED) ∧
          s.vector_has_been_pulled = true
      then some addr else result_last_pc s := by
  rw [read_byte_eq]
  by_cases hv : s.vector_has_been_pulled = true
  · by_cases hl : limit_reached s
    · simp [hv, hl, result_last_pc]
    · by_cases hrt : rt = ReadType.OPCODE ∨ rt = ReadType.PREEMPTED
      · simp only [hv, hl, hrt, if_true, if_false, opcode_predicates_last_pc, not_false_eq_true,
          and_self]
      · simp [hv, hl, hrt, result_last_pc]
  · simp [hv, result_last_pc]

/-- Effect of one bus cycle on the reported `last_pc`. -/
theorem callback_last_pc (s : State) (op : BusOp) :
    result_last_pc (callback s op).state =
      last_or (unlimited_opcode_fetch (s, op)).toList (result_last_pc s) := by
  cases op with
  | read_opcode addr rt =>
    simp only [callback, read_opcode, Res.void_state, read_byte_last_pc,
      unlimited_opcode_fetch, reported_opcode_fetch]
    by_cases hv : s.vector_has_been_pulled = true <;> by_cases hl : limit_reached s <;>
      by_cases hrt : rt = ReadType.OPCODE ∨ rt = ReadType.PREEMPTED <;>
      simp [hv, hl, hrt, last_or]
  | read_byte addr rt =>
    simp only [callback, Res.void_state, read_byte_last_pc,
      unlimited_opcode_fetch, reported_opcode_fetch]
    by_cases hv : s.vector_has_been_pulled = true <;> by_cases hl : limit_reached s <;>
      by_cases hrt : rt = ReadType.OPCODE ∨ rt = ReadType.PREEMPTED <;>
      simp [hv, hl, hrt, last_or]
  | fetch_vector_byte addr =>
    simp only [callback, fetch_vector_byte_eq, unlimited_opcode_fetch, reported_opcode_fetch,
      Res.void_state]
    by_cases hl : limit_reached s <;> simp [hl, result_last_pc, last_or]
  | write_byte addr data wt =>
    simp only [callback, write_byte_eq, unlimited_opcode_fetch, reported_opcode_fetch]
    by_cases hl : limit_reached s <;> simp [hl, result_last_pc, last_or]

theorem filterMap_cons_toList {α β : Type} (f : α → Option β) (x : α) (l : List α) :
    (x :: l).filterMap f = (f x).toList ++ l.filterMap f := by
  cases h : f x <;> simp [List.filterMap_cons, h]

/-- Effect of the bus cycles of one core call on the reported `last_pc`. -/
theorem run_ops_last_pc (s : State) (ops : List BusOp) :
    result_last_pc (run_ops s ops).state =
      last_or ((ops_trace s ops).filterMap unlimited_opcode_fetch) (result_last_pc s) := by
  induction ops generalizing s with
  | nil => simp [run_ops, ops_trace, last_or]
  | cons op ops ih =>
    have hcb := callback_last_pc s op
    rw [run_ops, ops_trace, filterMap_cons_toList, last_or_append, ← hcb]
    cases h : callback s op with
    | ok v s1 => simp only [Res.state_ok]; exact ih s1
    | thrown s1 => simp [last_or]

/-- Effect of the run loop on the reported `last_pc`. -/
theorem run_loop_last_pc (s : State) (steps : List (List BusOp)) :
    result_last_pc (run_loop s steps).state =
      last_or ((loop_trace s steps).filterMap unlimited_opcode_fetch) (result_last_pc s) := by
  induction steps generalizing s with
  | nil => unfold run_loop loop_trace; split <;> simp [Outcome.state, last_or]
  | cons step rest ih =>
    unfold run_loop loop_trace
    by_cases hc : s.num_cycles < s.cycles_to_run
    · simp only [hc, if_true, List.filterMap_append, last_or_append, ← run_ops_last_pc]
      cases h : run_ops s step with
      | thrown s1 => simp [Outcome.state, last_or]
      | ok v s1 =>
        simp only [Res.state_ok]
        rw [ih]
        congr 1
        split <;> simp [result_last_pc]
    · simp [hc, Outcome.state, last_or]

/-- Effect of a whole run on the reported `last_pc`. -/
theorem main_run_last_pc (s : State) (reset : List BusOp) (steps : List (List BusOp)) :
    result_last_pc (main_run s reset steps).state =
      last_or ((main_trace s reset steps).filterMap unlimited_opcode_fetch)
        (result_last_pc s) := by
  unfold main_run main_trace
  simp only [List.filterMap_append, last_or_append, ← run_ops_last_pc]
  cases h : run_ops s reset with
  | thrown s1 => simp [Outcome.state, last_or]
  | ok v s1 => simp only [Res.state_ok]; exact run_loop_last_pc s1 steps

/-- C2 as stated fails: with `max_cycles = 8` the first opcode fetch after the reset vector
is reported (it is the cycle that brings `num_cycles` to 8) and the run ends with a result,
yet no `last_pc` is reported. -/
theorem last_pc_iff_reported_fetch_counterexample :
    (main_run (max_cycles_job_state 8) reset_vector_fetches
        [[BusOp.read_opcode 0x0200 ReadType.OPCODE]]).isResult = true ∧
    (main_trace (max_cycles_job_state 8) reset_vector_fetches
        [[BusOp.read_opcode 0x0200 ReadType.OPCODE]]).filterMap reported_opcode_fetch
      = [0x0200] ∧
    result_last_pc (main_run (max_cycles_job_state 8) reset_vector_fetches
        [[BusOp.read_opcode 0x0200 ReadType.OPCODE]]).state = none := by
  refine ⟨by decide, by decide, by decide⟩

/-- C2 (amended): at the end of every run that starts with `last_pc_valid` false, `last_pc`
is reported if and only if some opcode fetch was reported after the reset vector was pulled
on a cycle that did not reach the cycle limit, and the reported value is the address of the
most recent such fetch, the one on which a termination predicate fired included. -/
theorem last_pc_is_last_unlimited_fetch (s : State) (reset : List BusOp)
    (steps : List (List BusOp)) (h0 : s.last_pc_valid = false) :
    ((main_run s reset steps).state.last_pc_valid = true ↔
      (main_trace s reset steps).filterMap unlimited_opcode_fetch ≠ []) ∧
    result_last_pc (main_run s reset steps).state =
      ((main_trace s reset steps).filterMap unlimited_opcode_fetch).getLast? := by
  have h := main_run_last_pc s reset steps
  have hnone : result_last_pc s = none := by simp [result_last_pc, h0]
  rw [hnone] at h
  have hl : ∀ l : List Nat, last_or l none = l.getLast? := by
    intro l; unfold last_or; cases l.getLast? <;> rfl
  rw [hl] at h
  refine ⟨?_, h⟩
  have hv : (main_run s reset steps).state.last_pc_valid = true ↔
      (result_last_pc (main_run s reset steps).state).isSome = true := by
    unfold result_last_pc; split <;> simp_all
  rw [hv, h]
  cases hm : (main_trace s reset steps).filterMap unlimited_opcode_fetch with
  | nil => simp
  | cons a l =>
    simp only [ne_eq, reduceCtorEq, not_false_eq_true, iff_true]
    rw [List.getLast?_eq_getLast _ (List.cons_ne_nil a l)]
    rfl

/-- Witness for C2: scenario 2, the empty job, whose first opcode fetch at `0x0200`
terminates the run by `brk`. -/
theorem last_pc_is_last_unlimited_fetch_witness :
    ((main_run empty_job_state reset_vector_fetches
        [[BusOp.read_opcode 0x0200 ReadType.OPCODE]]).state.last_pc_valid = true ↔
      (main_trace empty_job_state reset_vector_fetches
        [[BusOp.read_opcode 0x0200 ReadType.OPCODE]]).filterMap unlimited_opcode_fetch ≠ []) ∧
    result_last_pc (main_run empty_job_state reset_vector_fetches
        [[BusOp.read_opcode 0x0200 ReadType.OPCODE]]).state =
      ((main_trace empty_job_state reset_vector_fetches
        [[BusOp.read_opcode 0x0200 ReadType.OPCODE]]).filterMap
          unlimited_opcode_fetch).getLast? :=
  last_pc_is_last_unlimited_fetch empty_job_state reset_vector_fetches
    [[BusOp.read_opcode 0x0200 ReadType.OPCODE]] rfl

end Arscore

/-! ## Scenario 1: the empty job -/

namespace Arscore

/-- C3 as stated fails on each of its three counts: for the empty job, after the two
reset-vector fetches and the first opcode fetch, the cause is not `"zero_fetch"`,
`num_cycles` is not 6, and a `last_pc` is reported. -/
theorem empty_job_zero_fetch_counterexample :
    result_termination_cause (reset_then_first_fetch empty_job_state).state ≠ "zero_fetch" ∧
    result_num_cycles (reset_then_first_fetch empty_job_state).state ≠ 6 ∧
    result_last_pc (reset_then_first_fetch empty_job_state).state ≠ none := by
  refine ⟨by decide, by decide, by decide⟩

/-- C3 (amended): for the empty job (memory all zero except `memory[0xFFFD] = 0x02`, all
predicates enabled, default limits), the two reset-vector fetches at `0xFFFC` and `0xFFFD`
followed by the first opcode fetch at the address formed by that vector, `0x0200`, end the
run with a result whose `termination_cause` is `"brk"`, whose `num_cycles` is 8 and whose
`last_pc` is `0x0200`. -/
theorem empty_job_terminates_by_brk :
    (reset_then_first_fetch empty_job_state).isResult = true ∧
    result_termination_cause (reset_then_first_fetch empty_job_state).state = "brk" ∧
    result_num_cycles (reset_then_first_fetch empty_job_state).state = 8 ∧
    result_last_pc (reset_then_first_fetch empty_job_state).state = some 0x0200 := by
  refine ⟨by decide, by decide, by decide, by decide⟩

end Arscore

/-! ## Writes through the memory map -/

namespace Arscore

theorem ranges_any_contains (s : State) (addr : Nat) :
    (s.ranges.any fun range => range.contains addr) = true ↔
      ∃ r ∈ s.ranges, r.beg ≤ addr ∧ addr ≤ r.end_ := by
  simp [List.any_eq_true, Range.contains]

/-- C4 as stated fails: one cycle short of the limit, a write to the writable address
`0x0010` (not a serial-out address, inside the default range `0x0000..0x01FF`) is reported,
reaches the cycle limit and throws before the store, so `memory[0x0010]` is still `0x00`. -/
theorem write_in_range_counterexample :
    ¬ (last_cycle_state.serial_out_enabled = true ∧ 0x0010 = last_cycle_state.serial_out_addr) ∧
    (∃ r ∈ last_cycle_state.ranges, r.beg ≤ 0x0010 ∧ 0x0010 ≤ r.end_) ∧
    (write_byte last_cycle_state 0x0010 0xAB WriteType.DATA).isThrown = true ∧
    (write_byte last_cycle_state 0x0010 0xAB WriteType.DATA).state.sram 0x0010 ≠ 0xAB := by
  refine ⟨by decide, ⟨Range.mk 0 0x01FF, by simp [last_cycle_state, empty_job_after_reset,
    empty_job_state, set_max_cycles, install_rwmap, seed_reset_vector, globals_init], by decide,
    by decide⟩, by decide, by decide⟩

/-- C4 (amended): a `write_byte(addr, byte)` where `addr` is not the enabled serial-out
address, some writable range `[beg, end]` has `beg <= addr <= end`, and the cycle limit is
not reached on that cycle, succeeds: it returns normally, afterwards `memory[addr] == byte`,
every other memory cell is unchanged, and no termination cause is set. -/
theorem write_in_range_stores (s : State) (addr data : Nat) (wt : WriteType)
    (hser : ¬ (s.serial_out_enabled = true ∧ addr = s.serial_out_addr))
    (hrange : ∃ r ∈ s.ranges, r.beg ≤ addr ∧ addr ≤ r.end_)
    (hlimit : ¬ limit_reached s) :
    ∃ s2, write_byte s addr data wt = Res.ok () s2 ∧ s2.sram addr = data ∧
      (∀ a, a ≠ addr → s2.sram a = s.sram a) ∧
      s2.termination_cause = s.termination_cause := by
  have hany := (ranges_any_contains s addr).mpr hrange
  rw [write_byte_eq, if_neg hlimit]
  unfold write_store
  have hser2 : ¬ ((after_report s (write_cycle_type wt) addr data).serial_out_enabled = true ∧
      addr = (after_report s (write_cycle_type wt) addr data).serial_out_addr) := by
    simpa using hser
  have hany2 : ((after_report s (write_cycle_type wt) addr data).ranges.any
      fun range => range.contains addr) = true := by
    simpa using hany
  simp only [Bool.and_eq_true, beq_iff_eq, hser2, if_false, hany2, if_true]
  refine ⟨_, rfl, ?_, ?_, ?_⟩
  · simp
  · intro a ha; simp [ha]
  · simp

/-- Witness for C4: after reset of the empty job, a store to `0x0010`. -/
theorem write_in_range_stores_witness :
    ∃ s2, write_byte empty_job_after_reset 0x0010 0xAB WriteType.DATA = Res.ok () s2 ∧
      s2.sram 0x0010 = 0xAB ∧
      (∀ a, a ≠ 0x0010 → s2.sram a = empty_job_after_reset.sram a) ∧
      s2.termination_cause = empty_job_after_reset.termination_cause :=
  write_in_range_stores empty_job_after_reset 0x0010 0xAB WriteType.DATA (by decide)
    ⟨Range.mk 0 0x01FF, by simp [empty_job_after_reset, empty_job_state, set_max_cycles,
      install_rwmap, seed_reset_vector, globals_init], by decide, by decide⟩ (by decide)

theorem run_ops_append (s : State) (pre ops : List BusOp) :
    run_ops s (pre ++ ops) =
      match run_ops s pre with
      | Res.ok _ s1 => run_ops s1 ops
      | Res.thrown s1 => Res.thrown s1 := by
  induction pre generalizing s with
  | nil => rfl
  | cons op pre ih =>
    simp only [List.cons_append, run_ops]
    cases callback s op with
    | ok v s1 => exact ih s1
    | thrown s1 => rfl

/-- C5: a `write_byte` to an address that no writable range contains, with the bad-write
predicate disabled, leaves the whole memory image unchanged and raises no bad_write
termination: the termination cause is untouched, and the call throws only when this cycle
reaches the cycle limit. -/
theorem write_out_of_range_dropped (s : State) (addr data : Nat) (wt : WriteType)
    (hnone : ∀ r ∈ s.ranges, r.contains addr = false)
    (hdis : s.enabled TERMINATE_ON_BAD_WRITE = false) :
    (write_byte s addr data wt).state.sram = s.sram ∧
    (write_byte s addr data wt).state.sram addr = s.sram addr ∧
    (write_byte s addr data wt).state.termination_cause = s.termination_cause ∧
    ((write_byte s addr data wt).isThrown = true ↔ limit_reached s) := by
  have hany : (s.ranges.any fun range => range.contains addr) = false := by
    rw [List.any_eq_false]; intro r hr; simp [hnone r hr]
  have hen : ∀ t a d, (after_report s t a d).enabled TERMINATE_ON_BAD_WRITE = false := by
    intro t a d; simpa [State.enabled] using hdis
  rw [write_byte_eq]
  by_cases hl : limit_reached s
  · simp [hl, Res.isThrown]
  · simp only [hl, if_false, write_store, after_report_fields, hany, hen, cpu_set_so]
    split_ifs <;> first | contradiction | simp [Res.isThrown]

/-- Witness for C5: with the bad-write predicate cleared, a store to `0x8000`, outside the
default writable range, is dropped. -/
theorem write_out_of_range_dropped_witness :
    (write_byte bad_write_disabled_state 0x8000 0xAB WriteType.DATA).state.sram
      = bad_write_disabled_state.sram ∧
    (write_byte bad_write_disabled_state 0x8000 0xAB WriteType.DATA).state.sram 0x8000
      = bad_write_disabled_state.sram 0x8000 ∧
    (write_byte bad_write_disabled_state 0x8000 0xAB WriteType.DATA).state.termination_cause
      = bad_write_disabled_state.termination_cause ∧
    ((write_byte bad_write_disabled_state 0x8000 0xAB WriteType.DATA).isThrown = true ↔
      limit_reached bad_write_disabled_state) :=
  write_out_of_range_dropped bad_write_disabled_state 0x8000 0xAB WriteType.DATA
    (by simp [bad_write_disabled_state, empty_job_after_reset, empty_job_state, set_max_cycles,
      install_rwmap, seed_reset_vector, globals_init, Range.contains])
    (by decide)

/-- C6: a `write_byte` to an address that is not the enabled serial-out address and that no
writable range contains, with the bad-write predicate enabled and the cycle limit not
reached on that cycle, throws with termination cause `"bad_write"` and leaves the memory
image unchanged; the rest of the step is not performed, and inside the run loop the throw
is caught and ends the run with that result. -/
theorem write_out_of_range_terminates (s : State) (addr data : Nat) (wt : WriteType)
    (hser : ¬ (s.serial_out_enabled = true ∧ addr = s.serial_out_addr))
    (hnone : ∀ r ∈ s.ranges, r.contains addr = false)
    (hen : s.enabled TERMINATE_ON_BAD_WRITE = true)
    (hlimit : ¬ limit_reached s) :
    ∃ s2, write_byte s addr data wt = Res.thrown s2 ∧
      result_termination_cause s2 = "bad_write" ∧ s2.sram = s.sram ∧
      (∀ (s0 : State) (pre ops : List BusOp) (steps : List (List BusOp)),
        s0.num_cycles < s0.cycles_to_run → run_ops s0 pre = Res.ok () s →
        run_loop s0 ((pre ++ BusOp.write_byte addr data wt :: ops) :: steps)
          = Outcome.result s2) := by
  have hany : (s.ranges.any fun range => range.contains addr) = false := by
    rw [List.any_eq_false]; intro r hr; simp [hnone r hr]
  have hen2 : ∀ t a d, (after_report s t a d).enabled TERMINATE_ON_BAD_WRITE = true := by
    intro t a d; simpa [State.enabled] using hen
  have hw : write_byte s addr data wt = Res.thrown
      { after_report s (write_cycle_type wt) addr data with termination_cause := 6 } := by
    rw [write_byte_eq, if_neg hlimit]
    simp only [write_store, after_report_fields, hany, hen2]
    simp [hser]
  refine ⟨_, hw, by simp [result_termination_cause, cause_name], by simp, ?_⟩
  intro s0 pre ops steps hc hpre
  simp [run_loop, hc, run_ops_append, hpre, run_ops, callback, hw]

/-- Witness for C6: after reset of the empty job, a store to `0x8000`, outside the default
writable range, terminates the run. -/
theorem write_out_of_range_terminates_witness :
    ∃ s2, write_byte empty_job_after_reset 0x8000 0xAB WriteType.DATA = Res.thrown s2 ∧
      result_termination_cause s2 = "bad_write" ∧ s2.sram = empty_job_after_reset.sram ∧
      (∀ (s0 : State) (pre ops : List BusOp) (steps : List (List BusOp)),
        s0.num_cycles < s0.cycles_to_run → run_ops s0 pre = Res.ok () empty_job_after_reset →
        run_loop s0 ((pre ++ BusOp.write_byte 0x8000 0xAB WriteType.DATA :: ops) :: steps)
          = Outcome.result s2) :=
  write_out_of_range_terminates empty_job_after_reset 0x8000 0xAB WriteType.DATA
    (by decide)
    (by simp [empty_job_after_reset, empty_job_state, set_max_cycles,
      install_rwmap, seed_reset_vector, globals_init, Range.contains])
    (by decide) (by decide)

end Arscore

/-! ## The cycle limit -/

namespace Arscore

/-- The predicate chain of an opcode fetch never throws with cause 0 (`"limit"`). -/
theorem opcode_predicates_thrown_cause (s : State) (addr data : Nat) :
    (opcode_predicates s addr data).isThrown = true →
      (opcode_predicates s addr data).state.termination_cause ≠ 0 := by
  unfold opcode_predicates
  simp only []
  split_ifs <;> simp [Res.isThrown]

/-- The store half of a write never throws with cause 0 (`"limit"`). -/
theorem write_store_thrown_cause (s : State) (addr data : Nat) :
    (write_store s addr data).isThrown = true →
      (write_store s addr data).state.termination_cause ≠ 0 := by
  unfold write_store
  simp only []
  split_ifs <;> simp [Res.isThrown]

/-- On a reported bus cycle that starts with cause 0, the callback throws with cause 0
exactly when the cycle limit is reached. -/
theorem callback_limit_iff (s : State) (op : BusOp) (hrep : reports s op = true)
    (h0 : s.termination_cause = 0) :
    ((callback s op).isThrown = true ∧ (callback s op).state.termination_cause = 0) ↔
      limit_reached s := by
  cases op with
  | read_opcode addr rt =>
    simp only [reports] at hrep
    simp only [callback, read_opcode, read_byte_eq, Res.void_state, Res.void_isThrown, hrep,
      if_true]
    by_cases hl : limit_reached s
    · simp [hl, Res.isThrown, h0]
    · by_cases hrt : rt = ReadType.OPCODE ∨ rt = ReadType.PREEMPTED
      · simp only [hl, hrt, if_true, if_false, iff_false, not_and]
        exact opcode_predicates_thrown_cause _ _ _
      · simp [hl, hrt, Res.isThrown]
  | read_byte addr rt =>
    simp only [reports] at hrep
    simp only [callback, read_byte_eq, Res.void_state, Res.void_isThrown, hrep, if_true]
    by_cases hl : limit_reached s
    · simp [hl, Res.isThrown, h0]
    · by_cases hrt : rt = ReadType.OPCODE ∨ rt = ReadType.PREEMPTED
      · simp only [hl, hrt, if_true, if_false, iff_false, not_and]
        exact opcode_predicates_thrown_cause _ _ _
      · simp [hl, hrt, Res.isThrown]
  | fetch_vector_byte addr =>
    simp only [callback, fetch_vector_byte_eq, Res.void_state, Res.void_isThrown]
    by_cases hl : limit_reached s <;> simp [hl, Res.isThrown, h0]
  | write_byte addr data wt =>
    simp only [callback, write_byte_eq]
    by_cases hl : limit_reached s
    · simp [hl, Res.isThrown, h0]
    · simp only [hl, if_false, iff_false, not_and]
      exact write_store_thrown_cause _ _ _

theorem cause_name_eq_limit (c : Nat) : cause_name c = "limit" ↔ c = 0 := by
  match c with
  | 0 => simp [cause_name]
  | 1 => simp [cause_name]
  | 2 => simp [cause_name]
  | 3 => simp [cause_name]
  | 4 => simp [cause_name]
  | 5 => simp [cause_name]
  | 6 => simp [cause_name]
  | n + 7 => simp [cause_name]

/-- Counters after one bus cycle: `cycles_to_run` is untouched and `num_cycles` is
incremented, modulo `2^32`, exactly on reported cycles. -/
theorem callback_counters (s : State) (op : BusOp) :
    (callback s op).state.cycles_to_run = s.cycles_to_run ∧
    (callback s op).state.num_cycles =
      if reports s op = true then (s.num_cycles + 1) % 4294967296 else s.num_cycles := by
  cases op with
  | read_opcode addr rt =>
    simp only [callback, read_opcode, read_byte_eq, Res.void_state, reports]
    by_cases hv : s.vector_has_been_pulled = true <;> by_cases hl : limit_reached s <;>
      by_cases hrt : rt = ReadType.OPCODE ∨ rt = ReadType.PREEMPTED <;> simp [hv, hl, hrt]
  | read_byte addr rt =>
    simp only [callback, read_byte_eq, Res.void_state, reports]
    by_cases hv : s.vector_has_been_pulled = true <;> by_cases hl : limit_reached s <;>
      by_cases hrt : rt = ReadType.OPCODE ∨ rt = ReadType.PREEMPTED <;> simp [hv, hl, hrt]
  | fetch_vector_byte addr =>
    simp only [callback, fetch_vector_byte_eq, Res.void_state, reports]
    by_cases hl : limit_reached s <;> simp [hl]
  | write_byte addr data wt =>
    simp only [callback, write_byte_eq, reports]
    by_cases hl : limit_reached s <;> simp [hl]

/-- A reported bus cycle that reaches the cycle limit throws. -/
theorem callback_thrown_of_limit (s : State) (op : BusOp) (hrep : reports s op = true)
    (hl : limit_reached s) : (callback s op).isThrown = true := by
  cases op with
  | read_opcode addr rt =>
    simp only [reports] at hrep
    simp [callback, read_opcode, read_byte_eq, hrep, hl]
  | read_byte addr rt =>
    simp only [reports] at hrep
    simp [callback, read_byte_eq, hrep, hl]
  | fetch_vector_byte addr => simp [callback, fetch_vector_byte_eq, hl]
  | write_byte addr data wt => simp [callback, write_byte_eq, hl]

/-- One bus cycle started below the limit ends at or below it, and strictly below it when
the callback returns normally. -/
theorem callback_below_limit (s : State) (op : BusOp)
    (hlt : s.num_cycles < s.cycles_to_run) (hu32 : s.cycles_to_run < 4294967296) :
    (callback s op).state.cycles_to_run = s.cycles_to_run ∧
    (callback s op).state.num_cycles ≤ s.cycles_to_run ∧
    ((callback s op).isThrown = false → (callback s op).state.num_cycles < s.cycles_to_run) := by
  obtain ⟨hc, hn⟩ := callback_counters s op
  have hmod : (s.num_cycles + 1) % 4294967296 = s.num_cycles + 1 :=
    Nat.mod_eq_of_lt (by omega)
  refine ⟨hc, ?_, ?_⟩
  · rw [hn]; split <;> omega
  · intro hnt
    rw [hn]
    by_cases hrep : reports s op = true
    · rw [if_pos hrep, hmod]
      by_contra hge
      have hl : limit_reached s := by unfold limit_reached; omega
      rw [callback_thrown_of_limit s op hrep hl] at hnt
      exact absurd hnt (by decide)
    · rw [if_neg hrep]; exact hlt

/-- The bus cycles of one core call started below the limit: every cycle performed starts
below the limit, and the call ends at or below it, strictly below when nothing was thrown. -/
theorem run_ops_below_limit (s : State) (ops : List BusOp)
    (hlt : s.num_cycles < s.cycles_to_run) (hu32 : s.cycles_to_run < 4294967296) :
    (∀ e ∈ ops_trace s ops, e.1.num_cycles < e.1.cycles_to_run) ∧
    (run_ops s ops).state.cycles_to_run = s.cycles_to_run ∧
    (run_ops s ops).state.num_cycles ≤ s.cycles_to_run ∧
    ((run_ops s ops).isThrown = false →
      (run_ops s ops).state.num_cycles < s.cycles_to_run) := by
  induction ops generalizing s with
  | nil => simp [ops_trace, run_ops, hlt]; omega
  | cons op ops ih =>
    obtain ⟨hc, hle, hnt⟩ := callback_below_limit s op hlt hu32
    simp only [ops_trace, run_ops, List.mem_cons]
    cases hcb : callback s op with
    | ok v s1 =>
      dsimp only
      rw [hcb] at hc hle hnt
      simp only [Res.state_ok, Res.isThrown_ok, forall_const] at hc hle hnt
      obtain ⟨h1, h2, h3, h4⟩ := ih s1 (by omega) (by omega)
      refine ⟨?_, by omega, by omega, ?_⟩
      · intro e he
        rcases he with he | he
        · subst he; exact hlt
        · exact h1 e he
      · intro hx; have := h4 hx; omega
    | thrown s1 =>
      dsimp only
      rw [hcb] at hc hle
      simp only [Res.state_thrown] at hc hle
      refine ⟨?_, hc, hle, by simp⟩
      intro e he
      rcases he with he | he
      · subst he; exact hlt
      · simp at he

/-- The run loop: every bus cycle performed starts below the limit, the loop ends at or
below the limit, and it is still running only below the limit. -/
theorem run_loop_below_limit (s : State) (steps : List (List BusOp))
    (hle : s.num_cycles ≤ s.cycles_to_run) (hu32 : s.cycles_to_run < 4294967296) :
    (∀ e ∈ loop_trace s steps, e.1.num_cycles < e.1.cycles_to_run) ∧
    (run_loop s steps).state.num_cycles ≤ s.cycles_to_run ∧
    (∀ s2, run_loop s steps = Outcome.running s2 → s2.num_cycles < s2.cycles_to_run) := by
  induction steps generalizing s with
  | nil =>
    unfold run_loop loop_trace
    split
    · next h => simp [Outcome.state, hle]; exact h
    · simp [Outcome.state, hle]
  | cons step rest ih =>
    unfold run_loop loop_trace
    by_cases hc : s.num_cycles < s.cycles_to_run
    · obtain ⟨h1, h2, h3, h4⟩ := run_ops_below_limit s step hc hu32
      simp only [hc, if_true, List.mem_append]
      cases hr : run_ops s step with
      | thrown s1 =>
        dsimp only
        rw [hr] at h2 h3
        simp only [Res.state_thrown] at h2 h3
        refine ⟨?_, by simpa [Outcome.state] using h3, by simp⟩
        intro e he
        rcases he with he | he
        · exact h1 e he
        · simp at he
      | ok v s1 =>
        dsimp only
        rw [hr] at h2 h3 h4
        simp only [Res.state_ok, Res.isThrown_ok, forall_const] at h2 h3 h4
        have hs : (if s1.clear_so_next_cycle = true then cpu_set_so s1 false else s1).num_cycles
            = s1.num_cycles ∧
            (if s1.clear_so_next_cycle = true then cpu_set_so s1 false else s1).cycles_to_run
            = s1.cycles_to_run := by
          split <;> simp
        obtain ⟨i1, i2, i3⟩ := ih
          (if s1.clear_so_next_cycle = true then cpu_set_so s1 false else s1)
          (by rw [hs.1, hs.2]; omega) (by rw [hs.2]; omega)
        refine ⟨?_, ?_, i3⟩
        · intro e he
          rcases he with he | he
          · exact h1 e he
          · exact i1 e he
        · rw [hs.2] at i2; omega
    · simp [hc, Outcome.state, hle]

/-- A whole run started below the limit: every bus cycle performed starts below the limit,
the run ends at or below it, and it is still running only below it. -/
theorem main_run_below_limit (s : State) (reset : List BusOp) (steps : List (List BusOp))
    (hlt : s.num_cycles < s.cycles_to_run) (hu32 : s.cycles_to_run < 4294967296) :
    (∀ e ∈ main_trace s reset steps, e.1.num_cycles < e.1.cycles_to_run) ∧
    (main_run s reset steps).state.num_cycles ≤ s.cycles_to_run ∧
    (∀ s2, main_run s reset steps = Outcome.running s2 →
      s2.num_cycles < s2.cycles_to_run) := by
  obtain ⟨h1, h2, h3, h4⟩ := run_ops_below_limit s reset hlt hu32
  unfold main_run main_trace
  simp only [List.mem_append]
  cases hr : run_ops s reset with
  | thrown s1 =>
    dsimp only
    rw [hr] at h3
    refine ⟨?_, by simpa [Outcome.state] using h3, by simp⟩
    intro e he
    rcases he with he | he
    · exact h1 e he
    · simp at he
  | ok v s1 =>
    dsimp only
    rw [hr] at h2 h3
    simp only [Res.state_ok] at h2 h3
    obtain ⟨i1, i2, i3⟩ := run_loop_below_limit s1 steps (by omega) (by omega)
    refine ⟨?_, by omega, i3⟩
    intro e he
    rcases he with he | he
    · exact h1 e he
    · exact i1 e he

/-- C7: on every reported cycle `report_cycle` throws if and only if incrementing
`num_cycles` makes it equal to `cycles_to_run`, and it leaves the termination cause alone;
so a reported bus cycle of a run (cause still 0) stops the run with cause `"limit"` exactly
in that case.  The stop is raised by that same cycle: in a run that starts with
`num_cycles < cycles_to_run`, every bus cycle performed starts with
`num_cycles < cycles_to_run`, and the run ends with `num_cycles <= cycles_to_run`. -/
theorem cycle_limit_stop (s : State) (t a d : Nat) (op : BusOp) (reset : List BusOp)
    (steps : List (List BusOp)) :
    (((report_cycle s t a d).isThrown = true ↔ limit_reached s) ∧
      (report_cycle s t a d).state.num_cycles = (s.num_cycles + 1) % 4294967296 ∧
      (report_cycle s t a d).state.termination_cause = s.termination_cause) ∧
    (reports s op = true → s.termination_cause = 0 →
      (((callback s op).isThrown = true ∧
          result_termination_cause (callback s op).state = "limit") ↔ limit_reached s)) ∧
    (s.num_cycles < s.cycles_to_run → s.cycles_to_run < 4294967296 →
      (∀ e ∈ main_trace s reset steps, e.1.num_cycles < e.1.cycles_to_run) ∧
      (main_run s reset steps).state.num_cycles ≤ s.cycles_to_run ∧
      (∀ s2, main_run s reset steps = Outcome.running s2 →
        s2.num_cycles < s2.cycles_to_run)) := by
  refine ⟨?_, ?_, main_run_below_limit s reset steps⟩
  · rw [report_cycle_eq]
    by_cases hl : limit_reached s <;> simp [hl]
  · intro hrep h0
    rw [result_termination_cause, cause_name_eq_limit]
    exact callback_limit_iff s op hrep h0

/-- Witness for C7: the job with `max_cycles = 8`, whose first reported cycle is the vector
fetch at `0xFFFC`, run through reset and one opcode fetch. -/
theorem cycle_limit_stop_witness :
    (((callback (max_cycles_job_state 8) (BusOp.fetch_vector_byte 0xFFFC)).isThrown = true ∧
        result_termination_cause
          (callback (max_cycles_job_state 8) (BusOp.fetch_vector_byte 0xFFFC)).state = "limit") ↔
      limit_reached (max_cycles_job_state 8)) ∧
    ((∀ e ∈ main_trace (max_cycles_job_state 8) reset_vector_fetches
        [[BusOp.read_opcode 0x0200 ReadType.OPCODE]], e.1.num_cycles < e.1.cycles_to_run) ∧
      (main_run (max_cycles_job_state 8) reset_vector_fetches
        [[BusOp.read_opcode 0x0200 ReadType.OPCODE]]).state.num_cycles
        ≤ (max_cycles_job_state 8).cycles_to_run ∧
      (∀ s2, main_run (max_cycles_job_state 8) reset_vector_fetches
        [[BusOp.read_opcode 0x0200 ReadType.OPCODE]] = Outcome.running s2 →
        s2.num_cycles < s2.cycles_to_run)) :=
  ⟨(cycle_limit_stop (max_cycles_job_state 8) 0x5 0xFFFC 0 (BusOp.fetch_vector_byte 0xFFFC)
      reset_vector_fetches [[BusOp.read_opcode 0x0200 ReadType.OPCODE]]).2.1 rfl rfl,
   (cycle_limit_stop (max_cycles_job_state 8) 0x5 0xFFFC 0 (BusOp.fetch_vector_byte 0xFFFC)
      reset_vector_fetches [[BusOp.read_opcode 0x0200 ReadType.OPCODE]]).2.2
      (by decide) (by decide)⟩

end Arscore

/-! ## The reset sequence and the run loop -/

namespace Arscore

/-- A read made before the vector has been pulled is not reported: it returns normally and
leaves the counters, the pulled flag and the termination cause alone. -/
theorem callback_unreported_read (s : State) (op : BusOp)
    (hv : s.vector_has_been_pulled = false) (hop : is_plain_read op = true) :
    ∃ s1, callback s op = Res.ok () s1 ∧ s1.vector_has_been_pulled = false ∧
      s1.num_cycles = s.num_cycles ∧ s1.cycles_to_run = s.cycles_to_run ∧
      s1.termination_cause = s.termination_cause := by
  cases op with
  | read_opcode a rt =>
    exact ⟨(raw_read_byte s a).2, by simp [callback, read_opcode, read_byte_eq, hv, Res.void],
      by simpa using hv, by simp, by simp, by simp⟩
  | read_byte a rt =>
    exact ⟨(raw_read_byte s a).2, by simp [callback, read_byte_eq, hv, Res.void],
      by simpa using hv, by simp, by simp, by simp⟩
  | fetch_vector_byte a => simp [is_plain_read] at hop
  | write_byte a d wt => simp [is_plain_read] at hop

/-- Reads made before the vector has been pulled, in sequence. -/
theorem run_ops_unreported_reads (s : State) (pre : List BusOp)
    (hv : s.vector_has_been_pulled = false)
    (hpre : ∀ op ∈ pre, is_plain_read op = true) :
    ∃ s1, run_ops s pre = Res.ok () s1 ∧ s1.vector_has_been_pulled = false ∧
      s1.num_cycles = s.num_cycles ∧ s1.cycles_to_run = s.cycles_to_run ∧
      s1.termination_cause = s.termination_cause := by
  induction pre generalizing s with
  | nil => exact ⟨s, rfl, hv, rfl, rfl, rfl⟩
  | cons op pre ih =>
    obtain ⟨s0, c1, c2, c3, c4, c5⟩ :=
      callback_unreported_read s op hv (hpre op (List.mem_cons_self _ _))
    obtain ⟨s1, h1, h2, h3, h4, h5⟩ :=
      ih s0 c2 (fun o ho => hpre o (List.mem_cons_of_mem _ ho))
    refine ⟨s1, ?_, h2, by omega, by omega, by omega⟩
    simp only [run_ops, c1]
    exact h1

/-- C8, the code at the failing input `{"max_cycles": 6}`: whatever unreported reads
`cpu.reset()` makes first, its vector fetch at `0xFFFC` brings `num_cycles` to 6, which is
`cycles_to_run`, and throws; `cpu.reset()` is outside the `try` block, so the throw is not
caught and the run produces no result, whatever steps would follow. -/
theorem reset_limit_throw_uncaught (pre : List BusOp) (steps : List (List BusOp))
    (hpre : ∀ op ∈ pre, is_plain_read op = true) :
    (main_run (max_cycles_job_state 6) (pre ++ reset_vector_fetches) steps).isResult = false ∧
    ∃ s2, main_run (max_cycles_job_state 6) (pre ++ reset_vector_fetches) steps
        = Outcome.uncaught s2 ∧
      s2.num_cycles = 6 ∧ s2.termination_cause = 0 := by
  obtain ⟨s1, h1, h2, h3, h4, h5⟩ :=
    run_ops_unreported_reads (max_cycles_job_state 6) pre rfl hpre
  have hl : limit_reached s1 := by
    unfold limit_reached; rw [h3, h4]; decide
  have hrun : run_ops (max_cycles_job_state 6) (pre ++ reset_vector_fetches) =
      Res.thrown (record_cycle
        { (raw_read_byte s1 0xFFFC).2 with vector_has_been_pulled := true } 0x5 0xFFFC
        (raw_read_byte s1 0xFFFC).1) := by
    rw [run_ops_append, h1]
    simp [reset_vector_fetches, run_ops, callback, fetch_vector_byte_eq, hl, Res.void]
  unfold main_run
  rw [hrun]
  refine ⟨rfl, _, rfl, ?_, ?_⟩
  · simp [h3]; decide
  · simp [h5]; decide

/-- Witness for C8: the reset sequence with five unreported reads before the vector. -/
theorem reset_limit_throw_uncaught_witness :
    (main_run (max_cycles_job_state 6) (reset_prologue ++ reset_vector_fetches)
        [[BusOp.read_opcode 0x0200 ReadType.OPCODE]]).isResult = false ∧
    ∃ s2, main_run (max_cycles_job_state 6) (reset_prologue ++ reset_vector_fetches)
        [[BusOp.read_opcode 0x0200 ReadType.OPCODE]] = Outcome.uncaught s2 ∧
      s2.num_cycles = 6 ∧ s2.termination_cause = 0 :=
  reset_limit_throw_uncaught reset_prologue [[BusOp.read_opcode 0x0200 ReadType.OPCODE]]
    (by decide)

end Arscore

/-! ## The serial-in port -/

namespace Arscore

/-- The cursor after `n` reads of the serial-in address, and what does not move. -/
theorem serial_in_reads_cursor (s : State) (n : Nat) (hen : s.serial_in_enabled = true) :
    (serial_in_reads s n).serial_in_pos = min (s.serial_in_pos + n) (max s.serial_in_pos
      s.serial_in.length) ∧
    (serial_in_reads s n).serial_in = s.serial_in ∧
    (serial_in_reads s n).serial_in_addr = s.serial_in_addr ∧
    (serial_in_reads s n).serial_in_enabled = true := by
  induction n with
  | zero => simp [serial_in_reads, hen]
  | succ n ih =>
    obtain ⟨h1, h2, h3, h4⟩ := ih
    refine ⟨?_, by simp [serial_in_reads, h2], by simp [serial_in_reads, h3],
      by simp [serial_in_reads, h4]⟩
    simp only [serial_in_reads, raw_read_byte, h4, h3, beq_self_eq_true, Bool.and_self,
      if_true, h2]
    split
    · simp only [cpu_set_so]; omega
    · simp only []; omega

/-- The value a read callback delivers, and the cursor it leaves, are those of
`raw_read_byte`. -/
theorem read_byte_delivers_raw (t : State) (a : Nat) (rt : ReadType) :
    (read_byte t a rt).state.serial_in_pos = (raw_read_byte t a).2.serial_in_pos ∧
    (∀ v s2, read_byte t a rt = Res.ok v s2 → v = (raw_read_byte t a).1) := by
  rw [read_byte_eq]
  by_cases hv : t.vector_has_been_pulled = true <;> by_cases hl : limit_reached t <;>
    by_cases hrt : rt = ReadType.OPCODE ∨ rt = ReadType.PREEMPTED <;>
    simp [hv, hl, hrt]
  intro v s2
  unfold opcode_predicates
  simp only []
  split_ifs <;> simp
  intro h _; exact h.symm

/-- The value a vector fetch delivers, and the cursor it leaves, are those of
`raw_read_byte`. -/
theorem fetch_vector_byte_delivers_raw (t : State) (a : Nat) :
    (fetch_vector_byte t a).state.serial_in_pos = (raw_read_byte t a).2.serial_in_pos ∧
    (∀ v s2, fetch_vector_byte t a = Res.ok v s2 → v = (raw_read_byte t a).1) := by
  rw [fetch_vector_byte_eq]
  by_cases hl : limit_reached t <;> simp [hl]

/-- The `n`-th read of the serial-in address, cursor initially 0: byte delivered and globals
left. -/
theorem serial_in_nth_raw_read (s : State) (n : Nat) (hen : s.serial_in_enabled = true)
    (hpos : s.serial_in_pos = 0) :
    raw_read_byte (serial_in_reads s n) s.serial_in_addr =
      if n < s.serial_in.length then
        (s.serial_in.getD n 0, { serial_in_reads s n with serial_in_pos := n + 1 })
      else
        (0, cpu_set_so { serial_in_reads s n with clear_so_next_cycle := true } true) := by
  obtain ⟨h1, h2, h3, h4⟩ := serial_in_reads_cursor s n hen
  rw [hpos] at h1
  simp only [Nat.zero_add, Nat.zero_le, max_eq_right] at h1
  unfold raw_read_byte
  simp only [h4, h3, beq_self_eq_true, Bool.and_self, if_true, h2, h1, ge_iff_le]
  by_cases hn : n < s.serial_in.length
  · have : ¬ s.serial_in.length ≤ min n s.serial_in.length := by omega
    have hm : min n s.serial_in.length = n := by omega
    simp [this, hn, hm]
  · have : s.serial_in.length ≤ min n s.serial_in.length := by omega
    simp [this, hn]

/-- C9: with serial-in enabled, input sequence `serial_in` and the cursor initially 0, the
`n`-th read (0-indexed) of the serial-in address returns `serial_in[n]` when `n` is below
the length and `0x00` otherwise, whatever the memory holds; a read below the length advances
the cursor from `n` to `n + 1`, a read at or past it leaves the cursor unchanged, asserts SO
and sets `clear_so_next_cycle`; a read of any other address returns `memory[addr]` and
changes nothing; and every read callback, of any read type, delivers the byte and leaves
the cursor that this bus read gives, while a write callback leaves the cursor alone. -/
theorem serial_in_nth_read (s : State) (n : Nat) (hen : s.serial_in_enabled = true)
    (hpos : s.serial_in_pos = 0) :
    (∀ h : n < s.serial_in.length,
      (raw_read_byte (serial_in_reads s n) s.serial_in_addr).1 = s.serial_in[n] ∧
      (serial_in_reads s n).serial_in_pos = n ∧
      (serial_in_reads s (n + 1)).serial_in_pos = n + 1) ∧
    (s.serial_in.length ≤ n →
      (raw_read_byte (serial_in_reads s n) s.serial_in_addr).1 = 0x00 ∧
      (serial_in_reads s (n + 1)).serial_in_pos = (serial_in_reads s n).serial_in_pos ∧
      (serial_in_reads s (n + 1)).cpu_so = true ∧
      (serial_in_reads s (n + 1)).pin_calls = (serial_in_reads s n).pin_calls ++ [(1, true)] ∧
      (serial_in_reads s (n + 1)).clear_so_next_cycle = true) ∧
    (∀ memory : Nat → Nat,
      (raw_read_byte (serial_in_reads { s with sram := memory } n) s.serial_in_addr).1 =
        (raw_read_byte (serial_in_reads s n) s.serial_in_addr).1) ∧
    (∀ (t : State) (a : Nat), ¬ (t.serial_in_enabled = true ∧ a = t.serial_in_addr) →
      raw_read_byte t a = (t.sram a, t)) ∧
    (∀ (t : State) (a : Nat) (rt : ReadType),
      ((read_byte t a rt).state.serial_in_pos = (raw_read_byte t a).2.serial_in_pos ∧
        ∀ v s2, read_byte t a rt = Res.ok v s2 → v = (raw_read_byte t a).1) ∧
      ((read_opcode t a rt).state.serial_in_pos = (raw_read_byte t a).2.serial_in_pos ∧
        ∀ v s2, read_opcode t a rt = Res.ok v s2 → v = (raw_read_byte t a).1) ∧
      ((fetch_vector_byte t a).state.serial_in_pos = (raw_read_byte t a).2.serial_in_pos ∧
        ∀ v s2, fetch_vector_byte t a = Res.ok v s2 → v = (raw_read_byte t a).1)) ∧
    (∀ (t : State) (a d : Nat) (wt : WriteType),
      (write_byte t a d wt).state.serial_in_pos = t.serial_in_pos) := by
  have hraw := serial_in_nth_raw_read s n hen hpos
  obtain ⟨h1, -, -, -⟩ := serial_in_reads_cursor s n hen
  rw [hpos] at h1
  simp only [Nat.zero_add, Nat.zero_le, max_eq_right] at h1
  have hnext : serial_in_reads s (n + 1) =
      (raw_read_byte (serial_in_reads s n) s.serial_in_addr).2 := rfl
  refine ⟨?_, ?_, ?_, ?_, ?_, ?_⟩
  rotate_right
  · intro t a d wt
    rw [write_byte_eq]
    by_cases hl : limit_reached t <;> simp [hl]
  · intro h
    rw [hnext, hraw, if_pos h]
    refine ⟨?_, by omega, rfl⟩
    simp [List.getD_eq_getElem?_getD, List.getElem?_eq_getElem h]
  · intro h
    have hn : ¬ n < s.serial_in.length := by omega
    rw [hnext, hraw, if_neg hn]
    exact ⟨rfl, rfl, rfl, rfl, rfl⟩
  · intro memory
    have hraw2 := serial_in_nth_raw_read { s with sram := memory } n hen hpos
    simp only at hraw2
    rw [hraw, hraw2]
    split <;> rfl
  · intro t a h
    unfold raw_read_byte
    have : ¬ ((t.serial_in_enabled && a == t.serial_in_addr) = true) := by simpa using h
    rw [if_neg this]
  · intro t a rt
    exact ⟨read_byte_delivers_raw t a rt, read_byte_delivers_raw t a rt,
      fetch_vector_byte_delivers_raw t a⟩

/-- Witness for C9: serial input `"Hi"`, second read. -/
theorem serial_in_nth_read_witness :
    (raw_read_byte (serial_in_reads serial_in_state 1) serial_in_state.serial_in_addr).1
      = 0x69 ∧
    (serial_in_reads serial_in_state 1).serial_in_pos = 1 ∧
    (serial_in_reads serial_in_state (1 + 1)).serial_in_pos = 1 + 1 :=
  (serial_in_nth_read serial_in_state 1 rfl rfl).1 (by decide)

end Arscore

/-! ## The serial-out port -/

namespace Arscore

/-- The store half of a write keeps the serial-out buffer within its cap. -/
theorem write_store_serial_out_cap (s : State) (addr data : Nat)
    (hcap : s.serial_out.length ≤ MAX_SERIAL_OUT) :
    (write_store s addr data).state.serial_out.length ≤ MAX_SERIAL_OUT := by
  unfold write_store cpu_set_so
  simp only []
  split_ifs with h1 h2 h3 h4 <;> simp [hcap]
  omega

/-- One bus cycle keeps the serial-out buffer within its cap. -/
theorem callback_serial_out_cap (s : State) (op : BusOp)
    (hcap : s.serial_out.length ≤ MAX_SERIAL_OUT) :
    (callback s op).state.serial_out.length ≤ MAX_SERIAL_OUT := by
  cases op with
  | read_opcode addr rt =>
    simp only [callback, read_opcode, read_byte_eq, Res.void_state]
    by_cases hv : s.vector_has_been_pulled = true <;> by_cases hl : limit_reached s <;>
      by_cases hrt : rt = ReadType.OPCODE ∨ rt = ReadType.PREEMPTED <;>
      simp [hv, hl, hrt, hcap]
  | read_byte addr rt =>
    simp only [callback, read_byte_eq, Res.void_state]
    by_cases hv : s.vector_has_been_pulled = true <;> by_cases hl : limit_reached s <;>
      by_cases hrt : rt = ReadType.OPCODE ∨ rt = ReadType.PREEMPTED <;>
      simp [hv, hl, hrt, hcap]
  | fetch_vector_byte addr =>
    simp only [callback, fetch_vector_byte_eq, Res.void_state]
    by_cases hl : limit_reached s <;> simp [hl, hcap]
  | write_byte addr data wt =>
    simp only [callback, write_byte_eq]
    by_cases hl : limit_reached s
    · simp [hl, hcap]
    · simp only [hl, if_false]
      exact write_store_serial_out_cap _ _ _ (by simpa using hcap)

/-- The bus cycles of one core call keep the serial-out buffer within its cap. -/
theorem run_ops_serial_out_cap (s : State) (ops : List BusOp)
    (hcap : s.serial_out.length ≤ MAX_SERIAL_OUT) :
    (run_ops s ops).state.serial_out.length ≤ MAX_SERIAL_OUT := by
  induction ops generalizing s with
  | nil => simpa [run_ops] using hcap
  | cons op ops ih =>
    have h := callback_serial_out_cap s op hcap
    simp only [run_ops]
    cases hcb : callback s op with
    | ok v s1 => rw [hcb] at h; exact ih s1 h
    | thrown s1 => rw [hcb] at h; exact h

/-- The run loop keeps the serial-out buffer within its cap. -/
theorem run_loop_serial_out_cap (s : State) (steps : List (List BusOp))
    (hcap : s.serial_out.length ≤ MAX_SERIAL_OUT) :
    (run_loop s steps).state.serial_out.length ≤ MAX_SERIAL_OUT := by
  induction steps generalizing s with
  | nil => unfold run_loop; split <;> simpa [Outcome.state] using hcap
  | cons step rest ih =>
    unfold run_loop
    have h := run_ops_serial_out_cap s step hcap
    split
    · cases hr : run_ops s step with
      | thrown s1 => rw [hr] at h; exact h
      | ok v s1 =>
        rw [hr] at h
        apply ih
        split
        · simpa using h
        · exact h
    · simpa [Outcome.state] using hcap

/-- A whole run keeps the serial-out buffer within its cap. -/
theorem main_run_serial_out_cap (s : State) (reset : List BusOp) (steps : List (List BusOp))
    (hcap : s.serial_out.length ≤ MAX_SERIAL_OUT) :
    (main_run s reset steps).state.serial_out.length ≤ MAX_SERIAL_OUT := by
  unfold main_run
  have h := run_ops_serial_out_cap s reset hcap
  cases hr : run_ops s reset with
  | thrown s1 => rw [hr] at h; exact h
  | ok v s1 => rw [hr] at h; exact run_loop_serial_out_cap s1 steps h

/-- C10 as stated fails: with serial-out enabled at `0xF001` and an empty buffer, one cycle
short of the limit, a write of `0x48` to the serial-out address is reported, reaches the
cycle limit and throws before the byte is appended; the buffer is still empty. -/
theorem serial_out_append_counterexample :
    serial_out_last_cycle_state.serial_out_enabled = true ∧
    serial_out_last_cycle_state.serial_out.length < MAX_SERIAL_OUT ∧
    (write_byte serial_out_last_cycle_state serial_out_last_cycle_state.serial_out_addr
      0x48 WriteType.DATA).isThrown = true ∧
    (write_byte serial_out_last_cycle_state serial_out_last_cycle_state.serial_out_addr
      0x48 WriteType.DATA).state.serial_out ≠
        serial_out_last_cycle_state.serial_out ++ [0x48] := by
  refine ⟨by decide, by decide, by decide, by decide⟩

/-- C10 (amended): with serial-out enabled and the buffer within its cap of 131072 bytes,
the buffer stays within the cap after any sequence of bus callbacks and after any run; a
write to the serial-out address on a cycle that does not reach the cycle limit returns
normally, leaves the memory image and the termination cause unchanged whatever the writable
ranges are, appends exactly the written byte when the buffer holds fewer than 131072 bytes,
and when it holds 131072 bytes leaves the buffer unchanged, asserts SO and sets
`clear_so_next_cycle`. -/
theorem serial_out_write (s : State) (data : Nat) (wt : WriteType) (ops reset : List BusOp)
    (steps : List (List BusOp))
    (hen : s.serial_out_enabled = true)
    (hcap : s.serial_out.length ≤ MAX_SERIAL_OUT) :
    (run_ops s ops).state.serial_out.length ≤ 131072 ∧
    (main_run s reset steps).state.serial_out.length ≤ 131072 ∧
    (¬ limit_reached s →
      ∃ s2, write_byte s s.serial_out_addr data wt = Res.ok () s2 ∧
        s2.sram = s.sram ∧ s2.termination_cause = s.termination_cause ∧
        (s.serial_out.length < 131072 → s2.serial_out = s.serial_out ++ [data]) ∧
        (s.serial_out.length = 131072 →
          s2.serial_out = s.serial_out ∧ s2.cpu_so = true ∧
          s2.pin_calls.getLast? = some (1, true) ∧ s2.clear_so_next_cycle = true)) := by
  refine ⟨run_ops_serial_out_cap s ops hcap, main_run_serial_out_cap s reset steps hcap, ?_⟩
  intro hl
  rw [write_byte_eq, if_neg hl]
  unfold write_store
  simp only [after_report_fields, hen, beq_self_eq_true, Bool.and_self, if_true]
  by_cases hfull : s.serial_out.length ≥ MAX_SERIAL_OUT
  · rw [if_pos hfull]
    refine ⟨_, rfl, by simp, by simp, ?_, ?_⟩
    · intro h; unfold MAX_SERIAL_OUT at hfull; omega
    · intro _; simp
  · rw [if_neg hfull]
    refine ⟨_, rfl, by simp, by simp, ?_, ?_⟩
    · intro _; simp
    · intro h; unfold MAX_SERIAL_OUT at hfull; omega

/-- Witness for C10: after reset with serial-out at `0xF001` and an empty buffer, a write of
`0x48` to the serial-out address, which the default writable range does not contain. -/
theorem serial_out_write_witness :
    (run_ops serial_out_state
      [BusOp.write_byte 0xF001 0x48 WriteType.DATA]).state.serial_out.length ≤ 131072 ∧
    (main_run serial_out_state reset_vector_fetches
      [[BusOp.write_byte 0xF001 0x48 WriteType.DATA]]).state.serial_out.length ≤ 131072 ∧
    ∃ s2, write_byte serial_out_state serial_out_state.serial_out_addr 0x48 WriteType.DATA
        = Res.ok () s2 ∧
      s2.sram = serial_out_state.sram ∧
      s2.termination_cause = serial_out_state.termination_cause ∧
      (serial_out_state.serial_out.length < 131072 →
        s2.serial_out = serial_out_state.serial_out ++ [0x48]) ∧
      (serial_out_state.serial_out.length = 131072 →
        s2.serial_out = serial_out_state.serial_out ∧ s2.cpu_so = true ∧
        s2.pin_calls.getLast? = some (1, true) ∧ s2.clear_so_next_cycle = true) :=
  ⟨(serial_out_write serial_out_state 0x48 WriteType.DATA
      [BusOp.write_byte 0xF001 0x48 WriteType.DATA] reset_vector_fetches
      [[BusOp.write_byte 0xF001 0x48 WriteType.DATA]] rfl (by decide)).1,
   (serial_out_write serial_out_state 0x48 WriteType.DATA
      [BusOp.write_byte 0xF001 0x48 WriteType.DATA] reset_vector_fetches
      [[BusOp.write_byte 0xF001 0x48 WriteType.DATA]] rfl (by decide)).2.1,
   (serial_out_write serial_out_state 0x48 WriteType.DATA
      [BusOp.write_byte 0xF001 0x48 WriteType.DATA] reset_vector_fetches
      [[BusOp.write_byte 0xF001 0x48 WriteType.DATA]] rfl (by decide)).2.2 (by decide)⟩

end Arscore

/-! ## Invariants over the bus cycles of a run -/

namespace Arscore

/-- Invariant rule for one core call: a property kept by every callback, under a side
condition that every bus cycle performed meets, holds before every bus cycle and at the end. -/
theorem run_ops_invariant (P : State → Prop) (C : State × BusOp → Prop)
    (hcb : ∀ s op, P s → C (s, op) → P (callback s op).state)
    (s : State) (ops : List BusOp) (h0 : P s) (hC : ∀ e ∈ ops_trace s ops, C e) :
    (∀ e ∈ ops_trace s ops, P e.1) ∧ P (run_ops s ops).state := by
  induction ops generalizing s with
  | nil => simp [ops_trace, run_ops, h0]
  | cons op ops ih =>
    have hc0 : C (s, op) := hC (s, op) (by simp [ops_trace])
    have h1 := hcb s op h0 hc0
    simp only [ops_trace, run_ops, List.mem_cons] at hC ⊢
    cases hcb2 : callback s op with
    | ok v s1 =>
      dsimp only
      rw [hcb2] at h1 hC
      obtain ⟨i1, i2⟩ := ih s1 h1 (fun e he => hC e (Or.inr he))
      refine ⟨?_, i2⟩
      intro e he
      rcases he with he | he
      · subst he; exact h0
      · exact i1 e he
    | thrown s1 =>
      dsimp only
      rw [hcb2] at h1
      refine ⟨?_, h1⟩
      intro e he
      rcases he with he | he
      · subst he; exact h0
      · simp at he

/-- Invariant rule for the run loop. -/
theorem run_loop_invariant (P : State → Prop) (C : State × BusOp → Prop)
    (hcb : ∀ s op, P s → C (s, op) → P (callback s op).state)
    (hso : ∀ s, P s → P (cpu_set_so s false))
    (s : State) (steps : List (List BusOp)) (h0 : P s)
    (hC : ∀ e ∈ loop_trace s steps, C e) :
    (∀ e ∈ loop_trace s steps, P e.1) ∧ P (run_loop s steps).state := by
  induction steps generalizing s with
  | nil => unfold run_loop loop_trace; split <;> simp [Outcome.state, h0]
  | cons step rest ih =>
    unfold run_loop loop_trace
    unfold loop_trace at hC
    by_cases hc : s.num_cycles < s.cycles_to_run
    · simp only [hc, if_true, List.mem_append] at hC ⊢
      obtain ⟨h1, h2⟩ := run_ops_invariant P C hcb s step h0 (fun e he => hC e (Or.inl he))
      cases hr : run_ops s step with
      | thrown s1 =>
        dsimp only
        rw [hr] at h2
        refine ⟨?_, h2⟩
        intro e he
        rcases he with he | he
        · exact h1 e he
        · simp at he
      | ok v s1 =>
        dsimp only
        rw [hr] at h2 hC
        dsimp only at hC
        have h3 : P (if s1.clear_so_next_cycle = true then cpu_set_so s1 false else s1) := by
          split
          · exact hso s1 h2
          · exact h2
        generalize (if s1.clear_so_next_cycle = true then cpu_set_so s1 false else s1) = s2
          at h3 hC ⊢
        obtain ⟨i1, i2⟩ := ih s2 h3 (fun e he => hC e (Or.inr he))
        refine ⟨?_, i2⟩
        intro e he
        rcases he with he | he
        · exact h1 e he
        · exact i1 e he
    · simp [hc, Outcome.state, h0]

/-- Invariant rule for a whole run. -/
theorem main_run_invariant (P : State → Prop) (C : State × BusOp → Prop)
    (hcb : ∀ s op, P s → C (s, op) → P (callback s op).state)
    (hso : ∀ s, P s → P (cpu_set_so s false))
    (s : State) (reset : List BusOp) (steps : List (List BusOp)) (h0 : P s)
    (hC : ∀ e ∈ main_trace s reset steps, C e) :
    (∀ e ∈ main_trace s reset steps, P e.1) ∧ P (main_run s reset steps).state := by
  unfold main_run main_trace at *
  simp only [List.mem_append] at hC ⊢
  obtain ⟨h1, h2⟩ := run_ops_invariant P C hcb s reset h0 (fun e he => hC e (Or.inl he))
  cases hr : run_ops s reset with
  | thrown s1 =>
    dsimp only
    rw [hr] at h2
    refine ⟨?_, h2⟩
    intro e he
    rcases he with he | he
    · exact h1 e he
    · simp at he
  | ok v s1 =>
    dsimp only
    rw [hr] at h2 hC
    dsimp only at hC
    obtain ⟨i1, i2⟩ := run_loop_invariant P C hcb hso s1 steps h2
      (fun e he => hC e (Or.inr he))
    refine ⟨?_, i2⟩
    intro e he
    rcases he with he | he
    · exact h1 e he
    · exact i1 e he

end Arscore

/-! ## The termination predicates and their configuration -/

namespace Arscore

theorem cause_allowed_congr (s t : State) (hc : t.termination_cause = s.termination_cause)
    (ht : t.terminate_on = s.terminate_on) : cause_allowed t ↔ cause_allowed s := by
  simp [cause_allowed, State.enabled, hc, ht]

/-- The predicate chain of an opcode fetch only sets a cause whose predicate is enabled. -/
theorem opcode_predicates_cause_allowed (s : State) (addr data : Nat)
    (h : cause_allowed s) : cause_allowed (opcode_predicates s addr data).state := by
  unfold opcode_predicates
  simp only []
  split_ifs with h1 h2 h3 h4 h5
  · simp only [Bool.and_eq_true] at h1
    exact Or.inr ⟨by simp, by simp, by simpa [cause_flag, State.enabled] using h1.1.1⟩
  · simp only [Bool.and_eq_true] at h2
    exact Or.inr ⟨by simp, by simp, by simpa [cause_flag, State.enabled] using h2.1⟩
  · simp only [Bool.and_eq_true] at h3
    exact Or.inr ⟨by simp, by simp, by simpa [cause_flag, State.enabled] using h3.1.1⟩
  · simp only [Bool.and_eq_true] at h4
    exact Or.inr ⟨by simp, by simp, by simpa [cause_flag, State.enabled] using h4.1⟩
  · simp only [Bool.and_eq_true] at h5
    exact Or.inr ⟨by simp, by simp, by simpa [cause_flag, State.enabled] using h5.1⟩
  · exact (cause_allowed_congr s _ rfl rfl).mpr h

/-- The store half of a write only sets the cause `bad_write` when its predicate is enabled. -/
theorem write_store_cause_allowed (s : State) (addr data : Nat)
    (h : cause_allowed s) : cause_allowed (write_store s addr data).state := by
  unfold write_store
  simp only []
  split_ifs with h1 h2 h3 h4
  · exact (cause_allowed_congr s _ (by simp) (by simp)).mpr h
  · exact (cause_allowed_congr s _ rfl rfl).mpr h
  · exact (cause_allowed_congr s _ rfl rfl).mpr h
  · exact Or.inr ⟨by simp, by simp, by simpa [cause_flag, State.enabled] using h4⟩
  · exact h

/-- One bus cycle keeps the predicate mask and only sets a cause whose predicate is
enabled. -/
theorem callback_cause_allowed (s : State) (op : BusOp) :
    (callback s op).state.terminate_on = s.terminate_on ∧
    (cause_allowed s → cause_allowed (callback s op).state) := by
  cases op with
  | read_opcode addr rt =>
    simp only [callback, read_opcode, read_byte_eq, Res.void_state]
    by_cases hv : s.vector_has_been_pulled = true <;> by_cases hl : limit_reached s <;>
      by_cases hrt : rt = ReadType.OPCODE ∨ rt = ReadType.PREEMPTED <;>
      simp only [hv, hl, hrt, if_true, if_false, Res.state_ok, Res.state_thrown] <;>
      refine ⟨by simp, fun h => ?_⟩ <;>
      first
        | exact (cause_allowed_congr s _ (by simp) (by simp)).mpr h
        | exact opcode_predicates_cause_allowed _ _ _
            ((cause_allowed_congr s _ (by simp) (by simp)).mpr h)
  | read_byte addr rt =>
    simp only [callback, read_byte_eq, Res.void_state]
    by_cases hv : s.vector_has_been_pulled = true <;> by_cases hl : limit_reached s <;>
      by_cases hrt : rt = ReadType.OPCODE ∨ rt = ReadType.PREEMPTED <;>
      simp only [hv, hl, hrt, if_true, if_false, Res.state_ok, Res.state_thrown] <;>
      refine ⟨by simp, fun h => ?_⟩ <;>
      first
        | exact (cause_allowed_congr s _ (by simp) (by simp)).mpr h
        | exact opcode_predicates_cause_allowed _ _ _
            ((cause_allowed_congr s _ (by simp) (by simp)).mpr h)
  | fetch_vector_byte addr =>
    simp only [callback, fetch_vector_byte_eq, Res.void_state]
    by_cases hl : limit_reached s <;>
      simp only [hl, if_true, if_false, Res.state_ok, Res.state_thrown] <;>
      exact ⟨by simp, fun h => (cause_allowed_congr s _ (by simp) (by simp)).mpr h⟩
  | write_byte addr data wt =>
    simp only [callback, write_byte_eq]
    by_cases hl : limit_reached s <;>
      simp only [hl, if_true, if_false, Res.state_thrown]
    · exact ⟨by simp, fun h => (cause_allowed_congr s _ (by simp) (by simp)).mpr h⟩
    · exact ⟨by simp, fun h => write_store_cause_allowed _ _ _
        ((cause_allowed_congr s _ (by simp) (by simp)).mpr h)⟩

end Arscore

namespace Arscore

set_option maxRecDepth 100000 in
/-- Clearing one predicate bit of an 8-bit mask: that bit becomes 0 and each of the other
seven bits keeps its value. -/
theorem clear_flag_bits :
    ∀ t < 256, ∀ flag ∈ predicate_flags, ∀ g ∈ bit_masks,
      ((t &&& (0xFFFFFFFF ^^^ flag)) % 256) &&& g = if g = flag then 0 else t &&& g := by
  decide

/-- C19: with no `terminate_on_*` field the mask is `0x3F`, so all six predicates are
enabled and the unused bits `0xC0` are clear; a single field `terminate_on_X: false` gives
the mask `0x3F` without the bit of X; in general a field that is `false` clears exactly the
bit of its predicate and leaves the other seven bits unchanged, an absent or `true` field leaves
the mask alone; a run never changes the mask, and starting with cause 0 it never ends with a
termination cause other than `"limit"` whose predicate is disabled. -/
theorem terminate_on_configuration (s : State) (flag g : Nat)
    (reset : List BusOp) (steps : List (List BusOp)) :
    ((configure_terminate_on globals_init no_terminate_fields).terminate_on = 0x3F ∧
      (∀ f ∈ predicate_flags,
        (configure_terminate_on globals_init no_terminate_fields).enabled f = true) ∧
      (configure_terminate_on globals_init no_terminate_fields).terminate_on
        &&& TERMINATE_ON_UNUSED_FLAGS = 0) ∧
    ((configure_terminate_on globals_init
        { no_terminate_fields with terminate_on_brk := some false }).terminate_on
        = 0x3F - TERMINATE_ON_BRK ∧
      (configure_terminate_on globals_init
        { no_terminate_fields with terminate_on_infinite_loop := some false }).terminate_on
        = 0x3F - TERMINATE_ON_INFINITE ∧
      (configure_terminate_on globals_init
        { no_terminate_fields with terminate_on_zero_fetch := some false }).terminate_on
        = 0x3F - TERMINATE_ON_ZERO ∧
      (configure_terminate_on globals_init
        { no_terminate_fields with terminate_on_stack_fetch := some false }).terminate_on
        = 0x3F - TERMINATE_ON_STACK ∧
      (configure_terminate_on globals_init
        { no_terminate_fields with terminate_on_vector_fetch := some false }).terminate_on
        = 0x3F - TERMINATE_ON_VECTOR ∧
      (configure_terminate_on globals_init
        { no_terminate_fields with terminate_on_bad_write := some false }).terminate_on
        = 0x3F - TERMINATE_ON_BAD_WRITE) ∧
    (s.terminate_on < 256 → flag ∈ predicate_flags → g ∈ bit_masks →
      (apply_terminate_field s flag (some false)).terminate_on &&& g =
        if g = flag then 0 else s.terminate_on &&& g) ∧
    (apply_terminate_field s flag (some true) = s ∧ apply_terminate_field s flag none = s) ∧
    ((main_run s reset steps).state.terminate_on = s.terminate_on ∧
      (s.termination_cause = 0 →
        (main_run s reset steps).state.termination_cause ≠ 0 →
        1 ≤ (main_run s reset steps).state.termination_cause ∧
        (main_run s reset steps).state.termination_cause ≤ 6 ∧
        s.enabled (cause_flag (main_run s reset steps).state.termination_cause) = true)) := by
  refine ⟨⟨by decide, by decide, by decide⟩,
    ⟨by decide, by decide, by decide, by decide, by decide, by decide⟩, ?_, ⟨rfl, rfl⟩, ?_⟩
  · intro ht hf hg
    exact clear_flag_bits s.terminate_on ht flag hf g hg
  · have hinv := main_run_invariant
      (fun t => t.terminate_on = s.terminate_on ∧ (cause_allowed s → cause_allowed t))
      (fun _ => True)
      (fun t op hP _ => ⟨(callback_cause_allowed t op).1.trans hP.1,
        fun h => (callback_cause_allowed t op).2 (hP.2 h)⟩)
      (fun t hP => ⟨hP.1, fun h => (cause_allowed_congr t _ (by simp) (by simp)).mpr (hP.2 h)⟩)
      s reset steps ⟨rfl, fun h => h⟩ (fun _ _ => trivial)
    obtain ⟨-, hon, hca⟩ := hinv
    refine ⟨hon, ?_⟩
    intro h0 hne
    rcases hca (Or.inl h0) with h | ⟨h1, h2, h3⟩
    · exact absurd h hne
    · refine ⟨h1, h2, ?_⟩
      simpa [State.enabled, hon] using h3

/-- Witness for C19: clearing the brk bit of the default mask leaves the infinite-loop bit
set, and the run of the empty job ends with a cause whose predicate is enabled. -/
theorem terminate_on_configuration_witness :
    (apply_terminate_field empty_job_state TERMINATE_ON_BRK (some false)).terminate_on
        &&& 0x02 =
      (if 0x02 = TERMINATE_ON_BRK then 0 else empty_job_state.terminate_on &&& 0x02) ∧
    (1 ≤ (main_run empty_job_state reset_vector_fetches
        [[BusOp.read_opcode 0x0200 ReadType.OPCODE]]).state.termination_cause ∧
      (main_run empty_job_state reset_vector_fetches
        [[BusOp.read_opcode 0x0200 ReadType.OPCODE]]).state.termination_cause ≤ 6 ∧
      empty_job_state.enabled (cause_flag (main_run empty_job_state reset_vector_fetches
        [[BusOp.read_opcode 0x0200 ReadType.OPCODE]]).state.termination_cause) = true) :=
  ⟨(terminate_on_configuration empty_job_state TERMINATE_ON_BRK 0x02
      reset_vector_fetches [[BusOp.read_opcode 0x0200 ReadType.OPCODE]]).2.2.1
      (by decide) (by decide) (by decide),
   (terminate_on_configuration empty_job_state TERMINATE_ON_BRK 0x02
      reset_vector_fetches [[BusOp.read_opcode 0x0200 ReadType.OPCODE]]).2.2.2.2.2
      rfl (by decide)⟩

end Arscore

/-! ## The cycle trace -/

namespace Arscore

/-- The trace and its budget after the first half of `report_cycle`. -/
theorem record_cycle_trace (s : State) (t a d : Nat) :
    (record_cycle s t a d).cycles =
      (if 0 < s.cycles_to_report then s.cycles ++ [pack_cycle t a d] else s.cycles) ∧
    (record_cycle s t a d).cycles_to_report = s.cycles_to_report - 1 := by
  unfold record_cycle pack_cycle
  by_cases h : s.cycles_to_report > 0
  · simp [h]
  · simp [h]; omega

/-- The trace and its budget after one bus cycle: a reported cycle appends its packed word
while budget remains and uses one unit of budget; nothing else touches the trace. -/
theorem callback_trace (s : State) (op : BusOp) :
    (callback s op).state.cycles =
      (if reports s op = true ∧ 0 < s.cycles_to_report
        then s.cycles ++ [pack_cycle (bus_cycle_type op) (bus_addr op) (bus_data s op)]
        else s.cycles) ∧
    (callback s op).state.cycles_to_report =
      (if reports s op = true then s.cycles_to_report - 1 else s.cycles_to_report) := by
  cases op with
  | read_opcode addr rt =>
    simp only [callback, read_opcode, read_byte_eq, Res.void_state, reports, bus_cycle_type,
      bus_addr, bus_data]
    by_cases hv : s.vector_has_been_pulled = true <;> by_cases hl : limit_reached s <;>
      by_cases hrt : rt = ReadType.OPCODE ∨ rt = ReadType.PREEMPTED <;>
      simp [hv, hl, hrt, after_report, record_cycle_trace]
    all_goals rcases hrt with h | h <;> subst h <;> simp [read_cycle_type]
  | read_byte addr rt =>
    simp only [callback, read_byte_eq, Res.void_state, reports, bus_cycle_type,
      bus_addr, bus_data]
    by_cases hv : s.vector_has_been_pulled = true <;> by_cases hl : limit_reached s <;>
      by_cases hrt : rt = ReadType.OPCODE ∨ rt = ReadType.PREEMPTED <;>
      simp [hv, hl, hrt, after_report, record_cycle_trace]
    all_goals rcases hrt with h | h <;> subst h <;> simp [read_cycle_type]
  | fetch_vector_byte addr =>
    simp only [callback, fetch_vector_byte_eq, Res.void_state, reports, bus_cycle_type,
      bus_addr, bus_data]
    by_cases hl : limit_reached s <;> simp [hl, after_report, record_cycle_trace]
  | write_byte addr data wt =>
    simp only [callback, write_byte_eq, reports, bus_cycle_type, bus_addr, bus_data]
    by_cases hl : limit_reached s <;> simp [hl, after_report, record_cycle_trace]

end Arscore

namespace Arscore

/-- During one core call the counter grows by at most one per bus cycle. -/
theorem run_ops_num_cycles_le (s : State) (ops : List BusOp) :
    (∀ e ∈ ops_trace s ops, e.1.num_cycles + 1 ≤ s.num_cycles + ops.length) ∧
    (run_ops s ops).state.num_cycles ≤ s.num_cycles + ops.length := by
  induction ops generalizing s with
  | nil => simp [ops_trace, run_ops]
  | cons op ops ih =>
    have hn := (callback_counters s op).2
    have hle : (callback s op).state.num_cycles ≤ s.num_cycles + 1 := by
      rw [hn]; split
      · exact Nat.mod_le _ _
      · omega
    simp only [ops_trace, run_ops, List.mem_cons, List.length_cons]
    cases hcb : callback s op with
    | ok v s1 =>
      dsimp only
      rw [hcb] at hle
      simp only [Res.state_ok] at hle
      obtain ⟨i1, i2⟩ := ih s1
      refine ⟨?_, by omega⟩
      intro e he
      rcases he with he | he
      · subst he; simp
      · have := i1 e he; omega
    | thrown s1 =>
      dsimp only
      rw [hcb] at hle
      simp only [Res.state_thrown] at hle
      refine ⟨?_, by simp only [Res.state_thrown]; omega⟩
      intro e he
      rcases he with he | he
      · subst he; simp
      · simp at he

/-- The run loop never changes `cycles_to_run`. -/
theorem run_loop_cycles_to_run (s : State) (steps : List (List BusOp)) :
    ∀ e ∈ loop_trace s steps, e.1.cycles_to_run = s.cycles_to_run :=
  (run_loop_invariant (fun t => t.cycles_to_run = s.cycles_to_run) (fun _ => True)
    (fun t op hP _ => (callback_counters t op).1.trans hP)
    (fun t hP => by simpa using hP) s steps rfl (fun _ _ => trivial)).1

/-- In the run loop the counter does not wrap: every bus cycle starts below
`cycles_to_run`, which is a 32-bit value. -/
theorem run_loop_no_wrap (s : State) (steps : List (List BusOp))
    (hu32 : s.cycles_to_run < 4294967296) :
    ∀ e ∈ loop_trace s steps, no_wrap e.1 := by
  intro e he
  by_cases hle : s.num_cycles ≤ s.cycles_to_run
  · have h1 := (run_loop_below_limit s steps hle hu32).1 e he
    have h2 := run_loop_cycles_to_run s steps e he
    unfold no_wrap; omega
  · cases steps with
    | nil => simp [loop_trace] at he
    | cons step rest =>
      have : ¬ s.num_cycles < s.cycles_to_run := by omega
      simp [loop_trace, this] at he

/-- In a whole run the counter does not wrap, provided the reset sequence is short of
`2^32` bus cycles. -/
theorem main_run_no_wrap (s : State) (reset : List BusOp) (steps : List (List BusOp))
    (hreset : s.num_cycles + reset.length < 4294967296)
    (hu32 : s.cycles_to_run < 4294967296) :
    ∀ e ∈ main_trace s reset steps, no_wrap e.1 := by
  intro e he
  unfold main_trace at he
  rw [List.mem_append] at he
  rcases he with he | he
  · have := (run_ops_num_cycles_le s reset).1 e he
    unfold no_wrap; omega
  · cases hr : run_ops s reset with
    | thrown s1 => rw [hr] at he; simp at he
    | ok v s1 =>
      rw [hr] at he
      dsimp only at he
      have hc : s1.cycles_to_run = s.cycles_to_run := by
        have := (run_ops_invariant (fun t => t.cycles_to_run = s.cycles_to_run) (fun _ => True)
          (fun t op hP _ => (callback_counters t op).1.trans hP) s reset rfl
          (fun _ _ => trivial)).2
        rw [hr] at this
        exact this
      exact run_loop_no_wrap s1 steps (by omega) e he

end Arscore

namespace Arscore

/-- One bus cycle that does not wrap the counter keeps the trace invariant. -/
theorem callback_trace_counted (B : Nat) (s : State) (op : BusOp)
    (h : trace_counted B s) (hw : no_wrap s) : trace_counted B (callback s op).state := by
  obtain ⟨hc, hr⟩ := callback_trace s op
  have hn := (callback_counters s op).2
  have hmod : (s.num_cycles + 1) % 4294967296 = s.num_cycles + 1 :=
    Nat.mod_eq_of_lt hw
  unfold trace_counted at *
  rw [hc, hr, hn]
  by_cases hrep : reports s op = true
  · by_cases hb : 0 < s.cycles_to_report
    · simp only [hrep, hb, and_self, if_true, List.length_append, List.length_singleton, hmod]
      omega
    · simp only [hrep, hb, and_false, if_false, if_true, hmod]
      omega
  · simp only [hrep, false_and, if_false]
    exact h

/-- C17: in every run from the initial state (empty trace, `num_cycles` 5) with trace budget
`B`, and likewise after any sequence of bus callbacks from it, the number of trace entries
is at most `min(num_cycles - 5, B)`; once the budget is exhausted a reported cycle leaves
the trace unchanged and the budget at 0 while `num_cycles` still advances by one.  The
32-bit counter cannot wrap in the run loop; the cycles of the reset sequence, and of the
callback sequence, are taken to be fewer than `2^32 - 5`. -/
theorem trace_within_budget (s t : State) (B : Nat) (op : BusOp) (ops reset : List BusOp)
    (steps : List (List BusOp))
    (hempty : s.cycles = []) (hbudget : s.cycles_to_report = B) (hfive : s.num_cycles = 5)
    (hu32 : s.cycles_to_run < 4294967296) :
    (5 + reset.length < 4294967296 →
      (main_run s reset steps).state.cycles.length
        ≤ min ((main_run s reset steps).state.num_cycles - 5) B) ∧
    (5 + ops.length < 4294967296 →
      (run_ops s ops).state.cycles.length ≤ min ((run_ops s ops).state.num_cycles - 5) B) ∧
    (reports t op = true → t.cycles_to_report = 0 →
      (callback t op).state.cycles = t.cycles ∧
      (callback t op).state.cycles_to_report = 0 ∧
      (callback t op).state.num_cycles = (t.num_cycles + 1) % 4294967296 ∧
      (no_wrap t → (callback t op).state.num_cycles = t.num_cycles + 1)) := by
  have h0 : trace_counted B s := by
    unfold trace_counted; rw [hempty, hbudget, hfive]; simp
  have hfin : ∀ f : State, trace_counted B f → f.cycles.length ≤ min (f.num_cycles - 5) B := by
    intro f hf; unfold trace_counted at hf; omega
  refine ⟨?_, ?_, ?_⟩
  · intro hreset
    have hw := main_run_no_wrap s reset steps (by omega) hu32
    exact hfin _ (main_run_invariant (trace_counted B) (fun e => no_wrap e.1)
      (fun u o hP hC => callback_trace_counted B u o hP hC)
      (fun u hP => by unfold trace_counted at *; simpa using hP)
      s reset steps h0 hw).2
  · intro hops
    have hw : ∀ e ∈ ops_trace s ops, no_wrap e.1 := by
      intro e he
      have := (run_ops_num_cycles_le s ops).1 e he
      unfold no_wrap; omega
    exact hfin _ (run_ops_invariant (trace_counted B) (fun e => no_wrap e.1)
      (fun u o hP hC => callback_trace_counted B u o hP hC) s ops h0 hw).2
  · intro hrep hz
    obtain ⟨hc, hr⟩ := callback_trace t op
    have hn := (callback_counters t op).2
    rw [hc, hr, hn]
    simp only [hrep, hz, Nat.lt_irrefl, and_false, if_false, if_true, Nat.zero_sub, true_and]
    intro hw
    exact Nat.mod_eq_of_lt hw

/-- Witness for C17: the job `show_cycles: true` with budget 1000, run through reset and one
opcode fetch. -/
theorem trace_within_budget_witness :
    (main_run show_cycles_job_state reset_vector_fetches
        [[BusOp.read_opcode 0x0200 ReadType.OPCODE]]).state.cycles.length
      ≤ min ((main_run show_cycles_job_state reset_vector_fetches
        [[BusOp.read_opcode 0x0200 ReadType.OPCODE]]).state.num_cycles - 5) 1000 ∧
    ((callback empty_job_after_reset (BusOp.read_opcode 0x0200 ReadType.OPCODE)).state.cycles
        = empty_job_after_reset.cycles ∧
      (callback empty_job_after_reset
        (BusOp.read_opcode 0x0200 ReadType.OPCODE)).state.cycles_to_report = 0 ∧
      (callback empty_job_after_reset
        (BusOp.read_opcode 0x0200 ReadType.OPCODE)).state.num_cycles
        = (empty_job_after_reset.num_cycles + 1) % 4294967296 ∧
      (no_wrap empty_job_after_reset →
        (callback empty_job_after_reset
          (BusOp.read_opcode 0x0200 ReadType.OPCODE)).state.num_cycles
          = empty_job_after_reset.num_cycles + 1)) :=
  ⟨(trace_within_budget show_cycles_job_state empty_job_after_reset 1000
      (BusOp.read_opcode 0x0200 ReadType.OPCODE) [] reset_vector_fetches
      [[BusOp.read_opcode 0x0200 ReadType.OPCODE]] rfl rfl rfl (by decide)).1 (by decide),
   (trace_within_budget show_cycles_job_state empty_job_after_reset 1000
      (BusOp.read_opcode 0x0200 ReadType.OPCODE) [] reset_vector_fetches
      [[BusOp.read_opcode 0x0200 ReadType.OPCODE]] rfl rfl rfl (by decide)).2.2 rfl rfl⟩

end Arscore

namespace Arscore

/-- The packed trace word in arithmetic form, for a 16-bit address and an 8-bit data byte. -/
theorem pack_cycle_eq (t a d : Nat) (ha : a < 65536) (hd : d < 256) :
    pack_cycle t a d = (t * 16777216 + a * 256 + d) % 4294967296 := by
  unfold pack_cycle
  have h1 : (a <<< 8) ||| d = a * 256 + d := by
    rw [Nat.shiftLeft_eq, Nat.mul_comm a (2 ^ 8)]
    have := Nat.mul_add_lt_is_or (i := 8) (b := d) (by norm_num; exact hd) a
    rw [← this]
  have h2 : (t <<< 24) ||| (a * 256 + d) = t * 16777216 + (a * 256 + d) := by
    rw [Nat.shiftLeft_eq, Nat.mul_comm t (2 ^ 24)]
    have := Nat.mul_add_lt_is_or (i := 24) (b := a * 256 + d) (by norm_num; omega) t
    rw [← this]
  rw [Nat.or_assoc, h1, h2, Nat.add_assoc]

/-- The nibble carried by a packed trace word is its cycle type. -/
theorem cycle_nibble_pack (t a d : Nat) (ht : t < 16) (ha : a < 65536) (hd : d < 256) :
    cycle_nibble (pack_cycle t a d) = t := by
  rw [pack_cycle_eq t a d ha hd]
  unfold cycle_nibble
  rw [Nat.shiftRight_eq_div_pow]
  have h15 : ∀ x : Nat, x &&& 0xF = x % 16 := by
    intro x
    have := Nat.and_pow_two_sub_one_eq_mod x 4
    norm_num at this
    exact this
  rw [h15]
  norm_num
  omega

/-- The cycle type passed by the callbacks is the one of the specification table. -/
theorem bus_cycle_type_eq_claimed (op : BusOp) : bus_cycle_type op = claimed_nibble op := by
  cases op with
  | read_opcode a rt => cases rt <;> rfl
  | read_byte a rt => cases rt <;> rfl
  | fetch_vector_byte a => rfl
  | write_byte a d wt => cases wt <;> rfl

theorem claimed_nibble_mem (op : BusOp) : claimed_nibble op ∈ cycle_types := by
  cases op with
  | read_opcode a rt => cases rt <;> simp [claimed_nibble, cycle_types]
  | read_byte a rt => cases rt <;> simp [claimed_nibble, cycle_types]
  | fetch_vector_byte a => simp [claimed_nibble, cycle_types]
  | write_byte a d wt => cases wt <;> simp [claimed_nibble, cycle_types]

/-- A byte read from the bus is a byte. -/
theorem raw_read_byte_lt (s : State) (addr : Nat) (h : bytes_typed s) :
    (raw_read_byte s addr).1 < 256 := by
  unfold raw_read_byte
  split
  · split
    · simp
    · next hpos =>
      simp only [ge_iff_le, not_le] at hpos
      simp only [List.getD_eq_getElem?_getD, List.getElem?_eq_getElem hpos, Option.getD_some]
      exact h.2 _ (List.getElem_mem _)
  · exact h.1 addr

theorem bus_data_lt (s : State) (op : BusOp) (h : bytes_typed s) (ho : bus_op_typed op) :
    bus_data s op < 256 := by
  cases op with
  | read_opcode a rt => exact raw_read_byte_lt s a h
  | read_byte a rt => exact raw_read_byte_lt s a h
  | fetch_vector_byte a => exact raw_read_byte_lt s a h
  | write_byte a d wt => exact ho.2

theorem bus_addr_lt (op : BusOp) (ho : bus_op_typed op) : bus_addr op < 65536 := by
  cases op with
  | read_opcode a rt => exact ho
  | read_byte a rt => exact ho
  | fetch_vector_byte a => exact ho
  | write_byte a d wt => exact ho.1

end Arscore

namespace Arscore

/-- One bus cycle with typed arguments keeps the memory image and the serial input bytes. -/
theorem callback_bytes_typed (s : State) (op : BusOp) (h : bytes_typed s)
    (ho : bus_op_typed op) : bytes_typed (callback s op).state := by
  cases op with
  | read_opcode addr rt =>
    simp only [callback, read_opcode, read_byte_eq, Res.void_state]
    by_cases hv : s.vector_has_been_pulled = true <;> by_cases hl : limit_reached s <;>
      by_cases hrt : rt = ReadType.OPCODE ∨ rt = ReadType.PREEMPTED <;>
      simp only [hv, hl, hrt, if_true, if_false, Res.state_ok, Res.state_thrown] <;>
      simpa [bytes_typed] using h
  | read_byte addr rt =>
    simp only [callback, read_byte_eq, Res.void_state]
    by_cases hv : s.vector_has_been_pulled = true <;> by_cases hl : limit_reached s <;>
      by_cases hrt : rt = ReadType.OPCODE ∨ rt = ReadType.PREEMPTED <;>
      simp only [hv, hl, hrt, if_true, if_false, Res.state_ok, Res.state_thrown] <;>
      simpa [bytes_typed] using h
  | fetch_vector_byte addr =>
    simp only [callback, fetch_vector_byte_eq, Res.void_state]
    by_cases hl : limit_reached s <;>
      simp only [hl, if_true, if_false, Res.state_ok, Res.state_thrown] <;>
      simpa [bytes_typed] using h
  | write_byte addr data wt =>
    simp only [callback, write_byte_eq]
    by_cases hl : limit_reached s
    · simp only [hl, if_true, Res.state_thrown]
      simpa [bytes_typed] using h
    · simp only [hl, if_false]
      refine ⟨?_, by simpa using h.2⟩
      unfold write_store
      simp only []
      split_ifs <;> simp only [Res.state_ok, Res.state_thrown, cpu_set_so, after_report_fields]
      all_goals first
        | exact h.1
        | (intro a
           split
           · exact ho.2
           · exact h.1 a)

/-- C16: a reported cycle with trace budget left appends exactly one trace entry, and the
cycle-type nibble of that entry is the one fixed by the callback and access type that
produced it (`0xF` for reads of type OPCODE or PREEMPTED, `0x3` for DATA_LOCKED or
IOP_LOCKED, `0x7` for any other read type, `0x5` for `fetch_vector_byte`, `0x6` for writes
of type DATA or PUSH, `0x2` for DATA_LOCKED); a cycle that is not reported appends nothing;
hence in a run that starts with an empty trace every trace entry carries one of the nibbles
`0x2, 0x3, 0x5, 0x6, 0x7, 0xF`.  Addresses are 16-bit and data bytes 8-bit values. -/
theorem cycle_type_nibble (s : State) (op : BusOp) (reset : List BusOp)
    (steps : List (List BusOp)) (hbytes : bytes_typed s) :
    (bus_op_typed op → reports s op = true → 0 < s.cycles_to_report →
      ∃ entry, (callback s op).state.cycles = s.cycles ++ [entry] ∧
        cycle_nibble entry = claimed_nibble op) ∧
    (reports s op = false → (callback s op).state.cycles = s.cycles) ∧
    (s.cycles = [] → (∀ e ∈ main_trace s reset steps, bus_op_typed e.2) →
      ∀ entry ∈ (main_run s reset steps).state.cycles, cycle_nibble entry ∈ cycle_types) := by
  have hstep : ∀ (u : State) (o : BusOp), bytes_typed u → bus_op_typed o →
      reports u o = true → 0 < u.cycles_to_report →
      ∃ entry, (callback u o).state.cycles = u.cycles ++ [entry] ∧
        cycle_nibble entry = claimed_nibble o := by
    intro u o hu ho hrep hb
    refine ⟨pack_cycle (bus_cycle_type o) (bus_addr o) (bus_data u o), ?_, ?_⟩
    · rw [(callback_trace u o).1]; simp [hrep, hb]
    · rw [cycle_nibble_pack _ _ _ ?_ (bus_addr_lt o ho) (bus_data_lt u o hu ho)]
      · exact bus_cycle_type_eq_claimed o
      · rw [bus_cycle_type_eq_claimed]
        have := claimed_nibble_mem o
        simp only [cycle_types, List.mem_cons, List.mem_singleton, List.not_mem_nil,
          or_false] at this
        omega
  refine ⟨hstep s op hbytes, ?_, ?_⟩
  · intro hrep
    rw [(callback_trace s op).1]; simp [hrep]
  · intro hempty hops
    have hinv := main_run_invariant
      (fun u => bytes_typed u ∧ ∀ entry ∈ u.cycles, cycle_nibble entry ∈ cycle_types)
      (fun e => bus_op_typed e.2)
      (fun u o hP hC => by
        refine ⟨callback_bytes_typed u o hP.1 hC, ?_⟩
        intro entry hmem
        rw [(callback_trace u o).1] at hmem
        by_cases hc : reports u o = true ∧ 0 < u.cycles_to_report
        · obtain ⟨e2, h2, h3⟩ := hstep u o hP.1 hC hc.1 hc.2
          rw [(callback_trace u o).1] at h2
          rw [if_pos hc] at hmem h2
          have he2 := List.append_cancel_left h2
          rw [List.mem_append] at hmem
          rcases hmem with hm | hm
          · exact hP.2 entry hm
          · rw [he2] at hm
            simp only [List.mem_singleton] at hm
            rw [hm, h3]; exact claimed_nibble_mem o
        · rw [if_neg hc] at hmem
          exact hP.2 entry hmem)
      (fun u hP => ⟨by simpa [bytes_typed] using hP.1, by simpa using hP.2⟩)
      s reset steps ⟨hbytes, by simp [hempty]⟩ hops
    exact hinv.2.2

/-- The sample globals with a trace budget hold bytes. -/
theorem show_cycles_job_bytes_typed : bytes_typed show_cycles_job_state := by
  refine ⟨?_, by simp [show_cycles_job_state, empty_job_state, set_max_cycles, install_rwmap,
    seed_reset_vector, globals_init]⟩
  intro a
  simp only [show_cycles_job_state, empty_job_state, set_max_cycles, install_rwmap,
    seed_reset_vector, globals_init]
  split <;> decide

/-- Witness for C16: with a trace budget, the vector fetch at `0xFFFC` of the reset
sequence is recorded with nibble `0x5`. -/
theorem cycle_type_nibble_witness :
    (∃ entry, (callback show_cycles_job_state (BusOp.fetch_vector_byte 0xFFFC)).state.cycles
        = show_cycles_job_state.cycles ++ [entry] ∧
      cycle_nibble entry = claimed_nibble (BusOp.fetch_vector_byte 0xFFFC)) ∧
    (∀ entry ∈ (main_run show_cycles_job_state reset_vector_fetches
        [[BusOp.read_opcode 0x0200 ReadType.OPCODE]]).state.cycles,
      cycle_nibble entry ∈ cycle_types) :=
  ⟨(cycle_type_nibble show_cycles_job_state (BusOp.fetch_vector_byte 0xFFFC)
      reset_vector_fetches [[BusOp.read_opcode 0x0200 ReadType.OPCODE]]
      show_cycles_job_bytes_typed).1 (by decide) rfl (by decide),
   (cycle_type_nibble show_cycles_job_state (BusOp.fetch_vector_byte 0xFFFC)
      reset_vector_fetches [[BusOp.read_opcode 0x0200 ReadType.OPCODE]]
      show_cycles_job_bytes_typed).2.2 rfl (by decide)⟩

end Arscore

/-! ## The pin-edge schedule -/

namespace Arscore

/-- What `Flip::apply` does to the globals: it records its setter call and touches neither
the counters nor the list. -/
theorem Flip.apply_calls (f : Flip) (s : State) :
    (f.apply s).pin_calls = s.pin_calls ++ flip_calls f ∧
    (f.apply s).next_flip = s.next_flip ∧ (f.apply s).num_cycles = s.num_cycles := by
  unfold Flip.apply flip_calls
  split <;> simp [cpu_set_so, cpu_set_nmi, cpu_set_irq]

/-- The `while` loop of `report_cycle`: it advances `next_flip` over the leading due
entries and applies them in list order. -/
theorem apply_due_flips_spec (l : List Flip) (s : State) :
    (apply_due_flips l s).next_flip = s.next_flip + due_count l s.num_cycles ∧
    (apply_due_flips l s).pin_calls =
      s.pin_calls ++ (l.take (due_count l s.num_cycles)).flatMap flip_calls := by
  induction l generalizing s with
  | nil => simp [apply_due_flips, due_count]
  | cons f rest ih =>
    unfold apply_due_flips due_count
    by_cases h : f.getCycle ≤ s.num_cycles
    · obtain ⟨c1, c2, c3⟩ := Flip.apply_calls f { s with next_flip := s.next_flip + 1 }
      obtain ⟨i1, i2⟩ := ih (f.apply { s with next_flip := s.next_flip + 1 })
      simp only [h, if_true]
      rw [i1, i2, c1, c2, c3]
      simp only [List.take_succ_cons, List.flatMap_cons, List.append_assoc]
      exact ⟨by omega, trivial⟩
    · simp [h]

theorem due_count_le (l : List Flip) (n : Nat) : due_count l n ≤ l.length := by
  induction l with
  | nil => simp [due_count]
  | cons f rest ih =>
    unfold due_count
    split
    · simp only [List.length_cons]; omega
    · simp

theorem due_count_take (l : List Flip) (n : Nat) :
    ∀ f ∈ l.take (due_count l n), f.getCycle ≤ n := by
  induction l with
  | nil => simp [due_count]
  | cons g rest ih =>
    unfold due_count
    by_cases h : g.getCycle ≤ n
    · simp only [h, if_true, List.take_succ_cons, List.mem_cons]
      intro f hf
      rcases hf with hf | hf
      · subst hf; exact h
      · exact ih f hf
    · simp [h]

theorem due_count_drop (l : List Flip) (n : Nat)
    (hs : l.Pairwise (fun f g => f.getCycle ≤ g.getCycle)) :
    ∀ f ∈ l.drop (due_count l n), n < f.getCycle := by
  induction l with
  | nil => simp [due_count]
  | cons g rest ih =>
    rw [List.pairwise_cons] at hs
    unfold due_count
    by_cases h : g.getCycle ≤ n
    · simp only [h, if_true, List.drop_succ_cons]
      exact ih hs.2
    · simp only [h, if_false, List.drop_zero, List.mem_cons]
      intro f hf
      rcases hf with hf | hf
      · subst hf; omega
      · have := hs.1 f hf; omega

/-- From the split of a list at `k` into due and not-due entries to the index form. -/
theorem exact_of_take_drop (l : List Flip) (k n : Nat)
    (hA : ∀ f ∈ l.take k, f.getCycle ≤ n) (hB : ∀ f ∈ l.drop k, n < f.getCycle) :
    ∀ (i : Nat) (h : i < l.length), i < k ↔ (l.get ⟨i, h⟩).getCycle ≤ n := by
  intro i h
  constructor
  · intro hik
    apply hA
    rw [List.mem_take_iff_getElem]
    exact ⟨i, by omega, rfl⟩
  · intro hdue
    by_contra hge
    have hmem : l.get ⟨i, h⟩ ∈ l.drop k := by
      rw [List.mem_drop_iff_getElem]
      refine ⟨i - k, by omega, ?_⟩
      simp only [List.get_eq_getElem]
      congr 1
      omega
    have := hB _ hmem
    omega

end Arscore

namespace Arscore

/-- The scheduler after a reported cycle below the limit: `next_flip` has moved over the
leading pending entries that are due at the new cycle count, and their setter calls have
been made in list order. -/
theorem after_report_schedule (s : State) (t a d : Nat) :
    (after_report s t a d).next_flip =
      s.next_flip + due_count (s.flips.drop s.next_flip) ((s.num_cycles + 1) % 4294967296) ∧
    (after_report s t a d).pin_calls =
      s.pin_calls ++ ((s.flips.drop s.next_flip).take
        (due_count (s.flips.drop s.next_flip) ((s.num_cycles + 1) % 4294967296))).flatMap
          flip_calls := by
  unfold after_report
  obtain ⟨h1, h2⟩ := apply_due_flips_spec
    ((record_cycle s t a d).flips.drop (record_cycle s t a d).next_flip) (record_cycle s t a d)
  rw [h1, h2]
  simp only [record_cycle_fields, record_cycle_num_cycles]
  exact ⟨trivial, trivial⟩

/-- The scheduler after one bus cycle: the list is untouched, and `next_flip` moves, over
the leading pending entries that are due at the new cycle count, exactly on a reported
cycle that does not reach the limit. -/
theorem callback_schedule (s : State) (op : BusOp) :
    (callback s op).state.flips = s.flips ∧
    (callback s op).state.next_flip =
      (if reports s op = true ∧ ¬ limit_reached s then
        s.next_flip + due_count (s.flips.drop s.next_flip) ((s.num_cycles + 1) % 4294967296)
      else s.next_flip) := by
  cases op with
  | read_opcode addr rt =>
    simp only [callback, read_opcode, read_byte_eq, Res.void_state, reports]
    by_cases hv : s.vector_has_been_pulled = true <;> by_cases hl : limit_reached s <;>
      by_cases hrt : rt = ReadType.OPCODE ∨ rt = ReadType.PREEMPTED <;>
      simp [hv, hl, hrt, after_report_schedule]
  | read_byte addr rt =>
    simp only [callback, read_byte_eq, Res.void_state, reports]
    by_cases hv : s.vector_has_been_pulled = true <;> by_cases hl : limit_reached s <;>
      by_cases hrt : rt = ReadType.OPCODE ∨ rt = ReadType.PREEMPTED <;>
      simp [hv, hl, hrt, after_report_schedule]
  | fetch_vector_byte addr =>
    simp only [callback, fetch_vector_byte_eq, Res.void_state, reports]
    by_cases hl : limit_reached s <;> simp [hl, after_report_schedule]
  | write_byte addr data wt =>
    simp only [callback, write_byte_eq, reports]
    by_cases hl : limit_reached s <;> simp [hl, after_report_schedule]

end Arscore

namespace Arscore

/-- One move of the scheduler on a sorted list: from an applied prefix whose entries are due
at `n`, moving over the leading pending entries due at `n2 >= n` gives a prefix that holds
exactly the entries due at `n2`. -/
theorem schedule_step (flips : List Flip) (nf n n2 : Nat) (hnf : nf ≤ flips.length)
    (hs : flips.Pairwise (fun f g => f.getCycle ≤ g.getCycle))
    (hdue : ∀ f ∈ flips.take nf, f.getCycle ≤ n) (hn : n ≤ n2) :
    nf + due_count (flips.drop nf) n2 ≤ flips.length ∧
    (∀ f ∈ flips.take (nf + due_count (flips.drop nf) n2), f.getCycle ≤ n2) ∧
    (∀ f ∈ flips.drop (nf + due_count (flips.drop nf) n2), n2 < f.getCycle) := by
  have hk := due_count_le (flips.drop nf) n2
  rw [List.length_drop] at hk
  refine ⟨by omega, ?_, ?_⟩
  · intro f hf
    rw [List.take_add, List.mem_append] at hf
    rcases hf with hf | hf
    · have := hdue f hf; omega
    · exact due_count_take _ _ f hf
  · intro f hf
    rw [← List.drop_drop] at hf
    exact due_count_drop _ _ (List.Pairwise.sublist (List.drop_sublist nf flips) hs) f hf

/-- The exactness property only looks at the list, `next_flip` and `num_cycles`. -/
theorem applied_exactly_due_of (u : State) (l : List Flip) (nf n : Nat)
    (hf : u.flips = l) (hnf : u.next_flip = nf) (hn : u.num_cycles = n)
    (h : ∀ (i : Nat) (hi : i < l.length), i < nf ↔ (l.get ⟨i, hi⟩).getCycle ≤ n) :
    applied_exactly_due u := by
  subst hf hnf hn
  exact h

/-- The scheduler invariant only looks at the list, `next_flip` and `num_cycles`. -/
theorem flips_applied_due_of (u : State) (l : List Flip) (nf n : Nat)
    (hf : u.flips = l) (hnf : u.next_flip = nf) (hn : u.num_cycles = n)
    (h1 : nf ≤ l.length) (h2 : l.Pairwise (fun f g => f.getCycle ≤ g.getCycle))
    (h3 : ∀ f ∈ l.take nf, f.getCycle ≤ n) : flips_applied_due u := by
  subst hf hnf hn
  exact ⟨h1, h2, h3⟩

/-- One bus cycle that does not wrap the counter keeps the scheduler invariant, never moves
`next_flip` back, and after a reported cycle below the limit the applied entries are
exactly the due ones. -/
theorem callback_flips_applied_due (s : State) (op : BusOp) (hinv : flips_applied_due s)
    (hw : no_wrap s) :
    flips_applied_due (callback s op).state ∧
    s.next_flip ≤ (callback s op).state.next_flip ∧
    (reports s op = true → ¬ limit_reached s → applied_exactly_due (callback s op).state) := by
  obtain ⟨hfl, hnf⟩ := callback_schedule s op
  have hn := (callback_counters s op).2
  have hmod : (s.num_cycles + 1) % 4294967296 = s.num_cycles + 1 := Nat.mod_eq_of_lt hw
  rw [hmod] at hnf hn
  obtain ⟨h1, h2, h3⟩ := hinv
  obtain ⟨k1, k2, k3⟩ := schedule_step s.flips s.next_flip s.num_cycles (s.num_cycles + 1)
    h1 h2 h3 (by omega)
  by_cases hrep : reports s op = true
  · by_cases hl : limit_reached s
    · have c1 : ¬ (reports s op = true ∧ ¬ limit_reached s) := fun h => h.2 hl
      rw [if_neg c1] at hnf
      rw [if_pos hrep] at hn
      refine ⟨flips_applied_due_of _ _ _ _ hfl hnf hn h1 h2 ?_, by omega,
        fun _ h => absurd hl h⟩
      intro f hf; have := h3 f hf; omega
    · rw [if_pos ⟨hrep, hl⟩] at hnf
      rw [if_pos hrep] at hn
      exact ⟨flips_applied_due_of _ _ _ _ hfl hnf hn k1 h2 k2, by omega,
        fun _ _ => applied_exactly_due_of _ _ _ _ hfl hnf hn (exact_of_take_drop _ _ _ k2 k3)⟩
  · have c1 : ¬ (reports s op = true ∧ ¬ limit_reached s) := fun h => hrep h.1
    rw [if_neg c1] at hnf
    rw [if_neg hrep] at hn
    exact ⟨flips_applied_due_of _ _ _ _ hfl hnf hn h1 h2 h3, by omega,
      fun h _ => absurd h hrep⟩

/-- C15: given a pin-edge list sorted ascending by cycle whose applied entries are all due,
a reported cycle that does not hit the cycle limit leaves the list alone, moves `next_flip`
forward within the list, applies the entries it moves over in list order, and afterwards
the applied entries (index below `next_flip`) are exactly the entries whose cycle is at or
below `num_cycles`.  Over a whole run that starts with `next_flip` 0 this holds after every
such cycle, `next_flip` never decreases and never exceeds the list length, so no entry is
applied twice.  The 32-bit counter is taken not to wrap in the reset sequence. -/
theorem pin_edges_applied_when_due (s : State) (t a d : Nat) (reset : List BusOp)
    (steps : List (List BusOp)) :
    (flips_applied_due s → no_wrap s → ¬ limit_reached s →
      (report_cycle s t a d).state.flips = s.flips ∧
      applied_exactly_due (report_cycle s t a d).state ∧
      s.next_flip ≤ (report_cycle s t a d).state.next_flip ∧
      (report_cycle s t a d).state.next_flip ≤ s.flips.length ∧
      (report_cycle s t a d).state.pin_calls =
        s.pin_calls ++ ((s.flips.drop s.next_flip).take
          ((report_cycle s t a d).state.next_flip - s.next_flip)).flatMap flip_calls) ∧
    (flips_sorted s → s.next_flip = 0 → s.num_cycles + reset.length < 4294967296 →
      s.cycles_to_run < 4294967296 →
      (∀ e ∈ main_trace s reset steps,
        e.1.next_flip ≤ (callback e.1 e.2).state.next_flip ∧
        (callback e.1 e.2).state.next_flip ≤ s.flips.length ∧
        (reports e.1 e.2 = true → ¬ limit_reached e.1 →
          applied_exactly_due (callback e.1 e.2).state)) ∧
      (main_run s reset steps).state.next_flip ≤ s.flips.length) := by
  constructor
  · intro hinv hw hl
    obtain ⟨h1, h2, h3⟩ := hinv
    have hmod : (s.num_cycles + 1) % 4294967296 = s.num_cycles + 1 := Nat.mod_eq_of_lt hw
    obtain ⟨k1, k2, k3⟩ := schedule_step s.flips s.next_flip s.num_cycles (s.num_cycles + 1)
      h1 h2 h3 (by omega)
    obtain ⟨a1, a2⟩ := after_report_schedule s t a d
    rw [hmod] at a1 a2
    rw [report_cycle_eq, if_neg hl]
    simp only [Res.state_ok]
    refine ⟨by simp, ?_, by omega, by omega, ?_⟩
    · exact applied_exactly_due_of _ _ _ _ (by simp) a1 (by simp [hmod])
        (exact_of_take_drop _ _ _ k2 k3)
    · rw [a2, a1]
      simp
  · intro hs h0 hreset hu32
    have hw := main_run_no_wrap s reset steps hreset hu32
    have hinv := main_run_invariant
      (fun u => flips_applied_due u ∧ u.flips = s.flips) (fun e => no_wrap e.1)
      (fun u o hP hC => ⟨(callback_flips_applied_due u o hP.1 hC).1,
        (callback_schedule u o).1.trans hP.2⟩)
      (fun u hP => ⟨by
          unfold flips_applied_due flips_sorted at *
          simpa using hP.1, by simpa using hP.2⟩)
      s reset steps ⟨⟨by omega, hs, by simp [h0]⟩, rfl⟩ hw
    refine ⟨?_, ?_⟩
    · intro e he
      obtain ⟨hP1, hP2⟩ := hinv.1 e he
      obtain ⟨c1, c2, c3⟩ := callback_flips_applied_due e.1 e.2 hP1 (hw e he)
      refine ⟨c2, ?_, c3⟩
      have := c1.1
      rw [(callback_schedule e.1 e.2).1, hP2] at this
      exact this
    · have := hinv.2.1.1
      rw [hinv.2.2] at this
      exact this

end Arscore

namespace Arscore

/-- The sample NMI schedule is sorted and nothing of it has been applied. -/
theorem nmi_job_flips_applied_due : flips_applied_due nmi_job_state := by
  refine ⟨by decide, ?_, ?_⟩
  · simp only [flips_sorted, nmi_job_state, Flip.getCycle, List.pairwise_cons,
      List.mem_singleton, forall_eq, List.not_mem_nil, false_implies, implies_true,
      List.Pairwise.nil, and_true]
    decide
  · simp [nmi_job_state, empty_job_state, set_max_cycles, install_rwmap, seed_reset_vector,
      globals_init]

/-- Witness for C15: the schedule `nmi: [6, 9]`; the first reported cycle, the vector fetch
that brings `num_cycles` to 6, applies the first entry only. -/
theorem pin_edges_applied_when_due_witness :
    applied_exactly_due (report_cycle nmi_job_state 0x5 0xFFFC 0).state ∧
    (main_run nmi_job_state reset_vector_fetches
      [[BusOp.read_opcode 0x0200 ReadType.OPCODE]]).state.next_flip
      ≤ nmi_job_state.flips.length :=
  ⟨((pin_edges_applied_when_due nmi_job_state 0x5 0xFFFC 0 reset_vector_fetches
      [[BusOp.read_opcode 0x0200 ReadType.OPCODE]]).1
      nmi_job_flips_applied_due (by unfold no_wrap; decide) (by decide)).2.1,
   ((pin_edges_applied_when_due nmi_job_state 0x5 0xFFFC 0 reset_vector_fetches
      [[BusOp.read_opcode 0x0200 ReadType.OPCODE]]).2
      nmi_job_flips_applied_due.2.1 rfl (by decide) (by decide)).2⟩

end Arscore

/-! ## Tagged strings: the base64 decoder -/

namespace Arscore

/-- C12, the code at the failing input `"base64:AA=="`: this is what the harness's own
encoder produces for the single byte `00`, and `data_decode` returns the two bytes `00 00`
for it, because `count = 1`, set at the first pad character, is overwritten by `count = 2`
at the second.  The same happens for every final group of one byte (`"base64:SA=="` is the
encoding of `H` and decodes to `H` followed by `00`); a final group of two bytes decodes
as it should (`"base64:SGk="` gives `Hi`). -/
theorem data_decode_one_byte_group :
    base64_encode [0x00] = ascii "base64:AA==" ∧
    data_decode (ascii "base64:AA==") = some [0x00, 0x00] ∧
    data_decode (base64_encode [0x00]) ≠ some [0x00] ∧
    base64_encode [0x48] = ascii "base64:SA==" ∧
    data_decode (ascii "base64:SA==") = some [0x48, 0x00] ∧
    data_decode (ascii "base64:SGk=") = some [0x48, 0x69] := by
  refine ⟨by decide, by decide, by decide, by decide, by decide, by decide⟩

end Arscore

/-! ## The base64 encoder of the result -/

namespace Arscore

/-- The table of the encoder is the RFC 4648 alphabet. -/
theorem base64_digits_eq : ∀ v < 64, BASE64_DIGITS.getD v 0 = rfc4648_digit v := by
  decide

set_option maxRecDepth 100000 in
/-- Mask `0x30` of a byte shifted left by four: its two low bits, moved to bits 4 and 5. -/
theorem shl4_and_30 : ∀ a < 256, (a <<< 4) &&& 0x30 = a % 4 * 16 := by
  decide

set_option maxRecDepth 100000 in
/-- Mask `0x3C` of a byte shifted left by two: its four low bits, moved to bits 2..5. -/
theorem shl2_and_3C : ∀ b < 256, (b <<< 2) &&& 0x3C = b % 16 * 4 := by
  decide

theorem or_16 : ∀ i < 4, ∀ y < 16, (i * 16) ||| y = i * 16 + y := by
  decide

theorem or_4 : ∀ i < 16, ∀ y < 4, (i * 4) ||| y = i * 4 + y := by
  decide

/-- The four digit indexes of a full group, in arithmetic form. -/
theorem encode_indexes (a b c : Nat) (ha : a < 256) (hb : b < 256) (hc : c < 256) :
    a >>> 2 = (a * 65536 + b * 256 + c) / 262144 ∧
    ((a <<< 4) &&& 0x30) ||| (b >>> 4) = (a * 65536 + b * 256 + c) / 4096 % 64 ∧
    ((b <<< 2) &&& 0x3C) ||| (c >>> 6) = (a * 65536 + b * 256 + c) / 64 % 64 ∧
    c &&& 0x3F = (a * 65536 + b * 256 + c) % 64 := by
  have h63 : c &&& 0x3F = c % 64 := by
    have := Nat.and_pow_two_sub_one_eq_mod c 6
    norm_num at this
    exact this
  rw [shl4_and_30 a ha, shl2_and_3C b hb, h63, Nat.shiftRight_eq_div_pow,
    Nat.shiftRight_eq_div_pow, Nat.shiftRight_eq_div_pow,
    or_16 (a % 4) (by omega) (b / 2 ^ 4) (by norm_num; omega),
    or_4 (b % 16) (by omega) (c / 2 ^ 6) (by norm_num; omega)]
  norm_num
  refine ⟨by omega, by omega, by omega, by omega⟩

end Arscore

namespace Arscore

/-- The encoder's groups are the RFC 4648 groups, for a string of bytes. -/
theorem encode_groups_eq_rfc4648 (s : List Nat) (hbytes : ∀ b ∈ s, b < 256) :
    encode_groups s = rfc4648_encode s := by
  induction s using encode_groups.induct with
  | case1 a b c rest ih =>
    have ha : a < 256 := hbytes a (by simp)
    have hb : b < 256 := hbytes b (by simp)
    have hc : c < 256 := hbytes c (by simp)
    obtain ⟨h1, h2, h3, h4⟩ := encode_indexes a b c ha hb hc
    rw [encode_groups, rfc4648_encode, ih (fun x hx => hbytes x (by simp [hx])), h1, h2, h3, h4,
      base64_digits_eq _ (by omega), base64_digits_eq _ (by omega),
      base64_digits_eq _ (by omega), base64_digits_eq _ (by omega)]
  | case2 a b =>
    have ha : a < 256 := hbytes a (by simp)
    have hb : b < 256 := hbytes b (by simp)
    obtain ⟨h1, h2, h3, -⟩ := encode_indexes a b 0 ha hb (by omega)
    have h3 : (b <<< 2) &&& 0x3C = (a * 256 + b) * 4 % 64 := by
      rw [shl2_and_3C b hb]; omega
    rw [encode_groups, rfc4648_encode, h1, h2, h3,
      base64_digits_eq _ (by omega), base64_digits_eq _ (by omega),
      base64_digits_eq _ (by omega)]
    have e1 : (a * 65536 + b * 256 + 0) / 262144 = (a * 256 + b) * 4 / 4096 := by omega
    have e2 : (a * 65536 + b * 256 + 0) / 4096 % 64 = (a * 256 + b) * 4 / 64 % 64 := by omega
    rw [e1, e2]
  | case3 a =>
    have ha : a < 256 := hbytes a (by simp)
    have h1 : a >>> 2 = a * 16 / 64 := by rw [Nat.shiftRight_eq_div_pow]; norm_num; omega
    have h2 : (a <<< 4) &&& 0x30 = a * 16 % 64 := by rw [shl4_and_30 a ha]; omega
    rw [encode_groups, rfc4648_encode, h1, h2,
      base64_digits_eq _ (by omega), base64_digits_eq _ (by omega)]
  | case4 => rfl

theorem rfc4648_encode_length (s : List Nat) :
    (rfc4648_encode s).length = 4 * ((s.length + 2) / 3) := by
  induction s using rfc4648_encode.induct with
  | case1 a b c rest ih =>
    rw [rfc4648_encode, List.length_append, ih]
    simp only [List.length_cons, List.length_nil]
    omega
  | case2 a b => simp [rfc4648_encode]
  | case3 a => simp [rfc4648_encode]
  | case4 => simp [rfc4648_encode]

theorem rfc4648_digit_mem : ∀ v < 64, rfc4648_digit v ∈ BASE64_DIGITS := by
  decide

/-- Every character of the encoding is a digit of the alphabet or the pad character. -/
theorem rfc4648_encode_chars (s : List Nat) (hbytes : ∀ b ∈ s, b < 256) :
    ∀ ch ∈ rfc4648_encode s, ch ∈ BASE64_DIGITS ∨ ch = 61 := by
  induction s using rfc4648_encode.induct with
  | case1 a b c rest ih =>
    have ha : a < 256 := hbytes a (by simp)
    have hb : b < 256 := hbytes b (by simp)
    have hc : c < 256 := hbytes c (by simp)
    intro ch hch
    rw [rfc4648_encode, List.mem_append] at hch
    rcases hch with h | h
    · simp only [List.mem_cons, List.mem_singleton, List.not_mem_nil, or_false] at h
      rcases h with h | h | h | h <;> subst h <;> left <;>
        exact rfc4648_digit_mem _ (by omega)
    · exact ih (fun x hx => hbytes x (by simp [hx])) ch h
  | case2 a b =>
    have ha : a < 256 := hbytes a (by simp)
    have hb : b < 256 := hbytes b (by simp)
    intro ch hch
    simp only [rfc4648_encode, List.mem_cons, List.mem_singleton, List.not_mem_nil,
      or_false] at hch
    rcases hch with h | h | h | h
    · subst h; left; exact rfc4648_digit_mem _ (by omega)
    · subst h; left; exact rfc4648_digit_mem _ (by omega)
    · subst h; left; exact rfc4648_digit_mem _ (by omega)
    · right; exact h
  | case3 a =>
    have ha : a < 256 := hbytes a (by simp)
    intro ch hch
    simp only [rfc4648_encode, List.mem_cons, List.mem_singleton, List.not_mem_nil,
      or_false] at hch
    rcases hch with h | h | h | h
    · subst h; left; exact rfc4648_digit_mem _ (by omega)
    · subst h; left; exact rfc4648_digit_mem _ (by omega)
    · right; exact h
    · right; exact h
  | case4 => intro ch hch; simp [rfc4648_encode] at hch

end Arscore

namespace Arscore

/-- C13: for every serial-out buffer of bytes with output format base64, the emitted
`serial_out_data` is `"base64:"` followed by the standard RFC 4648 encoding of the buffer:
each full 3-byte group as its four 6-bit digits, a final group of 1 or 2 bytes padded with
`==` or `=`; the encoding has exactly `4 * ceil(len / 3)` characters, each a digit of the
alphabet `A-Z a-z 0-9 + /` or the pad character; the buffer `"Hi"` yields `"base64:SGk="`. -/
theorem base64_output_is_rfc4648 (s : State) (hfmt : s.serial_out_fmt = OutFormat.BASE64)
    (hbytes : ∀ b ∈ s.serial_out, b < 256) :
    result_serial_out_data s = some (ascii "base64:" ++ rfc4648_encode s.serial_out) ∧
    (rfc4648_encode s.serial_out).length = 4 * ((s.serial_out.length + 2) / 3) ∧
    (∀ ch ∈ rfc4648_encode s.serial_out, ch ∈ BASE64_DIGITS ∨ ch = 61) ∧
    ascii "base64:" ++ rfc4648_encode [0x48, 0x69] = ascii "base64:SGk=" := by
  refine ⟨?_, rfc4648_encode_length _, rfc4648_encode_chars _ hbytes, by decide⟩
  unfold result_serial_out_data base64_encode
  rw [hfmt, encode_groups_eq_rfc4648 _ hbytes]

/-- Witness for C13: the serial echo scenario, buffer `"Hi"`. -/
theorem base64_output_is_rfc4648_witness :
    result_serial_out_data serial_echo_end_state = some (ascii "base64:SGk=") :=
  ((base64_output_is_rfc4648 serial_echo_end_state rfl (by decide)).1).trans (by decide)

end Arscore

/-! ## The result field `serial_out_data` -/

namespace Arscore

/-- No bus cycle changes the output format. -/
theorem callback_serial_out_fmt (s : State) (op : BusOp) :
    (callback s op).state.serial_out_fmt = s.serial_out_fmt := by
  cases op with
  | read_opcode addr rt =>
    simp only [callback, read_opcode, read_byte_eq, Res.void_state]
    by_cases hv : s.vector_has_been_pulled = true <;> by_cases hl : limit_reached s <;>
      by_cases hrt : rt = ReadType.OPCODE ∨ rt = ReadType.PREEMPTED <;> simp [hv, hl, hrt]
  | read_byte addr rt =>
    simp only [callback, read_byte_eq, Res.void_state]
    by_cases hv : s.vector_has_been_pulled = true <;> by_cases hl : limit_reached s <;>
      by_cases hrt : rt = ReadType.OPCODE ∨ rt = ReadType.PREEMPTED <;> simp [hv, hl, hrt]
  | fetch_vector_byte addr =>
    simp only [callback, fetch_vector_byte_eq, Res.void_state]
    by_cases hl : limit_reached s <;> simp [hl]
  | write_byte addr data wt =>
    simp only [callback, write_byte_eq]
    by_cases hl : limit_reached s <;> simp [hl]

/-- No run changes the output format. -/
theorem main_run_serial_out_fmt (s : State) (reset : List BusOp) (steps : List (List BusOp)) :
    (main_run s reset steps).state.serial_out_fmt = s.serial_out_fmt :=
  (main_run_invariant (fun u => u.serial_out_fmt = s.serial_out_fmt) (fun _ => True)
    (fun u o hP _ => (callback_serial_out_fmt u o).trans hP)
    (fun u hP => by simpa using hP) s reset steps rfl (fun _ _ => trivial)).2

/-- C20 as stated fails in both directions: a job that gives `serial_out_addr` but no
`serial_out_fmt` has serial-out configured and ends with a result without
`serial_out_data`; a job that gives `serial_out_fmt: "utf8"` but no `serial_out_addr` has
no serial-out port and ends with a result that holds `serial_out_data`, the bare tag
`"utf8:"`. -/
theorem serial_out_data_iff_addr_counterexample :
    (∃ c, configure_serial_out empty_job_state (some 0xF001) none = some c ∧
      c.serial_out_enabled = true ∧
      (main_run c reset_vector_fetches
        [[BusOp.read_opcode 0x0200 ReadType.OPCODE]]).isResult = true ∧
      result_serial_out_data (main_run c reset_vector_fetches
        [[BusOp.read_opcode 0x0200 ReadType.OPCODE]]).state = none) ∧
    (∃ c, configure_serial_out empty_job_state none (some (ascii "utf8")) = some c ∧
      c.serial_out_enabled = false ∧
      (main_run c reset_vector_fetches
        [[BusOp.read_opcode 0x0200 ReadType.OPCODE]]).isResult = true ∧
      result_serial_out_data (main_run c reset_vector_fetches
        [[BusOp.read_opcode 0x0200 ReadType.OPCODE]]).state = some (ascii "utf8:")) := by
  refine ⟨⟨_, rfl, rfl, by decide, by decide⟩,
    ⟨{ empty_job_state with serial_out_fmt := OutFormat.UTF8 }, rfl, rfl, by decide,
      by decide⟩⟩

end Arscore

namespace Arscore

/-- C20 (amended): for a job configured from globals whose format is still `NONE`, the
result contains the field `serial_out_data` if and only if the job gave `serial_out_fmt`
(`"utf8"` or `"base64"`), whether or not it gave `serial_out_addr`; when present it is the
captured serial-out buffer as a tagged string in that format, `"utf8:"` followed by the raw
bytes or the base64 branch of the encoder applied to them. -/
theorem serial_out_data_iff_fmt (s c : State) (addr : Option Nat) (fmt : Option (List Nat))
    (reset : List BusOp) (steps : List (List BusOp))
    (hnone : s.serial_out_fmt = OutFormat.NONE)
    (hcfg : configure_serial_out s addr fmt = some c) :
    (result_serial_out_data (main_run c reset steps).state ≠ none ↔ fmt ≠ none) ∧
    (fmt = some (ascii "utf8") →
      result_serial_out_data (main_run c reset steps).state =
        some (ascii "utf8:" ++ (main_run c reset steps).state.serial_out)) ∧
    (fmt = some (ascii "base64") →
      result_serial_out_data (main_run c reset steps).state =
        some (base64_encode (main_run c reset steps).state.serial_out)) := by
  have hrun := main_run_serial_out_fmt c reset steps
  have hc : c.serial_out_fmt =
      match fmt with
      | none => OutFormat.NONE
      | some f => if f = ascii "utf8" then OutFormat.UTF8 else OutFormat.BASE64 := by
    unfold configure_serial_out at hcfg
    cases fmt with
    | none =>
      simp only [Option.some.injEq] at hcfg
      subst hcfg
      cases addr <;> simpa using hnone
    | some f =>
      simp only at hcfg
      split_ifs at hcfg with h1 h2
      · simp only [Option.some.injEq] at hcfg
        subst hcfg; simp [h1]
      · simp only [Option.some.injEq] at hcfg
        subst hcfg; simp [h1]
  unfold result_serial_out_data
  rw [hrun, hc]
  cases fmt with
  | none => simp
  | some f =>
    by_cases h1 : f = ascii "utf8"
    · subst h1
      refine ⟨by simp, fun _ => by simp, fun h => ?_⟩
      exact absurd (Option.some.inj h) (by decide)
    · refine ⟨by simp [h1], fun h => absurd (Option.some.inj h) h1, fun _ => by simp [h1]⟩

/-- Witness for C20: the serial echo job, `serial_out_addr: 0xF001` with
`serial_out_fmt: "base64"`, whose run writes `H` and `i` to the port. -/
theorem serial_out_data_iff_fmt_witness :
    (result_serial_out_data (main_run
        { serial_out_state with serial_out_fmt := OutFormat.BASE64 } []
        [[BusOp.write_byte 0xF001 0x48 WriteType.DATA,
          BusOp.write_byte 0xF001 0x69 WriteType.DATA]]).state ≠ none ↔
      some (ascii "base64") ≠ none) ∧
    result_serial_out_data (main_run
        { serial_out_state with serial_out_fmt := OutFormat.BASE64 } []
        [[BusOp.write_byte 0xF001 0x48 WriteType.DATA,
          BusOp.write_byte 0xF001 0x69 WriteType.DATA]]).state =
      some (base64_encode (main_run
        { serial_out_state with serial_out_fmt := OutFormat.BASE64 } []
        [[BusOp.write_byte 0xF001 0x48 WriteType.DATA,
          BusOp.write_byte 0xF001 0x69 WriteType.DATA]]).state.serial_out) :=
  ⟨(serial_out_data_iff_fmt empty_job_after_reset
      { serial_out_state with serial_out_fmt := OutFormat.BASE64 }
      (some 0xF001) (some (ascii "base64")) []
      [[BusOp.write_byte 0xF001 0x48 WriteType.DATA,
        BusOp.write_byte 0xF001 0x69 WriteType.DATA]] rfl rfl).1,
   (serial_out_data_iff_fmt empty_job_after_reset
      { serial_out_state with serial_out_fmt := OutFormat.BASE64 }
      (some 0xF001) (some (ascii "base64")) []
      [[BusOp.write_byte 0xF001 0x48 WriteType.DATA,
        BusOp.write_byte 0xF001 0x69 WriteType.DATA]] rfl rfl).2.2 rfl⟩

end Arscore

/-! ## Rendering of the trace -/

namespace Arscore

theorem hex_digit_mem : ∀ v < 16, hex_digit v ∈ hex_chars ∧ hex_value (hex_digit v) = v := by
  decide

/-- C18: for a recorded cycle with type nibble `t` among `0x2, 0x3, 0x5, 0x6, 0x7, 0xF`,
16-bit address `a` and 8-bit data `d`, the string emitted in the `cycles` array has exactly
7 characters, all uppercase hexadecimal digits: the first is `t`, the next four are `a`,
most significant digit first, the last two are `d`; `t`, `a` and `d` are recovered from the
string, and masking the packed word with `0xFFFFFFF` loses nothing.  The `cycles` array of
the result holds these strings for the trace entries, in order. -/
theorem rendered_cycle_digits (s : State) (t a d : Nat) (ht : t ∈ cycle_types)
    (ha : a < 65536) (hd : d < 256) :
    (s.cycles ≠ [] → result_cycles s = some (s.cycles.map render_cycle)) ∧
    render_cycle (pack_cycle t a d) =
      [hex_digit t, hex_digit (a / 4096), hex_digit (a / 256 % 16), hex_digit (a / 16 % 16),
       hex_digit (a % 16), hex_digit (d / 16), hex_digit (d % 16)] ∧
    (render_cycle (pack_cycle t a d)).length = 7 ∧
    (∀ ch ∈ render_cycle (pack_cycle t a d), ch ∈ hex_chars) ∧
    parse_cycle (render_cycle (pack_cycle t a d)) = some (t, a, d) ∧
    pack_cycle t a d &&& 0xFFFFFFF = pack_cycle t a d := by
  have ht16 : t < 16 := by
    simp only [cycle_types, List.mem_cons, List.mem_singleton, List.not_mem_nil,
      or_false] at ht
    omega
  have hmask : ∀ x : Nat, x &&& 0xFFFFFFF = x % 268435456 := by
    intro x
    have := Nat.and_pow_two_sub_one_eq_mod x 28
    norm_num at this
    exact this
  have hp := pack_cycle_eq t a d ha hd
  have hrender : render_cycle (pack_cycle t a d) =
      [hex_digit t, hex_digit (a / 4096), hex_digit (a / 256 % 16), hex_digit (a / 16 % 16),
       hex_digit (a % 16), hex_digit (d / 16), hex_digit (d % 16)] := by
    unfold render_cycle
    simp only [hmask, hp]
    have e0 : (t * 16777216 + a * 256 + d) % 4294967296 % 268435456 / 16777216 % 16 = t := by
      omega
    have e1 : (t * 16777216 + a * 256 + d) % 4294967296 % 268435456 / 1048576 % 16
        = a / 4096 := by omega
    have e2 : (t * 16777216 + a * 256 + d) % 4294967296 % 268435456 / 65536 % 16
        = a / 256 % 16 := by omega
    have e3 : (t * 16777216 + a * 256 + d) % 4294967296 % 268435456 / 4096 % 16
        = a / 16 % 16 := by omega
    have e4 : (t * 16777216 + a * 256 + d) % 4294967296 % 268435456 / 256 % 16
        = a % 16 := by omega
    have e5 : (t * 16777216 + a * 256 + d) % 4294967296 % 268435456 / 16 % 16
        = d / 16 := by omega
    have e6 : (t * 16777216 + a * 256 + d) % 4294967296 % 268435456 % 16 = d % 16 := by
      omega
    rw [e0, e1, e2, e3, e4, e5, e6]
  have h0 := hex_digit_mem t ht16
  have h1 := hex_digit_mem (a / 4096) (by omega)
  have h2 := hex_digit_mem (a / 256 % 16) (by omega)
  have h3 := hex_digit_mem (a / 16 % 16) (by omega)
  have h4 := hex_digit_mem (a % 16) (by omega)
  have h5 := hex_digit_mem (d / 16) (by omega)
  have h6 := hex_digit_mem (d % 16) (by omega)
  refine ⟨?_, hrender, by rw [hrender]; rfl, ?_, ?_, ?_⟩
  · intro hne
    unfold result_cycles
    cases hc : s.cycles with
    | nil => exact absurd hc hne
    | cons x l => rfl
  · rw [hrender]
    intro ch hch
    simp only [List.mem_cons, List.mem_singleton, List.not_mem_nil, or_false] at hch
    rcases hch with h | h | h | h | h | h | h <;> rw [h]
    · exact h0.1
    · exact h1.1
    · exact h2.1
    · exact h3.1
    · exact h4.1
    · exact h5.1
    · exact h6.1
  · rw [hrender]
    simp only [parse_cycle, h0.2, h1.2, h2.2, h3.2, h4.2, h5.2, h6.2, Option.some.injEq,
      Prod.mk.injEq, true_and]
    omega
  · rw [hmask, hp]
    omega

/-- Witness for C18: the opcode fetch of `0x00` at `0x0200` is rendered as `F020000`. -/
theorem rendered_cycle_digits_witness :
    render_cycle (pack_cycle 0xF 0x0200 0x00) = ascii "F020000" :=
  ((rendered_cycle_digits empty_job_state 0xF 0x0200 0x00 (by decide) (by decide)
    (by decide)).2.1).trans (by decide)

end Arscore

/-! ## Init records -/

namespace Arscore

/-- The init loop leaves alone every cell that its cursor does not visit. -/
theorem init_loop_frame (data : List Nat) (rem i j : Nat) (sram : Nat → Nat) (a : Nat)
    (h : ∀ k < rem, (i + k) % 65536 ≠ a) (hi : i < 65536) :
    init_loop data rem i j sram a = sram a := by
  induction rem generalizing i j sram with
  | zero => rfl
  | succ rem ih =>
    unfold init_loop
    simp only []
    rw [ih]
    · have h0 := h 0 (by omega)
      have : ¬ a = i := by
        intro ha
        apply h0
        rw [ha]; simp; omega
      simp [this]
    · intro k hk
      have := h (k + 1) (by omega)
      intro hc
      apply this
      rw [← hc]
      omega
    · omega

/-- The cell written at step `k` of the init loop holds the data byte of that step,
provided no later step comes back to it (fewer than 65536 steps follow). -/
theorem init_loop_cell (data : List Nat) (rem i j : Nat) (sram : Nat → Nat) (k : Nat)
    (hi : i < 65536) (hj : j < data.length) (hk : k < rem) (hlast : rem ≤ k + 65536) :
    init_loop data rem i j sram ((i + k) % 65536) = data.getD ((j + k) % data.length) 0 := by
  induction rem generalizing i j sram k with
  | zero => omega
  | succ rem ih =>
    unfold init_loop
    simp only []
    have hj2 : (if j + 1 ≥ data.length then 0 else j + 1) = (j + 1) % data.length := by
      split
      · next h =>
        have : j + 1 = data.length := by omega
        rw [this, Nat.mod_self]
      · next h => rw [Nat.mod_eq_of_lt (by omega)]
    rw [hj2]
    cases k with
    | zero =>
      rw [init_loop_frame]
      · simp [Nat.mod_eq_of_lt hi, Nat.mod_eq_of_lt hj]
      · intro k2 hk2
        omega
      · omega
    | succ k0 =>
      have := ih ((i + 1) % 65536) ((j + 1) % data.length)
        (fun a => if a = i then data.getD j 0 else sram a) k0
        (by omega) (Nat.mod_lt _ (by omega)) (by omega) (by omega)
      have e1 : ((i + 1) % 65536 + k0) % 65536 = (i + (k0 + 1)) % 65536 := by omega
      have e2 : ((j + 1) % data.length + k0) % data.length
          = (j + (k0 + 1)) % data.length := by
        rw [Nat.mod_add_mod]
        congr 1
        omega
      rw [e1, e2] at this
      exact this

end Arscore

namespace Arscore

/-- What one record does to the memory image, once its data is decoded. -/
theorem write_init_records_single (sram : Nat → Nat) (r : InitRecord) (data : List Nat)
    (hdec : data_decode r.data = some data) (hne : data ≠ []) :
    write_init_records sram [r] =
      some (init_loop data
        (match r.size with
          | some size => size
          | none => data.length % 4294967296)
        (r.base % 65536) 0 sram) := by
  have he : data.isEmpty = false := by
    cases data with
    | nil => exact absurd rfl hne
    | cons x l => rfl
  simp only [write_init_records, write_init_record, hdec, he]
  rfl

/-- C11 as stated fails: for the record `base = 0`, `data = "utf8:abc"`, `size = 65537` the
cursor wraps around the 64 KiB image and the last step, `k = 65536`, writes `data[1]` over
cell 0; so for `k = 0` the cell `memory[base + k]` holds `b`, not `data[0 mod 3]`, which is
`a`. -/
theorem init_record_tiling_counterexample :
    data_decode (ascii "utf8:abc") = some [97, 98, 99] ∧
    ∃ m, write_init_records (fun _ => 0) [InitRecord.mk 0 (ascii "utf8:abc") (some 65537)]
        = some m ∧
      m (0 + 0) = 98 ∧ m (0 + 0) ≠ [97, 98, 99].getD (0 % 3) 0 := by
  have hdec : data_decode (ascii "utf8:abc") = some [97, 98, 99] := by decide
  refine ⟨hdec, _, write_init_records_single (fun _ => 0)
    (InitRecord.mk 0 (ascii "utf8:abc") (some 65537)) [97, 98, 99] hdec (by simp), ?_⟩
  have h := init_loop_cell [97, 98, 99] 65537 0 0 (fun _ => 0) 65536 (by omega) (by decide)
    (by omega) (by omega)
  have e1 : (0 + 65536) % 65536 = 0 := by norm_num
  have e2 : [97, 98, 99].getD ((0 + 65536) % [97, 98, 99].length) 0 = 98 := by decide
  rw [e1, e2] at h
  have h2 : init_loop [97, 98, 99] 65537 (0 % 65536) 0 (fun _ => 0) (0 + 0) = 98 := h
  exact ⟨h2, by rw [h2]; decide⟩

/-- C11 (amended): for an init record with a 16-bit `base`, non-empty decoded data and an
explicit `size`, after `write_init_records` every `k` in `[0, size)` that no later pass
overwrites, that is with `size <= k + 65536` (every `k` when `size <= 65536`), has
`memory[(base + k) mod 65536] == data[k mod len(data)]`; without a `size` field the same
holds with `size = len(data)`. -/
theorem init_record_tiles (sram : Nat → Nat) (r : InitRecord) (data : List Nat)
    (size k : Nat) (hbase : r.base < 65536)
    (hdec : data_decode r.data = some data) (hne : data ≠ [])
    (hsize : r.size = some size ∨
      (r.size = none ∧ size = data.length ∧ data.length < 4294967296))
    (hk : k < size) (hlast : size ≤ k + 65536) :
    ∃ m, write_init_records sram [r] = some m ∧
      m ((r.base + k) % 65536) =
        data.get ⟨k % data.length, Nat.mod_lt _ (List.length_pos.mpr hne)⟩ := by
  have hrem : (match r.size with
      | some size => size
      | none => data.length % 4294967296) = size := by
    rcases hsize with h | ⟨h1, h2, h3⟩
    · rw [h]
    · rw [h1, h2]; exact Nat.mod_eq_of_lt h3
  refine ⟨_, write_init_records_single sram r data hdec hne, ?_⟩
  rw [hrem, Nat.mod_eq_of_lt hbase]
  have hlen : 0 < data.length := List.length_pos.mpr hne
  have h := init_loop_cell data size r.base 0 sram k hbase hlen hk hlast
  rw [h, Nat.zero_add, List.getD_eq_getElem?_getD,
    List.getElem?_eq_getElem (Nat.mod_lt _ hlen)]
  rfl

/-- Witness for C11: scenario 3, the record `base = 0x200`, `data = "base64:TAAC"` (the
bytes `4C 00 02`) tiled over `size = 6` bytes; cell `0x204` holds `data[4 mod 3]`. -/
theorem init_record_tiles_witness :
    ∃ m, write_init_records empty_job_state.sram
        [InitRecord.mk 0x200 (ascii "base64:TAAC") (some 6)] = some m ∧
      m ((0x200 + 4) % 65536) = 0x00 :=
  init_record_tiles empty_job_state.sram (InitRecord.mk 0x200 (ascii "base64:TAAC") (some 6))
    [0x4C, 0x00, 0x02] 6 4 (by decide) (by decide) (by simp) (Or.inl rfl) (by decide)
    (by decide)

end Arscore

/-! ## Construction of the pin-edge schedule -/

namespace Arscore

theorem and_two_pow_eq (x n : Nat) : x &&& 2 ^ n = if x.testBit n then 2 ^ n else 0 := by
  apply Nat.eq_of_testBit_eq
  intro i
  rw [Nat.testBit_and, Nat.testBit_two_pow]
  by_cases h : n = i
  · subst h
    by_cases hx : x.testBit n <;> simp [hx, Nat.testBit_two_pow_self]
  · by_cases hx : x.testBit n <;> simp [hx, h, Nat.testBit_two_pow]

/-- Bit 31 of a word, as tested by `Flip::getState`. -/
theorem and_bit31 (x : Nat) : (x &&& 0x80000000 != 0) = decide (x / 2147483648 % 2 = 1) := by
  have h := and_two_pow_eq x 31
  norm_num at h
  rw [h, Nat.testBit_to_div_mod]
  norm_num
  by_cases hx : x / 2147483648 % 2 = 1 <;> simp [hx]

/-- The three fields of a packed word whose low 24 bits are `c` and whose high byte is `m`. -/
theorem flip_word_fields (m c : Nat) (hm : m < 256) (hc : c < 16777216) :
    (Flip.mk ((16777216 * m) ||| c)).getCycle = c ∧
    (Flip.mk ((16777216 * m) ||| c)).getPin = m % 128 ∧
    (Flip.mk ((16777216 * m) ||| c)).getState = decide (128 ≤ m) := by
  have hw : (16777216 * m) ||| c = 16777216 * m + c := by
    have := Nat.mul_add_lt_is_or (i := 24) (b := c) (by norm_num; exact hc) m
    norm_num at this
    exact this.symm
  have hmask : ∀ x : Nat, x &&& 0xFFFFFF = x % 16777216 := by
    intro x
    have := Nat.and_pow_two_sub_one_eq_mod x 24
    norm_num at this
    exact this
  have h7f : ∀ x : Nat, x &&& 0x7F = x % 128 := by
    intro x
    have := Nat.and_pow_two_sub_one_eq_mod x 7
    norm_num at this
    exact this
  unfold Flip.getCycle Flip.getPin Flip.getState
  simp only [hw, hmask, h7f, and_bit31, Nat.shiftRight_eq_div_pow]
  refine ⟨by omega, by norm_num; omega, ?_⟩
  by_cases h : 128 ≤ m
  · simp only [h, decide_True, decide_eq_true_eq]; omega
  · simp only [h, decide_False, decide_eq_false_iff_not]; omega

/-- An entry built by `add_flips` for a pin selector 1, 2 or 3 and a cycle below `2^24`
carries the cycle, the selector and the level. -/
theorem add_flips_word (st : Bool) (p c : Nat) (hp : p = 1 ∨ p = 2 ∨ p = 3)
    (hc : c < 16777216) :
    (Flip.mk ((if st = true then 0x80000000 else 0) ||| ((p <<< 24) % 4294967296) ||| c)).getCycle
      = c ∧
    (Flip.mk ((if st = true then 0x80000000 else 0) ||| ((p <<< 24) % 4294967296) ||| c)).getPin
      = p ∧
    (Flip.mk ((if st = true then 0x80000000 else 0) ||| ((p <<< 24) % 4294967296) ||| c)).getState
      = st := by
  have hK : (if st = true then 0x80000000 else 0) ||| ((p <<< 24) % 4294967296)
      = 16777216 * ((if st = true then 128 else 0) + p) := by
    rcases hp with h | h | h <;> subst h <;> cases st <;> decide
  rw [hK]
  obtain ⟨h1, h2, h3⟩ := flip_word_fields ((if st = true then 128 else 0) + p) c
    (by rcases hp with h | h | h <;> subst h <;> cases st <;> decide) hc
  refine ⟨h1, ?_, ?_⟩
  · rw [h2]; rcases hp with h | h | h <;> subst h <;> cases st <;> decide
  · rw [h3]; rcases hp with h | h | h <;> subst h <;> cases st <;> decide

end Arscore

namespace Arscore

/-- The loop of `add_flips` on cycles below `2^24`: the entries carry the cycles in order,
all name the pin, and their levels alternate starting from the negation of the level
before the loop. -/
theorem add_flips_entries_spec (p : Nat) (hp : p = 1 ∨ p = 2 ∨ p = 3) :
    ∀ (v : List Nat) (st : Bool), (∀ c ∈ v, c < 16777216) →
      (add_flips_entries ((p <<< 24) % 4294967296) st v).map Flip.getCycle = v ∧
      (add_flips_entries ((p <<< 24) % 4294967296) st v).length = v.length ∧
      ∀ (i : Nat) (f : Flip),
        (add_flips_entries ((p <<< 24) % 4294967296) st v)[i]? = some f →
        f.getPin = p ∧ f.getState = (if i % 2 = 0 then !st else st) := by
  intro v
  induction v with
  | nil =>
    intro st _
    refine ⟨rfl, rfl, ?_⟩
    intro i f h
    simp [add_flips_entries] at h
  | cons c v ih =>
    intro st hv
    have hc : c < 16777216 := hv c (List.mem_cons_self c v)
    have hv2 : ∀ x ∈ v, x < 16777216 := fun x hx => hv x (List.mem_cons_of_mem c hx)
    obtain ⟨ih1, ih2, ih3⟩ := ih (!st) hv2
    obtain ⟨w1, w2, w3⟩ := add_flips_word (!st) p c hp hc
    refine ⟨?_, ?_, ?_⟩
    · simp only [add_flips_entries, List.map_cons, ih1, w1]
    · simp only [add_flips_entries, List.length_cons, ih2]
    · intro i f h
      cases i with
      | zero =>
        simp only [add_flips_entries, List.getElem?_cons_zero, Option.some.injEq] at h
        subst h
        exact ⟨w2, by simpa using w3⟩
      | succ j =>
        simp only [add_flips_entries, List.getElem?_cons_succ] at h
        obtain ⟨g1, g2⟩ := ih3 j f h
        refine ⟨g1, ?_⟩
        rw [g2]
        by_cases hj : j % 2 = 0
        · have : (j + 1) % 2 ≠ 0 := by omega
          simp [hj, this]
        · have : (j + 1) % 2 = 0 := by omega
          simp [hj, this]

/-- C14 (the claim as stated fails): for the NMI cycle list `[0, 0x80000000]` the entry
of index 1 built by `add_flips` reads as asserting the pin although its index is odd, and
both entries read as cycle 0: a cycle of `2^24` or more overwrites the level and pin bits
of the packed word. -/
theorem add_flips_parity_counterexample :
    ((new_flips [0, 0x80000000] 2).map Flip.getState = [true, true]) ∧
    ((new_flips [0, 0x80000000] 2).map Flip.getCycle = [0, 0]) ∧
    ((add_flips empty_job_state [0, 0x80000000] 2).flips.map Flip.getState
      = [true, true]) := by
  decide

/-- C14 (amended): for every cycle list of one pin (selector 1, 2 or 3) whose cycles are
all below `2^24`, in any input order, `add_flips` appends to the schedule one entry per
listed cycle; the cycles of the new entries are the listed cycles in ascending order; and
the entry of index `i` names the pin and asserts it iff `i` is even (so deasserts it iff
`i` is odd). -/
theorem add_flips_alternates (s : State) (src : List Nat) (p : Nat)
    (hp : p = 1 ∨ p = 2 ∨ p = 3) (hc : ∀ c ∈ src, c < 16777216) :
    (add_flips s src p).flips = s.flips ++ new_flips src p ∧
    (new_flips src p).length = src.length ∧
    ((new_flips src p).map Flip.getCycle).Sorted (fun x y => x ≤ y) ∧
    ((new_flips src p).map Flip.getCycle).Perm src ∧
    ∀ (i : Nat) (h : i < (new_flips src p).length),
      ((new_flips src p).get ⟨i, h⟩).getPin = p ∧
      (((new_flips src p).get ⟨i, h⟩).getState = true ↔ i % 2 = 0) ∧
      (((new_flips src p).get ⟨i, h⟩).getState = false ↔ i % 2 = 1) := by
  have hv : ∀ c ∈ src.insertionSort (fun x y => x ≤ y), c < 16777216 := by
    intro c h
    exact hc c ((List.perm_insertionSort _ src).mem_iff.mp h)
  obtain ⟨e1, e2, e3⟩ :=
    add_flips_entries_spec p hp (src.insertionSort (fun x y => x ≤ y)) false hv
  refine ⟨rfl, ?_, ?_, ?_, ?_⟩
  · unfold new_flips
    rw [e2, List.length_insertionSort]
  · unfold new_flips
    rw [e1]
    exact List.sorted_insertionSort _ src
  · unfold new_flips
    rw [e1]
    exact List.perm_insertionSort _ src
  · intro i h
    have hget : (new_flips src p)[i]? = some ((new_flips src p).get ⟨i, h⟩) := by
      rw [List.getElem?_eq_getElem h]
      rfl
    obtain ⟨g1, g2⟩ := e3 i _ hget
    refine ⟨g1, ?_, ?_⟩
    · rw [g2]
      by_cases hi : i % 2 = 0 <;> simp [hi]
    · rw [g2]
      by_cases hi : i % 2 = 0
      · simp [hi]
      · have : i % 2 = 1 := by omega
        simp [hi, this]

/-- C14 witness: the NMI list `[9, 6]` given out of order. -/
theorem add_flips_alternates_witness :
    (∀ c ∈ [9, 6], c < 16777216) ∧
    (add_flips empty_job_state [9, 6] 2).flips
      = empty_job_state.flips ++ new_flips [9, 6] 2 ∧
    (new_flips [9, 6] 2).length = [9, 6].length ∧
    ((new_flips [9, 6] 2).map Flip.getCycle).Sorted (fun x y => x ≤ y) ∧
    ((new_flips [9, 6] 2).map Flip.getCycle).Perm [9, 6] ∧
    ∀ (i : Nat) (h : i < (new_flips [9, 6] 2).length),
      ((new_flips [9, 6] 2).get ⟨i, h⟩).getPin = 2 ∧
      (((new_flips [9, 6] 2).get ⟨i, h⟩).getState = true ↔ i % 2 = 0) ∧
      (((new_flips [9, 6] 2).get ⟨i, h⟩).getState = false ↔ i % 2 = 1) :=
  ⟨by decide,
   add_flips_alternates empty_job_state [9, 6] 2 (Or.inr (Or.inl rfl)) (by decide)⟩

end Arscore

/-! ## The address-bus word of the bench firmware -/

namespace Arscore

/-- A single bit tested by masking, in arithmetic. -/
theorem and_two_pow_ne_zero (x n : Nat) :
    ((x &&& 2 ^ n) != 0) = decide (x / 2 ^ n % 2 = 1) := by
  rw [and_two_pow_eq, Nat.testBit_to_div_mod]
  by_cases hx : x / 2 ^ n % 2 = 1 <;> simp [hx]

theorem or_two_pow_of_lt (x k : Nat) (h : x < 2 ^ k) : x ||| 2 ^ k = x + 2 ^ k := by
  have := Nat.mul_add_lt_is_or h 1
  rw [Nat.mul_one] at this
  rw [Nat.lor_comm, ← this, Nat.add_comm]

theorem and_FF00 (x : Nat) : x &&& 0xFF00 = x / 256 % 256 * 256 := by
  apply Nat.eq_of_testBit_eq
  intro i
  have e1 : (0xFF00 : Nat) = (2 ^ 8 - 1) <<< 8 := by decide
  have e2 : x / 256 % 256 * 256 = ((x >>> 8) &&& (2 ^ 8 - 1)) <<< 8 := by
    rw [Nat.and_pow_two_sub_one_eq_mod, Nat.shiftRight_eq_div_pow, Nat.shiftLeft_eq]
  rw [e2, Nat.testBit_and, e1, Nat.testBit_shiftLeft, Nat.testBit_shiftLeft, Nat.testBit_and,
    Nat.testBit_two_pow_sub_one, Nat.testBit_shiftRight]
  by_cases h : 8 ≤ i
  · have : 8 + (i - 8) = i := by omega
    simp [h, this]
  · simp [h]


/-- The packed word is the sum of its fields: no two of them share a bit. -/
theorem BUS_eq_sum (addr : Nat) (rwb vpb mlb sync : Bool) (ha : addr < 65536) :
    CPU.BUS addr rwb vpb mlb sync = CPU.bus_sum addr rwb vpb mlb sync := by
  have hlo : addr &&& 0xFF = addr % 256 := by
    have := Nat.and_pow_two_sub_one_eq_mod addr 8
    norm_num at this
    exact this
  have h0 : ((addr &&& 0xFF) <<< 1) ||| ((addr >>> 8) <<< 12)
      = 4096 * (addr / 256) + 2 * (addr % 256) := by
    rw [hlo, Nat.shiftLeft_eq, Nat.shiftLeft_eq, Nat.shiftRight_eq_div_pow, Nat.lor_comm]
    have := Nat.mul_add_lt_is_or (i := 12) (b := addr % 256 * 2 ^ 1) (by omega) (addr / 2 ^ 8)
    rw [← Nat.mul_comm (2 ^ 12), ← this]
    norm_num
    omega
  have h1 : ∀ r : Nat, r ≤ 1 →
      (4096 * (addr / 256) + 2 * (addr % 256)) ||| (512 * r)
        = 4096 * (addr / 256) + (512 * r + 2 * (addr % 256)) := by
    intro r hr
    have a1 := Nat.mul_add_lt_is_or (i := 12) (b := 2 * (addr % 256)) (by omega) (addr / 256)
    have a2 := Nat.mul_add_lt_is_or (i := 9) (b := 2 * (addr % 256)) (by omega) r
    have a3 := Nat.mul_add_lt_is_or (i := 12) (b := 512 * r + 2 * (addr % 256)) (by omega)
      (addr / 256)
    norm_num at a1 a2 a3
    rw [a1, Nat.lor_assoc, Nat.lor_comm (2 * (addr % 256)), ← a2, ← a3]
  have h1a := h1 1 (le_refl 1)
  norm_num at h1a
  have e21 : ∀ y : Nat, y < 2097152 → y ||| (1 <<< 21) = y + 2097152 :=
    fun y h => or_two_pow_of_lt y 21 h
  have e22 : ∀ y : Nat, y < 4194304 → y ||| (1 <<< 22) = y + 4194304 :=
    fun y h => or_two_pow_of_lt y 22 h
  have e23 : ∀ y : Nat, y < 8388608 → y ||| (1 <<< 23) = y + 8388608 :=
    fun y h => or_two_pow_of_lt y 23 h
  unfold CPU.BUS CPU.bus_sum bit_value
  simp only [h0]
  have hmod : (4096 * (addr / 256) + 2 * (addr % 256)) % 4294967296
      = 4096 * (addr / 256) + 2 * (addr % 256) := Nat.mod_eq_of_lt (by omega)
  rw [hmod]
  cases rwb <;> cases vpb <;> cases mlb <;> cases sync <;>
    simp only [Bool.not_true, Bool.not_false, if_true, if_false, Bool.false_eq_true, h1a] <;>
    (try rw [e21 _ (by omega)]) <;> (try rw [e22 _ (by omega)]) <;>
    (try rw [e23 _ (by omega)]) <;> omega

theorem and_two_pow_eq_zero (x n : Nat) :
    ((x &&& 2 ^ n) == 0) = decide (x / 2 ^ n % 2 = 0) := by
  rw [and_two_pow_eq, Nat.testBit_to_div_mod]
  by_cases hx : x / 2 ^ n % 2 = 1
  · have : ¬ x / 2 ^ n % 2 = 0 := by omega
    simp [hx]
  · have : x / 2 ^ n % 2 = 0 := by omega
    simp [this]

/-- The decoder in arithmetic: each output is a digit of the word. -/
theorem cookABus_eq (bus : Nat) :
    CPU.cookABus bus =
      ((bus / 2 % 256 + bus / 4096 % 256 * 256) % 65536, decide (bus / 512 % 2 = 1),
        decide (bus / 2097152 % 2 = 0), decide (bus / 4194304 % 2 = 0),
        decide (bus / 8388608 % 2 = 1)) := by
  have hlo : ∀ x : Nat, x &&& 0xFF = x % 256 := by
    intro x
    have := Nat.and_pow_two_sub_one_eq_mod x 8
    norm_num at this
    exact this
  have hor : (bus / 2 % 256) ||| (bus / 4096 % 256 * 256)
      = bus / 2 % 256 + bus / 4096 % 256 * 256 := by
    have := Nat.mul_add_lt_is_or (i := 8) (b := bus / 2 % 256) (by omega) (bus / 4096 % 256)
    norm_num at this
    rw [Nat.lor_comm, Nat.mul_comm, ← this]
    omega
  have h9 := and_two_pow_ne_zero bus 9
  have h21 := and_two_pow_eq_zero bus 21
  have h22 := and_two_pow_eq_zero bus 22
  have h23 := and_two_pow_ne_zero bus 23
  norm_num at h9 h21 h22 h23
  have hdiv : bus / 16 / 256 = bus / 4096 := by omega
  unfold CPU.cookABus
  simp only [hlo, and_FF00, Nat.shiftRight_eq_div_pow, Nat.shiftLeft_eq, Nat.one_mul]
  norm_num
  rw [hdiv, hor]
  refine ⟨rfl, ?_, ?_, ?_, ?_⟩
  · simpa using h9
  · simpa using h21
  · simpa using h22
  · simpa using h23

/-- The digits of a word that is the sum of its fields. -/
theorem bus_digits (lo hi r v m t : Nat) (hlo : lo < 256) (hhi : hi < 256) (hr : r ≤ 1)
    (hv : v ≤ 1) (hm : m ≤ 1) (ht : t ≤ 1) :
    ((2 * lo + 512 * r + 4096 * hi + 2097152 * v + 4194304 * m + 8388608 * t) / 2 % 256
      + (2 * lo + 512 * r + 4096 * hi + 2097152 * v + 4194304 * m + 8388608 * t) / 4096 % 256
        * 256) % 65536 = 256 * hi + lo ∧
    (2 * lo + 512 * r + 4096 * hi + 2097152 * v + 4194304 * m + 8388608 * t) / 512 % 2 = r ∧
    (2 * lo + 512 * r + 4096 * hi + 2097152 * v + 4194304 * m + 8388608 * t) / 2097152 % 2
      = v ∧
    (2 * lo + 512 * r + 4096 * hi + 2097152 * v + 4194304 * m + 8388608 * t) / 4194304 % 2
      = m ∧
    (2 * lo + 512 * r + 4096 * hi + 2097152 * v + 4194304 * m + 8388608 * t) / 8388608 % 2
      = t := by
  refine ⟨?_, ?_, ?_, ?_, ?_⟩ <;> omega

/-- C26: for every 16-bit address and all values of the four control lines, decoding the
packed bus word with `CPU::cookABus` returns exactly the address and the lines that
`CPU::BUS` packed; the word is the sum of the low address byte at bits 1..8, RWB at bit 9,
the high address byte at bits 12..19, inverted VPB and MLB at bits 21 and 22 and SYNC at
bit 23, so no two fields overlap. -/
theorem cookABus_BUS_roundtrip (addr : Nat) (rwb vpb mlb sync : Bool) (ha : addr < 65536) :
    CPU.cookABus (CPU.BUS addr rwb vpb mlb sync) = (addr, rwb, vpb, mlb, sync) ∧
    CPU.BUS addr rwb vpb mlb sync = CPU.bus_sum addr rwb vpb mlb sync := by
  refine ⟨?_, BUS_eq_sum addr rwb vpb mlb sync ha⟩
  rw [cookABus_eq, BUS_eq_sum addr rwb vpb mlb sync ha]
  unfold CPU.bus_sum
  have hb : ∀ b : Bool, bit_value b ≤ 1 := by intro b; cases b <;> decide
  obtain ⟨d1, d2, d3, d4, d5⟩ := bus_digits (addr % 256) (addr / 256) (bit_value rwb)
    (bit_value (!vpb)) (bit_value (!mlb)) (bit_value sync) (Nat.mod_lt _ (by norm_num))
    (by omega) (hb _) (hb _) (hb _) (hb _)
  rw [d1, d2, d3, d4, d5]
  have hadd : 256 * (addr / 256) + addr % 256 = addr := by omega
  rw [hadd]
  cases rwb <;> cases vpb <;> cases mlb <;> cases sync <;> rfl

/-- Witness for C26: a read of the reset vector at `0xFFFC` with VPB low (asserted). -/
theorem cookABus_BUS_roundtrip_witness :
    CPU.cookABus (CPU.BUS 0xFFFC true false true false) = (0xFFFC, true, false, true, false) ∧
    CPU.BUS 0xFFFC true false true false = CPU.bus_sum 0xFFFC true false true false :=
  cookABus_BUS_roundtrip 0xFFFC true false true false (by decide)

end Arscore

/-! ## The packed schedule entry -/

namespace Arscore

/-- The level and pin bits that `add_flips` puts above the cycle field. -/
theorem add_flips_high_bits (st : Bool) (p : Nat) (hp : p = 1 ∨ p = 2 ∨ p = 3) :
    (if st = true then 0x80000000 else 0) ||| ((p <<< 24) % 4294967296)
      = 16777216 * ((if st = true then 128 else 0) + p) := by
  rcases hp with h | h | h <;> subst h <;> cases st <;> decide

/-- The cycle field of an entry built by `add_flips` is the listed cycle modulo `2^24`. -/
theorem add_flips_word_cycle (st : Bool) (p c : Nat) (hp : p = 1 ∨ p = 2 ∨ p = 3) :
    (Flip.mk ((if st = true then 0x80000000 else 0) ||| ((p <<< 24) % 4294967296) ||| c)).getCycle
      = c % 16777216 := by
  have hmask : ∀ x : Nat, 0xFFFFFF &&& x = x % 16777216 := by
    intro x
    have := Nat.and_pow_two_sub_one_eq_mod x 24
    norm_num at this
    rw [Nat.and_comm]
    exact this
  rw [add_flips_high_bits st p hp]
  unfold Flip.getCycle
  simp only
  rw [Nat.and_comm, Nat.and_or_distrib_left, hmask, hmask, Nat.mul_mod_right, Nat.zero_or]

/-- C24 as stated fails: for the NMI list `[0x1000000]` the single entry that `add_flips`
builds (pin selector 2, parity state true) reads as cycle 0 on pin 3: the cycle `2^24` is
or-ed into the pin field. -/
theorem flip_entry_faithful_counterexample :
    (new_flips [0x1000000] 2).map (fun f => (f.getCycle, f.getPin, f.getState))
      = [(0, 3, true)] ∧
    (∀ f ∈ new_flips [0x1000000] 2, f.getCycle ≠ 0x1000000 ∧ f.getPin ≠ 2) := by
  decide

/-- C24 (amended): for every cycle value `c` of a job's so/nmi/irq list (any u32), pin
selector `p` in 1 (SO), 2 (NMI), 3 (IRQ) and parity state `s`, the schedule entry that the
loop of `add_flips` builds carries the cycle modulo `2^24`, `getCycle() == c mod 2^24`; and
when `c < 2^24` it carries all three faithfully: `getCycle() == c`, `getPin() == p` and
`getState() == s`. -/
theorem flip_entry_faithful_below_2_24 (p c : Nat) (s : Bool) (v : List Nat)
    (hp : p = 1 ∨ p = 2 ∨ p = 3) (hc : c < 4294967296) :
    ∃ f, add_flips_entries ((p <<< 24) % 4294967296) (!s) (c :: v)
        = f :: add_flips_entries ((p <<< 24) % 4294967296) s v ∧
      f.underlying < 4294967296 ∧
      f.getCycle = c % 16777216 ∧
      (c < 16777216 → f.getCycle = c ∧ f.getPin = p ∧ f.getState = s) := by
  refine ⟨Flip.mk ((if s = true then 0x80000000 else 0) ||| ((p <<< 24) % 4294967296) ||| c),
    ?_, ?_, add_flips_word_cycle s p c hp, fun h => add_flips_word s p c hp h⟩
  · simp [add_flips_entries]
  · have h32 : (4294967296 : Nat) = 2 ^ 32 := by norm_num
    simp only [h32]
    apply Nat.or_lt_two_pow
    · rw [← h32, add_flips_high_bits s p hp]
      rcases hp with h | h | h <;> subst h <;> cases s <;> decide
    · rw [← h32]; exact hc

/-- Witness for C24: the SO cycle 6 with parity state true. -/
theorem flip_entry_faithful_below_2_24_witness :
    ∃ f, add_flips_entries ((1 <<< 24) % 4294967296) (!true) (6 :: [])
        = f :: add_flips_entries ((1 <<< 24) % 4294967296) true [] ∧
      f.underlying < 4294967296 ∧
      f.getCycle = 6 % 16777216 ∧
      (6 < 16777216 → f.getCycle = 6 ∧ f.getPin = 1 ∧ f.getState = true) :=
  flip_entry_faithful_below_2_24 1 6 true [] (Or.inl rfl) (by decide)

end Arscore

/-! ## The cycle that reaches the limit -/

namespace Arscore

/-- On a reported cycle that reaches the limit the callback ends inside `report_cycle`:
it throws with the globals as `record_cycle` leaves them. -/
theorem callback_of_limit (s : State) (op : BusOp) (hrep : reports s op = true)
    (hl : limit_reached s) :
    callback s op = Res.thrown (record_cycle (before_report s op) (bus_cycle_type op)
      (bus_addr op) (bus_data s op)) := by
  cases op with
  | read_opcode addr rt =>
    simp only [reports] at hrep
    simp [callback, read_opcode, read_byte_eq, hrep, hl, Res.void, before_report,
      bus_cycle_type, bus_addr, bus_data]
  | read_byte addr rt =>
    simp only [reports] at hrep
    simp [callback, read_byte_eq, hrep, hl, Res.void, before_report, bus_cycle_type, bus_addr,
      bus_data]
  | fetch_vector_byte addr =>
    simp [callback, fetch_vector_byte_eq, hl, Res.void, before_report, bus_cycle_type,
      bus_addr, bus_data]
  | write_byte addr data wt =>
    simp [callback, write_byte_eq, hl, before_report, bus_cycle_type, bus_addr, bus_data]

/-- What the part of a callback that precedes `report_cycle` leaves alone. -/
theorem before_report_fields (s : State) (op : BusOp) :
    (before_report s op).sram = s.sram ∧ (before_report s op).serial_out = s.serial_out ∧
    (before_report s op).last_pc = s.last_pc ∧
    (before_report s op).last_pc_valid = s.last_pc_valid ∧
    (before_report s op).termination_cause = s.termination_cause ∧
    (before_report s op).next_flip = s.next_flip ∧
    (before_report s op).cpu_nmi = s.cpu_nmi ∧ (before_report s op).cpu_irq = s.cpu_irq ∧
    (before_report s op).cycles = s.cycles ∧
    (before_report s op).cycles_to_report = s.cycles_to_report ∧
    (before_report s op).num_cycles = s.num_cycles := by
  cases op <;> simp [before_report]

end Arscore

namespace Arscore

/-- C25: on the reported cycle that brings `num_cycles` to `cycles_to_run` the callback
records the cycle (a trace entry if budget remains, `num_cycles` incremented) and then
stops by `throw false` with no further effect: the termination cause stays 0, which the
result names `"limit"`; the memory image and the serial-out buffer are unchanged, so the
store of a write is not performed and `bad_write` is not raised; `last_pc` and
`last_pc_valid` are unchanged, so no predicate of an opcode fetch is evaluated; and no
scheduled pin edge is applied: `next_flip` is unchanged and the pin inputs are as the
callback had them when it called `report_cycle` (for a write, as before the callback). -/
theorem limit_cycle_records_then_stops (s : State) (op : BusOp)
    (hrep : reports s op = true) (hl : limit_reached s) (h0 : s.termination_cause = 0) :
    (callback s op).isThrown = true ∧
    (callback s op).state.cycles =
      (if 0 < s.cycles_to_report
        then s.cycles ++ [pack_cycle (bus_cycle_type op) (bus_addr op) (bus_data s op)]
        else s.cycles) ∧
    (callback s op).state.cycles_to_report = s.cycles_to_report - 1 ∧
    (callback s op).state.num_cycles = (s.num_cycles + 1) % 4294967296 ∧
    (callback s op).state.num_cycles = s.cycles_to_run ∧
    (callback s op).state.termination_cause = 0 ∧
    result_termination_cause (callback s op).state = "limit" ∧
    (callback s op).state.sram = s.sram ∧
    (callback s op).state.serial_out = s.serial_out ∧
    (callback s op).state.last_pc = s.last_pc ∧
    (callback s op).state.last_pc_valid = s.last_pc_valid ∧
    (callback s op).state.next_flip = s.next_flip ∧
    (callback s op).state.pin_calls = (before_report s op).pin_calls ∧
    (callback s op).state.cpu_so = (before_report s op).cpu_so ∧
    (callback s op).state.cpu_nmi = s.cpu_nmi ∧
    (callback s op).state.cpu_irq = s.cpu_irq ∧
    (∀ addr data wt, op = BusOp.write_byte addr data wt →
      (callback s op).state.pin_calls = s.pin_calls ∧
      (callback s op).state.cpu_so = s.cpu_so) := by
  obtain ⟨b1, b2, b3, b4, b5, b6, b7, b8, b9, b10, b11⟩ := before_report_fields s op
  obtain ⟨t1, t2⟩ := record_cycle_trace (before_report s op) (bus_cycle_type op) (bus_addr op)
    (bus_data s op)
  have hcause : (callback s op).state.termination_cause = 0 := by
    rw [callback_of_limit s op hrep hl]
    simp [b5, h0]
  have hnum : (callback s op).state.num_cycles = (s.num_cycles + 1) % 4294967296 := by
    rw [callback_of_limit s op hrep hl]
    simp [b11]
  refine ⟨?_, ?_, ?_, hnum, ?_, hcause, ?_, ?_, ?_, ?_, ?_, ?_, ?_, ?_, ?_, ?_, ?_⟩
  · rw [callback_of_limit s op hrep hl]; rfl
  · rw [callback_of_limit s op hrep hl]
    simp only [Res.state_thrown, t1, b9, b10]
  · rw [callback_of_limit s op hrep hl]
    simp only [Res.state_thrown, t2, b10]
  · rw [hnum]; exact hl
  · unfold result_termination_cause
    rw [hcause]
    rfl
  · rw [callback_of_limit s op hrep hl]; simp [b1]
  · rw [callback_of_limit s op hrep hl]; simp [b2]
  · rw [callback_of_limit s op hrep hl]; simp [b3]
  · rw [callback_of_limit s op hrep hl]; simp [b4]
  · rw [callback_of_limit s op hrep hl]; simp [b6]
  · rw [callback_of_limit s op hrep hl]; simp
  · rw [callback_of_limit s op hrep hl]; simp
  · rw [callback_of_limit s op hrep hl]; simp [b7]
  · rw [callback_of_limit s op hrep hl]; simp [b8]
  · intro addr data wt hop
    subst hop
    rw [callback_of_limit s _ hrep hl]
    simp [before_report]

/-- Witness for C25: a write on the limit cycle of the job `nmi: [6, 9]`, `max_cycles: 6`;
the NMI assertion scheduled for cycle 6 is not applied and the store is not performed. -/
theorem limit_cycle_records_then_stops_witness :
    limit_reached nmi_limit_state ∧
    (callback nmi_limit_state (BusOp.write_byte 0x10 0xAA WriteType.DATA)).isThrown = true ∧
    (callback nmi_limit_state (BusOp.write_byte 0x10 0xAA WriteType.DATA)).state.num_cycles
      = nmi_limit_state.cycles_to_run ∧
    result_termination_cause
      (callback nmi_limit_state (BusOp.write_byte 0x10 0xAA WriteType.DATA)).state = "limit" ∧
    (callback nmi_limit_state (BusOp.write_byte 0x10 0xAA WriteType.DATA)).state.sram
      = nmi_limit_state.sram ∧
    (callback nmi_limit_state (BusOp.write_byte 0x10 0xAA WriteType.DATA)).state.next_flip
      = nmi_limit_state.next_flip ∧
    (callback nmi_limit_state (BusOp.write_byte 0x10 0xAA WriteType.DATA)).state.cpu_nmi
      = nmi_limit_state.cpu_nmi :=
  have h := limit_cycle_records_then_stops nmi_limit_state
    (BusOp.write_byte 0x10 0xAA WriteType.DATA) rfl (by decide) rfl
  ⟨by decide, h.1, h.2.2.2.2.1, h.2.2.2.2.2.2.1, h.2.2.2.2.2.2.2.1,
    h.2.2.2.2.2.2.2.2.2.2.2.1, h.2.2.2.2.2.2.2.2.2.2.2.2.2.2.1⟩

end Arscore

/-! ## Cycles before the vector is pulled -/

namespace Arscore

/-- The pin calls of `raw_read_byte`: one assertion of SO when the serial-in port is read
drained, none otherwise. -/
theorem raw_read_byte_pin_calls (s : State) (addr : Nat) :
    (raw_read_byte s addr).2.pin_calls =
      (if drained_read s addr = true then s.pin_calls ++ [(1, true)] else s.pin_calls) ∧
    (raw_read_byte s addr).2.cpu_so =
      (if drained_read s addr = true then true else s.cpu_so) := by
  unfold raw_read_byte drained_read
  by_cases h1 : (s.serial_in_enabled && addr == s.serial_in_addr) = true
  · by_cases h2 : s.serial_in_pos ≥ s.serial_in.length
    · simp [h1, h2, cpu_set_so]
    · simp [h1, h2]
  · simp [h1]

/-- The flag `vector_has_been_pulled` after one bus cycle: set by a vector fetch, left
alone by every other callback. -/
theorem callback_vector_has_been_pulled (s : State) (op : BusOp) :
    (callback s op).state.vector_has_been_pulled =
      (s.vector_has_been_pulled || is_vector_fetch op) := by
  cases op with
  | read_opcode addr rt =>
    simp only [callback, read_opcode, read_byte_eq, Res.void_state, is_vector_fetch]
    by_cases hv : s.vector_has_been_pulled = true <;> by_cases hl : limit_reached s <;>
      by_cases hrt : rt = ReadType.OPCODE ∨ rt = ReadType.PREEMPTED <;> simp [hv, hl, hrt]
  | read_byte addr rt =>
    simp only [callback, read_byte_eq, Res.void_state, is_vector_fetch]
    by_cases hv : s.vector_has_been_pulled = true <;> by_cases hl : limit_reached s <;>
      by_cases hrt : rt = ReadType.OPCODE ∨ rt = ReadType.PREEMPTED <;> simp [hv, hl, hrt]
  | fetch_vector_byte addr =>
    simp only [callback, fetch_vector_byte_eq, Res.void_state, is_vector_fetch]
    by_cases hl : limit_reached s <;> simp [hl]
  | write_byte addr data wt =>
    simp only [callback, write_byte_eq, is_vector_fetch]
    by_cases hl : limit_reached s <;> simp [hl]

end Arscore

namespace Arscore

/-- C21 as stated fails for `write_byte`, which calls `report_cycle` whatever
`vector_has_been_pulled` is: in the job `nmi: [6, 9]`, `show_cycles: true`, a write to
`0x0300` made before the vector is pulled records a trace entry, brings `num_cycles` from 5
to 6, applies the NMI edge scheduled for cycle 6 and raises `bad_write`.  A read of the
drained serial-in port made before the vector is pulled asserts SO. -/
theorem unpulled_callbacks_counterexample :
    (nmi_show_cycles_job_state.vector_has_been_pulled = false ∧
      (callback nmi_show_cycles_job_state
        (BusOp.write_byte 0x0300 0xAA WriteType.DATA)).state.cycles = [0x60300AA] ∧
      (callback nmi_show_cycles_job_state
        (BusOp.write_byte 0x0300 0xAA WriteType.DATA)).state.num_cycles = 6 ∧
      (callback nmi_show_cycles_job_state
        (BusOp.write_byte 0x0300 0xAA WriteType.DATA)).state.pin_calls = [(2, true)] ∧
      (callback nmi_show_cycles_job_state
        (BusOp.write_byte 0x0300 0xAA WriteType.DATA)).isThrown = true ∧
      (callback nmi_show_cycles_job_state
        (BusOp.write_byte 0x0300 0xAA WriteType.DATA)).state.termination_cause = 6) ∧
    (drained_serial_job_state.vector_has_been_pulled = false ∧
      (callback drained_serial_job_state
        (BusOp.read_byte 0x0000 ReadType.DATA)).state.pin_calls = [(1, true)]) := by
  decide

/-- C21 (amended): a read callback (`read_opcode` or `read_byte`, any read type) invoked
while `vector_has_been_pulled` is false returns normally and records no trace entry,
leaves `num_cycles` unchanged, applies no scheduled pin edge (`next_flip`, NMI and IRQ are
unchanged, and the only pin call is the assertion of SO that the read itself makes when it
finds the serial-in port drained) and raises no termination; the flag stays false.  Over
all callbacks the flag becomes true only in `fetch_vector_byte`.  `write_byte` is not
gated on the flag: it reports its cycle, so `num_cycles` is incremented. -/
theorem unpulled_reads_not_reported (s : State) (op : BusOp)
    (hv : s.vector_has_been_pulled = false) (hop : is_plain_read op = true) :
    (callback s op).isThrown = false ∧
    (callback s op).state.cycles = s.cycles ∧
    (callback s op).state.cycles_to_report = s.cycles_to_report ∧
    (callback s op).state.num_cycles = s.num_cycles ∧
    (callback s op).state.next_flip = s.next_flip ∧
    (callback s op).state.cpu_nmi = s.cpu_nmi ∧
    (callback s op).state.cpu_irq = s.cpu_irq ∧
    (callback s op).state.pin_calls =
      (if drained_read s (bus_addr op) = true then s.pin_calls ++ [(1, true)]
        else s.pin_calls) ∧
    (callback s op).state.termination_cause = s.termination_cause ∧
    (callback s op).state.vector_has_been_pulled = false ∧
    (∀ (t : State) (o : BusOp),
      (callback t o).state.vector_has_been_pulled =
        (t.vector_has_been_pulled || is_vector_fetch o)) ∧
    (∀ addr data wt,
      (callback s (BusOp.write_byte addr data wt)).state.num_cycles =
        (s.num_cycles + 1) % 4294967296) := by
  have hstate : callback s op = Res.ok () (raw_read_byte s (bus_addr op)).2 := by
    cases op with
    | read_opcode a rt => simp [callback, read_opcode, read_byte_eq, hv, Res.void, bus_addr]
    | read_byte a rt => simp [callback, read_byte_eq, hv, Res.void, bus_addr]
    | fetch_vector_byte a => simp [is_plain_read] at hop
    | write_byte a d wt => simp [is_plain_read] at hop
  refine ⟨?_, ?_, ?_, ?_, ?_, ?_, ?_, ?_, ?_, ?_, callback_vector_has_been_pulled, ?_⟩
  · rw [hstate]; rfl
  · rw [hstate]; simp
  · rw [hstate]; simp
  · rw [hstate]; simp
  · rw [hstate]; simp
  · rw [hstate]; simp
  · rw [hstate]; simp
  · rw [hstate]; exact (raw_read_byte_pin_calls s (bus_addr op)).1
  · rw [hstate]; simp
  · rw [hstate]; simpa using hv
  · intro addr data wt
    have h := (callback_counters s (BusOp.write_byte addr data wt)).2
    simpa [reports] using h

/-- Witness for C21: a stack read of `cpu.reset()` in the empty job. -/
theorem unpulled_reads_not_reported_witness :
    (callback empty_job_state (BusOp.read_byte 0x0100 ReadType.STACK)).isThrown = false ∧
    (callback empty_job_state (BusOp.read_byte 0x0100 ReadType.STACK)).state.cycles
      = empty_job_state.cycles ∧
    (callback empty_job_state (BusOp.read_byte 0x0100 ReadType.STACK)).state.num_cycles
      = empty_job_state.num_cycles ∧
    (callback empty_job_state (BusOp.read_byte 0x0100 ReadType.STACK)).state.next_flip
      = empty_job_state.next_flip ∧
    (callback empty_job_state
      (BusOp.read_byte 0x0100 ReadType.STACK)).state.termination_cause
      = empty_job_state.termination_cause :=
  have h := unpulled_reads_not_reported empty_job_state (BusOp.read_byte 0x0100 ReadType.STACK)
    rfl rfl
  ⟨h.1, h.2.1, h.2.2.2.1, h.2.2.2.2.1, h.2.2.2.2.2.2.2.2.1⟩

end Arscore

/-! ## The flag `clear_so_next_cycle` -/

namespace Arscore

/-- No callback resets `clear_so_next_cycle`. -/
theorem callback_clear_so_next_cycle (s : State) (op : BusOp)
    (h : s.clear_so_next_cycle = true) :
    (callback s op).state.clear_so_next_cycle = true := by
  have hraw : ∀ a, (raw_read_byte s a).2.clear_so_next_cycle = true := by
    intro a
    unfold raw_read_byte
    split
    · split
      · rfl
      · exact h
    · exact h
  have hstore : ∀ (t : State) (a d : Nat), t.clear_so_next_cycle = true →
      (write_store t a d).state.clear_so_next_cycle = true := by
    intro t a d ht
    unfold write_store
    simp only []
    split_ifs <;> first | rfl | exact ht
  cases op with
  | read_opcode addr rt =>
    simp only [callback, read_opcode, read_byte_eq, Res.void_state]
    by_cases hv : s.vector_has_been_pulled = true <;> by_cases hl : limit_reached s <;>
      by_cases hrt : rt = ReadType.OPCODE ∨ rt = ReadType.PREEMPTED <;>
      simp [hv, hl, hrt, hraw]
  | read_byte addr rt =>
    simp only [callback, read_byte_eq, Res.void_state]
    by_cases hv : s.vector_has_been_pulled = true <;> by_cases hl : limit_reached s <;>
      by_cases hrt : rt = ReadType.OPCODE ∨ rt = ReadType.PREEMPTED <;>
      simp [hv, hl, hrt, hraw]
  | fetch_vector_byte addr =>
    simp only [callback, fetch_vector_byte_eq, Res.void_state]
    by_cases hl : limit_reached s <;> simp [hl, hraw]
  | write_byte addr data wt =>
    simp only [callback, write_byte_eq]
    by_cases hl : limit_reached s
    · simp [hl, h]
    · simp only [hl, if_false]
      exact hstore _ _ _ (by simp [h])

/-- Once `clear_so_next_cycle` is set, each completed iteration of the run loop ends
with SO deasserted by the loop: when all the listed steps have run, SO is low and the last
pin call is that deassertion. -/
theorem run_loop_running_so_low (steps : List (List BusOp)) :
    ∀ (s s1 : State), s.clear_so_next_cycle = true → steps ≠ [] →
      run_loop s steps = Outcome.running s1 →
      s1.cpu_so = false ∧ s1.pin_calls.getLast? = some (1, false) := by
  induction steps with
  | nil => intro s s1 _ hne; exact absurd rfl hne
  | cons step rest ih =>
    intro s s1 hflag _ hrun
    unfold run_loop at hrun
    by_cases hc : s.num_cycles < s.cycles_to_run
    · simp only [hc, if_true] at hrun
      have hinv := (run_ops_invariant (fun t => t.clear_so_next_cycle = true) (fun _ => True)
        (fun t op ht _ => callback_clear_so_next_cycle t op ht) s step hflag
        (fun _ _ => trivial)).2
      cases hr : run_ops s step with
      | thrown s2 =>
        rw [hr] at hrun
        simp at hrun
      | ok v s2 =>
        rw [hr] at hrun hinv
        simp only [Res.state_ok] at hinv
        simp only [hinv, if_true] at hrun
        cases rest with
        | nil =>
          unfold run_loop at hrun
          split at hrun
          · injection hrun with hrun
            subst hrun
            simp
          · simp at hrun
        | cons r rs =>
          exact ih (cpu_set_so s2 false) s1 (by simpa using hinv) (by simp) hrun
    · simp [hc] at hrun

end Arscore

namespace Arscore

/-- No statement of the run loop or of a callback resets `clear_so_next_cycle`: when a
step that completes has set it, the run loop deasserts SO after that step and the flag is
still set; it is then set before every later bus cycle and at the end of the run, and
after every later step that completes the loop deasserts SO again. -/
theorem run_loop_keeps_clear_so_next_cycle (s : State) (step : List BusOp)
    (rest : List (List BusOp)) (hlt : s.num_cycles < s.cycles_to_run)
    (hok : (run_ops s step).isThrown = false)
    (hflag : (run_ops s step).state.clear_so_next_cycle = true) :
    run_loop s (step :: rest) = run_loop (cpu_set_so (run_ops s step).state false) rest ∧
    (cpu_set_so (run_ops s step).state false).cpu_so = false ∧
    (cpu_set_so (run_ops s step).state false).clear_so_next_cycle = true ∧
    (∀ e ∈ loop_trace (cpu_set_so (run_ops s step).state false) rest,
      e.1.clear_so_next_cycle = true) ∧
    (run_loop s (step :: rest)).state.clear_so_next_cycle = true ∧
    (∀ s1, rest ≠ [] → run_loop s (step :: rest) = Outcome.running s1 →
      s1.cpu_so = false ∧ s1.pin_calls.getLast? = some (1, false)) := by
  have hstep : run_loop s (step :: rest)
      = run_loop (cpu_set_so (run_ops s step).state false) rest := by
    conv_lhs => unfold run_loop
    simp only [hlt, if_true]
    cases hr : run_ops s step with
    | thrown s2 => rw [hr] at hok; simp at hok
    | ok v s2 =>
      rw [hr] at hflag
      simp only [Res.state_ok] at hflag ⊢
      simp only [hflag, if_true]
  have hset : (cpu_set_so (run_ops s step).state false).clear_so_next_cycle = true := by
    simpa using hflag
  obtain ⟨i1, i2⟩ := run_loop_invariant (fun t => t.clear_so_next_cycle = true)
    (fun _ => True) (fun t op ht _ => callback_clear_so_next_cycle t op ht)
    (fun t ht => by simpa using ht) (cpu_set_so (run_ops s step).state false) rest hset
    (fun _ _ => trivial)
  refine ⟨hstep, by simp, hset, i1, ?_, ?_⟩
  · rw [hstep]; exact i2
  · intro s1 hne hrun
    rw [hstep] at hrun
    exact run_loop_running_so_low rest _ s1 hset hne hrun

/-- C22, the code at the failing input: the job
`{"init": [{"base": 512, "data": "base64:rQTw6urq"}], "serial_in_addr": 61444, "so": [12]}`
run through `cpu.reset()` and the two steps `LDA $F004` and `NOP`.  The first step reads
the drained serial-in port, which asserts SO and sets `clear_so_next_cycle`, and the run
loop deasserts SO after it.  The second step touches no serial port; the schedule asserts
SO at cycle 12 during it, and the run loop deasserts SO again at the end of that iteration
because the flag was never reset: the scheduled assertion is cancelled.  With the flag
reset after the first step, as the claim has it, the second step leaves the flag reset
and SO asserted. -/
theorem scheduled_so_cancelled_after_drain :
    so_drain_job_state.flips = [Flip.mk 0x8100000C] ∧
    [0x0200, 0x0201, 0x0202, 0x0203, 0x0204, 0x0205].map so_drain_job_state.sram
      = [0xAD, 0x04, 0xF0, 0xEA, 0xEA, 0xEA] ∧
    (main_run so_drain_job_state reset_vector_fetches
      [lda_serial_step]).state.clear_so_next_cycle = true ∧
    (main_run so_drain_job_state reset_vector_fetches [lda_serial_step]).state.pin_calls
      = [(1, true), (1, false)] ∧
    (main_run so_drain_job_state reset_vector_fetches
      [lda_serial_step, nop_step]).isResult = false ∧
    (main_run so_drain_job_state reset_vector_fetches
      [lda_serial_step, nop_step]).state.num_cycles = 13 ∧
    (main_run so_drain_job_state reset_vector_fetches
      [lda_serial_step, nop_step]).state.pin_calls
      = [(1, true), (1, false), (1, true), (1, false)] ∧
    (main_run so_drain_job_state reset_vector_fetches
      [lda_serial_step, nop_step]).state.cpu_so = false ∧
    (main_run so_drain_job_state reset_vector_fetches
      [lda_serial_step, nop_step]).state.clear_so_next_cycle = true ∧
    (run_ops { (main_run so_drain_job_state reset_vector_fetches [lda_serial_step]).state with
        clear_so_next_cycle := false } nop_step).state.clear_so_next_cycle = false ∧
    (run_ops { (main_run so_drain_job_state reset_vector_fetches [lda_serial_step]).state with
        clear_so_next_cycle := false } nop_step).state.cpu_so = true := by
  decide

end Arscore

/-! ## The merged pin-edge list -/

namespace Arscore

end Arscore

/-! ## The library function `std::sort` -/

namespace Arscore

theorem partition_scan_down_le (comp : Flip → Flip → Bool) (v : List Flip) (pivot last : Nat) :
    partition_scan_down comp v pivot last ≤ last := by
  induction last with
  | zero => simp [partition_scan_down]
  | succ n ih =>
    unfold partition_scan_down
    split
    · omega
    · omega

theorem partition_scan_up_ge (comp : Flip → Flip → Bool) (v : List Flip) (pivot fuel : Nat) :
    ∀ first, first ≤ partition_scan_up comp v pivot fuel first := by
  induction fuel with
  | zero => intro first; simp [partition_scan_up]
  | succ n ih =>
    intro first
    unfold partition_scan_up
    split
    · have := ih (first + 1); omega
    · omega

end Arscore

namespace Arscore

end Arscore

namespace Arscore

end Arscore

namespace Arscore

end Arscore

namespace Arscore

end Arscore

namespace Arscore

theorem lg_loop_eq (fuel : Nat) : ∀ n, n ≤ fuel → lg_loop fuel n = Nat.log2 n := by
  induction fuel with
  | zero =>
    intro n hn
    have : n = 0 := by omega
    subst this
    unfold lg_loop Nat.log2
    simp
  | succ f ih =>
    intro n hn
    unfold lg_loop
    rw [Nat.log2]
    split
    · rw [ih (n / 2) (by omega)]
    · rfl

/-- The function `lg` is the floor of the binary logarithm, as `std::__lg`. -/
theorem lg_eq_log2 (n : Nat) : lg n = Nat.log2 n := lg_loop_eq n n (le_refl n)

/-- The loop of `__push_heap` ends within `holeIndex` iterations: more fuel gives the same
result. -/
theorem push_heap_fuel (comp : Flip → Flip → Bool) (first : Nat) (value : Flip)
    (topIndex f1 : Nat) :
    ∀ (f2 : Nat) (v : List Flip) (holeIndex : Nat), holeIndex ≤ f1 → holeIndex ≤ f2 →
      push_heap comp first value topIndex f1 v holeIndex =
        push_heap comp first value topIndex f2 v holeIndex := by
  induction f1 with
  | zero =>
    intro f2 v holeIndex h1 _
    have : holeIndex = 0 := by omega
    subst this
    cases f2 with
    | zero => rfl
    | succ f2 => simp [push_heap]
  | succ f1 ih =>
    intro f2 v holeIndex h1 h2
    cases f2 with
    | zero =>
      have : holeIndex = 0 := by omega
      subst this
      simp [push_heap]
    | succ f2 =>
      unfold push_heap
      simp only
      split
      · next hc =>
        simp only [Bool.and_eq_true, decide_eq_true_eq] at hc
        exact ih f2 _ _ (by omega) (by omega)
      · rfl

/-- The first loop of `__adjust_heap` ends within `(len - 1) / 2 - secondChild`
iterations: more fuel gives the same result. -/
theorem adjust_heap_down_fuel (comp : Flip → Flip → Bool) (first len f1 : Nat) :
    ∀ (f2 : Nat) (v : List Flip) (holeIndex secondChild : Nat),
      (len - 1) / 2 - secondChild ≤ f1 → (len - 1) / 2 - secondChild ≤ f2 →
      adjust_heap_down comp first len f1 v holeIndex secondChild =
        adjust_heap_down comp first len f2 v holeIndex secondChild := by
  induction f1 with
  | zero =>
    intro f2 v holeIndex secondChild h1 _
    cases f2 with
    | zero => rfl
    | succ f2 =>
      unfold adjust_heap_down
      rw [if_neg (by omega)]
  | succ f1 ih =>
    intro f2 v holeIndex secondChild h1 h2
    cases f2 with
    | zero =>
      unfold adjust_heap_down
      rw [if_neg (by omega)]
    | succ f2 =>
      unfold adjust_heap_down
      split
      · simp only
        split
        · exact ih f2 _ _ _ (by omega) (by omega)
        · exact ih f2 _ _ _ (by omega) (by omega)
      · rfl

/-- The loop of `__unguarded_partition` ends within `last - first + 1` iterations: more
fuel gives the same result. -/
theorem unguarded_partition_fuel (comp : Flip → Flip → Bool) (pivot f1 : Nat) :
    ∀ (f2 : Nat) (v : List Flip) (first last : Nat),
      last - first + 1 ≤ f1 → last - first + 1 ≤ f2 →
      unguarded_partition comp pivot f1 v first last =
        unguarded_partition comp pivot f2 v first last := by
  induction f1 with
  | zero => intro f2 v first last h1 _; omega
  | succ f1 ih =>
    intro f2 v first last h1 h2
    cases f2 with
    | zero => omega
    | succ f2 =>
      unfold unguarded_partition
      simp only
      have g1 := partition_scan_up_ge comp v pivot (v.length - first) first
      have g2 := partition_scan_down_le comp v pivot (last - 1)
      split
      · rfl
      · next hlt =>
        simp only [Bool.not_eq_true', decide_eq_false_iff_not, not_not] at hlt
        exact ih f2 _ _ _ (by omega) (by omega)

end Arscore

namespace Arscore

/-- The loop `while (comp(first, pivot)) ++first;` stops at the first element that is not
below the pivot: when there is one within the fuel, more fuel gives the same result. -/
theorem partition_scan_up_fuel (comp : Flip → Flip → Bool) (v : List Flip) (pivot f1 : Nat) :
    ∀ (f2 first k : Nat), first ≤ k → k - first < f1 → k - first < f2 →
      comp (elem v k) (elem v pivot) = false →
      partition_scan_up comp v pivot f1 first = partition_scan_up comp v pivot f2 first := by
  induction f1 with
  | zero => intro f2 first k _ h1 _ _; omega
  | succ f1 ih =>
    intro f2 first k hk h1 h2 hstop
    cases f2 with
    | zero => omega
    | succ f2 =>
      unfold partition_scan_up
      split
      · next hc =>
        have hne : first ≠ k := by
          intro h
          subst h
          rw [hstop] at hc
          exact absurd hc (by decide)
        exact ih f2 (first + 1) k (by omega) (by omega) (by omega) hstop
      · rfl

end Arscore

/-! ## The merge of `main` -/

namespace Arscore

end Arscore
